import Mathlib

/-!
Verification development for the DataTree page store and tree layer.

The Rust sources are embedded shallowly: byte buffers are lists of natural
numbers (each byte below 256 where it matters), fixed-width integers are
naturals combined little-endian with explicit truncation, fallible or
panicking code paths are represented with Option and explicit result types,
and the in-memory page store is an association list from page ids to stored
byte images.
-/

set_option maxRecDepth 8000
set_option maxHeartbeats 1000000

namespace DataTreeSpec

instance {ε α : Type} [DecidableEq ε] [DecidableEq α] : DecidableEq (Except ε α) :=
  fun x y =>
  match x, y with
  | .ok a, .ok b =>
    if h : a = b then .isTrue (congrArg Except.ok h)
    else .isFalse (fun hc => h (Except.ok.inj hc))
  | .error a, .error b =>
    if h : a = b then .isTrue (congrArg Except.error h)
    else .isFalse (fun hc => h (Except.error.inj hc))
  | .ok _, .error _ => .isFalse (fun hc => Except.noConfusion hc)
  | .error _, .ok _ => .isFalse (fun hc => Except.noConfusion hc)

/-- Encode the low `w` bytes of `n` in little-endian order, mirroring
`to_le_bytes` on an unsigned integer of width `w`. -/
def toLE : Nat → Nat → List Nat
  | 0, _ => []
  | w + 1, n => n % 256 :: toLE w (n / 256)

/-- Decode a little-endian byte list, mirroring `from_le_bytes`. -/
def fromLE : List Nat → Nat
  | [] => 0
  | b :: bs => b + 256 * fromLE bs

/-! ### CRC-32C (Castagnoli), reflected bit-serial form

The page store attaches a CRC-32C over each stored payload.  The `crc`
crate computes CRC-32/ISCSI, whose bit-serial form uses the reflected
polynomial 0x82F63B78 with initial value and final xor 0xFFFFFFFF. -/

def CRC_POLY : Nat := 0x82F63B78

/-- Process one bit of state: shift right, conditionally xor the polynomial. -/
def crcStep (s : Nat) : Nat := (s / 2) ^^^ (if s % 2 = 1 then CRC_POLY else 0)

/-- Absorb one byte into the state. -/
def crcByte (s b : Nat) : Nat := crcStep^[8] (s ^^^ b)

/-- Absorb a byte list into the state. -/
def crcRaw (s : Nat) (bs : List Nat) : Nat := bs.foldl crcByte s

/-- Full CRC-32C of a byte list. -/
def crc32c (bs : List Nat) : Nat := crcRaw 0xFFFFFFFF bs ^^^ 0xFFFFFFFF

/-- Slice of a byte list: drop `off`, then take `len`.  Callers that must
mirror a panicking Rust slice guard the range explicitly before using it. -/
def sliceL (l : List Nat) (off len : Nat) : List Nat := (l.drop off).take len

/-- Page type tag.  The variants `leafPage` (1) and `branchPage` (2) are from
`PageType` in data_tree.rs.  The variant `rleLeafPage` is Modelled from the
spec: §3 assigns the RleLeaf tag 3; the enum variant used by rle_leaf_page.rs
is not present under src. -/
inductive PageType where
  | leafPage
  | branchPage
  | rleLeafPage
deriving DecidableEq, Repr

def PageType.from_u8 : Nat → Option PageType
  | 1 => some .leafPage
  | 2 => some .branchPage
  | 3 => some .rleLeafPage
  | _ => none

def PageType.to_u8 : PageType → Nat
  | .leafPage => 1
  | .branchPage => 2
  | .rleLeafPage => 3

structure KeyValueMeta where
  key_offset : Nat
  key_length : Nat
  value_offset : Nat
  value_length : Nat
deriving DecidableEq, Repr, Inhabited

structure LeafPage where
  page_type : PageType
  page_size : Nat
  metadata : List KeyValueMeta
  data : List Nat
  prev_page_id : Nat
  next_page_id : Nat
deriving DecidableEq, Repr

def LeafPage.new (page_size : Nat) : LeafPage :=
  { page_type := .leafPage, page_size := page_size, metadata := [], data := [],
    prev_page_id := 0, next_page_id := 0 }

/-- Leaf header size: tag(1) + count(8) + data_start(8) + used(8) + prev(8) + next(8). -/
def LEAF_HEADER : Nat := 41

def LeafPage.serialize (p : LeafPage) : List Nat :=
  [p.page_type.to_u8]
    ++ toLE 8 p.metadata.length
    ++ toLE 8 (LEAF_HEADER + 16 * p.metadata.length)
    ++ toLE 8 p.data.length
    ++ toLE 8 p.prev_page_id
    ++ toLE 8 p.next_page_id
    ++ (p.metadata.map (fun m => toLE 8 m.key_length ++ toLE 8 m.value_length)).flatten
    ++ p.data

/-- Read a u64 little-endian field at `off`; `none` models the Rust slice
panic when fewer than 8 bytes remain. -/
def readU64 (bs : List Nat) (off : Nat) : Option Nat :=
  if off + 8 ≤ bs.length then some (fromLE (sliceL bs off 8)) else none

/-- Parse `count` leaf slot entries starting at byte offset `off`, threading
the running data offset `cur` exactly as the deserialize loop does. -/
def parseLeafMetas (bs : List Nat) : Nat → Nat → Nat → Option (List KeyValueMeta)
  | 0, _, _ => some []
  | count + 1, off, cur => do
    let kl ← readU64 bs off
    let vl ← readU64 bs (off + 8)
    let rest ← parseLeafMetas bs count (off + 16) (cur + kl + vl)
    some ({ key_offset := cur, key_length := kl, value_offset := cur + kl,
            value_length := vl } :: rest)

/-- Leaf page deserialization.  `none` marks the buffer accesses on which the
Rust code panics (any out-of-range index or slice). -/
def LeafPage.deserialize (bs : List Nat) : Option LeafPage := do
  let t0 ← bs.get? 0
  let count ← readU64 bs 1
  let dstart ← readU64 bs 9
  let used ← readU64 bs 17
  let prev ← readU64 bs 25
  let next ← readU64 bs 33
  let metas ← parseLeafMetas bs count LEAF_HEADER 0
  if dstart + used ≤ bs.length then
    some { page_type := (PageType.from_u8 t0).getD .leafPage,
           page_size := bs.length, metadata := metas,
           data := sliceL bs dstart used, prev_page_id := prev, next_page_id := next }
  else none

def LeafPage.metaKey (p : LeafPage) (m : KeyValueMeta) : List Nat :=
  sliceL p.data m.key_offset m.key_length

def LeafPage.metaValue (p : LeafPage) (m : KeyValueMeta) : List Nat :=
  sliceL p.data m.value_offset m.value_length

def LeafPage.get (p : LeafPage) (key : List Nat) : Option (List Nat) :=
  (p.metadata.find? (fun m => p.metaKey m == key)).map (fun m => p.metaValue m)

/-- Rebuild the data region contiguously in slot order (slots first sorted by
key offset, a stable sort in the source). -/
def LeafPage.compact_data (p : LeafPage) : LeafPage :=
  if p.metadata.isEmpty then { p with data := [] }
  else
    let sorted := p.metadata.insertionSort (fun a b => a.key_offset ≤ b.key_offset)
    let rebuilt := sorted.foldl (fun acc m =>
      (acc.1 ++ p.metaKey m ++ p.metaValue m,
       acc.2 ++ [{ key_offset := acc.1.length, key_length := m.key_length,
                   value_offset := acc.1.length + m.key_length,
                   value_length := m.value_length : KeyValueMeta }]))
      (([], []) : List Nat × List KeyValueMeta)
    { p with data := rebuilt.1, metadata := rebuilt.2 }

def LeafPage.insert (p : LeafPage) (key value : List Nat) : Bool × LeafPage :=
  match p.metadata.findIdx? (fun m => p.metaKey m == key) with
  | some pos =>
    let old := p.metadata.getD pos default
    let required := if value.length > old.value_length
      then value.length - old.value_length else 0
    if p.data.length + required > p.page_size then (false, p)
    else
      let p1 := LeafPage.compact_data { p with metadata := p.metadata.eraseIdx pos }
      let newMeta : KeyValueMeta :=
        { key_offset := p1.data.length, key_length := key.length,
          value_offset := p1.data.length + key.length, value_length := value.length }
      (true, { p1 with data := p1.data ++ key ++ value,
                       metadata := p1.metadata ++ [newMeta] })
  | none =>
    if p.data.length + (key.length + value.length)
        + (p.metadata.length + 1) * 16 + LEAF_HEADER > p.page_size then (false, p)
    else
      let newMeta : KeyValueMeta :=
        { key_offset := p.data.length, key_length := key.length,
          value_offset := p.data.length + key.length, value_length := value.length }
      (true, { p with data := p.data ++ key ++ value,
                      metadata := p.metadata ++ [newMeta] })

def LeafPage.delete (p : LeafPage) (key : List Nat) : Bool × LeafPage :=
  match p.metadata.findIdx? (fun m => p.metaKey m == key) with
  | some pos => (true, LeafPage.compact_data { p with metadata := p.metadata.eraseIdx pos })
  | none => (false, p)

def LeafPage.set_prev_page_id (p : LeafPage) (id : Nat) : LeafPage :=
  { p with prev_page_id := id }

def LeafPage.set_next_page_id (p : LeafPage) (id : Nat) : LeafPage :=
  { p with next_page_id := id }

def LeafPage.max_value_size (p : LeafPage) : Nat := p.page_size - 32 - 32

def LeafPage.is_value_too_large (p : LeafPage) (value : List Nat) : Bool :=
  value.length > p.max_value_size

/-! ### Branch page codec (src/branch_page.rs) -/

structure BranchEntry where
  page_id : Nat
  first_key : Nat
deriving DecidableEq, Repr, Inhabited

structure BranchPage where
  page_type : PageType
  page_size : Nat
  entries : List BranchEntry
  prev_page_id : Nat
  next_page_id : Nat
deriving DecidableEq, Repr

def BranchPage.new (page_size : Nat) : BranchPage :=
  { page_type := .branchPage, page_size := page_size, entries := [],
    prev_page_id := 0, next_page_id := 0 }

/-- Insert keeping the array sorted by first key.  The source computes the
position with a binary search; on a list with no duplicate first key this is
the unique sorted insertion point realized below. -/
def branchInsertAt (e : BranchEntry) : List BranchEntry → List BranchEntry
  | [] => [e]
  | x :: xs => if e.first_key < x.first_key then e :: x :: xs else x :: branchInsertAt e xs

def BranchPage.insert (p : BranchPage) (page_id first_key : Nat) : Bool × BranchPage :=
  (true, { p with entries := branchInsertAt { page_id := page_id, first_key := first_key } p.entries })

/-- Scan of the entry array matching the find loop in the source: for each
entry the candidate range is closed below by its first key and open above by
the next first key, the last entry taking everything above it. -/
def branchFindFrom (key : Nat) : List BranchEntry → Option Nat
  | [] => none
  | [e] => some e.page_id
  | e :: e2 :: rest =>
    if e.first_key ≤ key ∧ key < e2.first_key then some e.page_id
    else branchFindFrom key (e2 :: rest)

def BranchPage.find_page_id (p : BranchPage) (key : Nat) : Option Nat :=
  match p.entries with
  | [] => none
  | e0 :: rest =>
    if key < e0.first_key then some e0.page_id
    else branchFindFrom key (e0 :: rest)

def BranchEntry.serialize (e : BranchEntry) : List Nat :=
  toLE 8 e.page_id ++ toLE 8 e.first_key

/-- Branch header size: tag(1) + count(8) + prev(8) + next(8). -/
def BRANCH_HEADER : Nat := 25

def BranchPage.serialize (p : BranchPage) : List Nat :=
  [p.page_type.to_u8]
    ++ toLE 8 p.entries.length
    ++ toLE 8 p.prev_page_id
    ++ toLE 8 p.next_page_id
    ++ (p.entries.map BranchEntry.serialize).flatten

def parseBranchEntries (bs : List Nat) : Nat → Nat → Option (List BranchEntry)
  | 0, _ => some []
  | count + 1, off =>
    if off + 16 ≤ bs.length then do
      let rest ← parseBranchEntries bs count (off + 16)
      some ({ page_id := fromLE (sliceL bs off 8),
              first_key := fromLE (sliceL bs (off + 8) 8) } :: rest)
    else none

def BranchPage.deserialize (bs : List Nat) : Option BranchPage := do
  let t0 ← bs.get? 0
  let count ← readU64 bs 1
  let prev ← readU64 bs 9
  let next ← readU64 bs 17
  let entries ← parseBranchEntries bs count BRANCH_HEADER
  some { page_type := (PageType.from_u8 t0).getD .branchPage,
         page_size := bs.length, entries := entries,
         prev_page_id := prev, next_page_id := next }

/-! ### RLE leaf page codec and insertion (src/rle_leaf_page.rs) -/

structure RleLeafPageEntry where
  start_key : Nat
  end_key : Nat
  value_offset : Nat
  value_length : Nat
deriving DecidableEq, Repr, Inhabited

/-- RLE header size, identical in layout to the leaf header. -/
def RLE_HEADER : Nat := 41

/-- RLE slot entry size: start(8) + end(8) + value_offset(8) + value_length(8). -/
def RLE_ENTRY_SIZE : Nat := 32

structure RleLeafPage where
  page_type : PageType
  page_size : Nat
  metadata : List RleLeafPageEntry
  data : List Nat
  prev_page_id : Nat
  next_page_id : Nat
deriving DecidableEq, Repr

def RleLeafPage.new_empty (page_size : Nat) : RleLeafPage :=
  { page_type := .rleLeafPage, page_size := page_size, metadata := [], data := [],
    prev_page_id := 0, next_page_id := 0 }

def RleLeafPage.serialize (p : RleLeafPage) : List Nat :=
  let content := [p.page_type.to_u8]
    ++ toLE 8 p.metadata.length
    ++ toLE 8 (RLE_HEADER + RLE_ENTRY_SIZE * p.metadata.length)
    ++ toLE 8 p.data.length
    ++ toLE 8 p.prev_page_id
    ++ toLE 8 p.next_page_id
    ++ (p.metadata.map (fun m => toLE 8 m.start_key ++ toLE 8 m.end_key
          ++ toLE 8 m.value_offset ++ toLE 8 m.value_length)).flatten
    ++ p.data
  content ++ List.replicate (p.page_size - content.length) 0

/-- Parse up to `count` RLE slot entries; the loop stops early (keeping what
was parsed) when fewer than a full entry of bytes remains. -/
def parseRleMetas (bs : List Nat) : Nat → Nat → List RleLeafPageEntry
  | 0, _ => []
  | count + 1, off =>
    if off + RLE_ENTRY_SIZE ≤ bs.length then
      { start_key := fromLE (sliceL bs off 8),
        end_key := fromLE (sliceL bs (off + 8) 8),
        value_offset := fromLE (sliceL bs (off + 16) 8),
        value_length := fromLE (sliceL bs (off + 24) 8) }
        :: parseRleMetas bs count (off + RLE_ENTRY_SIZE)
    else []

/-- RLE deserialization.  As in the leaf codec, `none` marks a buffer access
on which the code would panic; the totality theorem for this page kind shows
none occur. -/
def RleLeafPage.deserialize (bs : List Nat) : Option RleLeafPage :=
  if bs.length < RLE_HEADER then some (RleLeafPage.new_empty bs.length)
  else do
    let t0 ← bs.get? 0
    let count ← readU64 bs 1
    let dstart ← readU64 bs 9
    let used ← readU64 bs 17
    let prev ← readU64 bs 25
    let next ← readU64 bs 33
    let metas := parseRleMetas bs count RLE_HEADER
    let data := if dstart < bs.length
      then sliceL bs dstart (min (dstart + used) bs.length - dstart) else []
    some { page_type := (PageType.from_u8 t0).getD .rleLeafPage,
           page_size := bs.length, metadata := metas, data := data,
           prev_page_id := prev, next_page_id := next }

def RleLeafPage.entryValue (p : RleLeafPage) (m : RleLeafPageEntry) : List Nat :=
  sliceL p.data m.value_offset m.value_length

def RleLeafPage.get (p : RleLeafPage) (key : Nat) : Option (List Nat) :=
  (p.metadata.find? (fun m => decide (m.start_key ≤ key ∧ key ≤ m.end_key))).map
    (fun m => p.entryValue m)

/-- Single pass over the runs recording the first containing run (with early
exit) and the last-seen runs adjacent after and before the key, exactly as
the scan loop at the top of `put` does. -/
def rleScan (key : Nat) : List RleLeafPageEntry → Nat → Option Nat → Option Nat →
    Option Nat × Option Nat × Option Nat
  | [], _, after, before => (none, after, before)
  | m :: rest, i, after, before =>
    if m.start_key ≤ key ∧ key ≤ m.end_key then (some i, after, before)
    else
      rleScan key rest (i + 1)
        (if key + 1 = m.start_key then some i else after)
        (if key = m.end_key + 1 then some i else before)

/-- Scan the runs for an already-stored byte-equal value of the same length,
returning its offset for reuse. -/
def rleFindValue (p : RleLeafPage) (value : List Nat) : Option Nat :=
  (p.metadata.find? (fun m => m.value_length == value.length
      && p.entryValue m == value)).map (fun m => m.value_offset)

def RleLeafPage.split_run_and_insert (p : RleLeafPage) (i : Nat) (key : Nat)
    (value : List Nat) : Bool × RleLeafPage :=
  let meta := p.metadata.getD i default
  let newEntries := if meta.start_key < key ∧ key < meta.end_key then 2 else 1
  let dedup := rleFindValue p value
  let required := if dedup.isSome then 0 else value.length
  if RLE_HEADER + (p.metadata.length + newEntries) * RLE_ENTRY_SIZE
      + p.data.length + required > p.page_size then (false, p)
  else
    let voff := match dedup with | some o => o | none => p.data.length
    let data2 := match dedup with | some _ => p.data | none => p.data ++ value
    let md0 := p.metadata.eraseIdx i
    let single : RleLeafPageEntry :=
      { start_key := key, end_key := key, value_offset := voff,
        value_length := value.length }
    let md1 :=
      if key = meta.start_key then
        (md0 ++ (if meta.end_key > key then
          [{ start_key := key + 1, end_key := meta.end_key,
             value_offset := meta.value_offset,
             value_length := meta.value_length : RleLeafPageEntry }] else []))
          ++ [single]
      else if key = meta.end_key then
        md0 ++ [{ start_key := meta.start_key, end_key := key - 1,
                  value_offset := meta.value_offset,
                  value_length := meta.value_length : RleLeafPageEntry }]
            ++ [single]
      else
        md0 ++ [{ start_key := meta.start_key, end_key := key - 1,
                  value_offset := meta.value_offset,
                  value_length := meta.value_length : RleLeafPageEntry }]
            ++ [single]
            ++ [{ start_key := key + 1, end_key := meta.end_key,
                  value_offset := meta.value_offset,
                  value_length := meta.value_length : RleLeafPageEntry }]
    (true, { p with data := data2,
                    metadata := md1.insertionSort (fun a b => a.start_key ≤ b.start_key) })

def RleLeafPage.put (p : RleLeafPage) (key : Nat) (value : List Nat) :
    Bool × RleLeafPage :=
  let scan := rleScan key p.metadata 0 none none
  match scan.1 with
  | some i =>
    let meta := p.metadata.getD i default
    if p.entryValue meta == value then (true, p)
    else p.split_run_and_insert i key value
  | none =>
    let tryAfter : Bool × RleLeafPage :=
      match scan.2.1 with
      | some ai =>
        let am := p.metadata.getD ai default
        if p.entryValue am == value then
          (true, { p with metadata := p.metadata.set ai { am with start_key := key } })
        else newRun p key value
      | none => newRun p key value
    match scan.2.2 with
    | some bi =>
      let bm := p.metadata.getD bi default
      if p.entryValue bm == value then
        let md1 := p.metadata.set bi { bm with end_key := key }
        match scan.2.1 with
        | some ai =>
          let am := p.metadata.getD ai default
          if p.entryValue am == value then
            (true, { p with metadata :=
              (p.metadata.set bi { bm with end_key := am.end_key }).eraseIdx ai })
          else (true, { p with metadata := md1 })
        | none => (true, { p with metadata := md1 })
      else tryAfter
    | none => tryAfter
where
  newRun (p : RleLeafPage) (key : Nat) (value : List Nat) : Bool × RleLeafPage :=
    let dedup := rleFindValue p value
    let required := if dedup.isSome then 0 else value.length
    if RLE_HEADER + (p.metadata.length + 1) * RLE_ENTRY_SIZE
        + p.data.length + required > p.page_size then (false, p)
    else
      let voff := match dedup with | some o => o | none => p.data.length
      let data2 := match dedup with | some _ => p.data | none => p.data ++ value
      let newMeta : RleLeafPageEntry :=
        { start_key := key, end_key := key, value_offset := voff,
          value_length := value.length }
      (true, { p with data := data2,
                      metadata := (p.metadata ++ [newMeta]).insertionSort
                        (fun a b => a.start_key ≤ b.start_key) })

/-! ### In-memory page store (src/page_store.rs) -/

inductive StoreErr where
  | notFound
  | corruption
  | oversize
deriving DecidableEq, Repr

structure InMemoryPageStore where
  pages : List (Nat × List Nat)
  next_page_id : Nat
  page_size : Nat
deriving DecidableEq, Repr

def InMemoryPageStore.with_page_size (ps : Nat) : InMemoryPageStore :=
  { pages := [], next_page_id := 1, page_size := ps }

def storeLookup (s : InMemoryPageStore) (id : Nat) : Option (List Nat) :=
  s.pages.lookup id

/-- Map insertion: the new binding shadows and drops any previous binding. -/
def storeInsert (s : InMemoryPageStore) (id : Nat) (bytes : List Nat) :
    InMemoryPageStore :=
  { s with pages := (id, bytes) :: s.pages.filter (fun kv => kv.1 ≠ id) }

def add_crc (bytes : List Nat) : List Nat := bytes ++ toLE 4 (crc32c bytes)

def extract_and_verify_crc (bytes : List Nat) : Except StoreErr (List Nat) :=
  if bytes.length < 4 then .error .corruption
  else
    let data := bytes.take (bytes.length - 4)
    let crcBytes := bytes.drop (bytes.length - 4)
    if crc32c data = fromLE crcBytes then .ok data else .error .corruption

def InMemoryPageStore.get_page_bytes (s : InMemoryPageStore) (id : Nat) :
    Except StoreErr (List Nat) :=
  match storeLookup s id with
  | none => .error .notFound
  | some bytes => extract_and_verify_crc bytes

def InMemoryPageStore.put_page_bytes (s : InMemoryPageStore) (id : Nat)
    (bytes : List Nat) : Except StoreErr InMemoryPageStore :=
  if bytes.length + 4 > s.page_size then .error .oversize
  else .ok (storeInsert s id (add_crc bytes))

/-- Allocation: take the counter, bump it, store a fresh empty leaf image.
`none` marks the panics: counter overflow of the u64 id, or the unwrap on
the initial write. -/
def InMemoryPageStore.allocate_page (s : InMemoryPageStore) :
    Option (Nat × InMemoryPageStore) :=
  if s.next_page_id + 1 ≥ 2 ^ 64 then none
  else
    let id := s.next_page_id
    let s1 := { s with next_page_id := s.next_page_id + 1 }
    match s1.put_page_bytes id (LeafPage.new s.page_size).serialize with
    | .ok s2 => some (id, s2)
    | .error _ => none

def InMemoryPageStore.free_page (s : InMemoryPageStore) (id : Nat) :
    InMemoryPageStore :=
  { s with pages := s.pages.filter (fun kv => kv.1 ≠ id) }

/-- Neighbor query: reads the raw stored image (CRC still attached) and
parses it as a leaf, mapping the 0 sentinel to absent.  An unknown id is
absent; the outer `none` marks a parse panic. -/
def InMemoryPageStore.get_next_page_id (s : InMemoryPageStore) (id : Nat) :
    Option (Option Nat) :=
  match storeLookup s id with
  | none => some none
  | some raw =>
    match LeafPage.deserialize raw with
    | none => none
    | some p => some (if p.next_page_id = 0 then none else some p.next_page_id)

/-! ### Tree layer (src/data_tree.rs) -/

structure DataTree where
  store : InMemoryPageStore
  root_page_id : Nat
  dirty_pages : Finset Nat
deriving DecidableEq

/-- The byte-keyed API folds the first eight key bytes little-endian,
zero-padding shorter keys. -/
def keyToU64 (key : List Nat) : Nat :=
  if key.length ≥ 8 then fromLE (key.take 8)
  else fromLE (key ++ List.replicate (8 - key.length) 0)

inductive GetRes where
  | ok : Option (List Nat) → GetRes
  | err : StoreErr → GetRes
  | panicked
  | fuelOut
deriving DecidableEq, Repr

inductive PutRes where
  | ok
  | errValueTooLarge
  | errInsertNewFailed
  | errNoLeafFound
  | err : StoreErr → PutRes
  | panicked
  | fuelOut
deriving DecidableEq, Repr

inductive DelRes where
  | ok : Bool → DelRes
  | err : StoreErr → DelRes
  | panicked
  | fuelOut
deriving DecidableEq, Repr

/-- Constructor with a leaf root (DataTree::new). -/
def DataTree.new (store : InMemoryPageStore) : Option DataTree := do
  let (rootId, s1) ← store.allocate_page
  let s2 ← (s1.put_page_bytes rootId (LeafPage.new s1.page_size).serialize).toOption
  some { store := s2, root_page_id := rootId, dirty_pages := ∅ }

/-- Constructor with a branch root over one empty leaf
(DataTree::new_with_branch_root). -/
def DataTree.new_with_branch_root (store : InMemoryPageStore) : Option DataTree := do
  let (leafId, s1) ← store.allocate_page
  let s2 ← (s1.put_page_bytes leafId (LeafPage.new s1.page_size).serialize).toOption
  let (rootId, s3) ← s2.allocate_page
  let bp := ((BranchPage.new s3.page_size).insert leafId 0).2
  let s4 ← (s3.put_page_bytes rootId bp.serialize).toOption
  some { store := s4, root_page_id := rootId, dirty_pages := ∅ }

/-- Chain walk of `get`: probe each leaf, follow next links. -/
def getWalk (s : InMemoryPageStore) (key : List Nat) : Nat → Nat → GetRes
  | _, 0 => .fuelOut
  | pid, fuel + 1 =>
    match s.get_page_bytes pid with
    | .error e => .err e
    | .ok bytes =>
      match LeafPage.deserialize bytes with
      | none => .panicked
      | some page =>
        match page.get key with
        | some v => .ok (some v)
        | none =>
          match s.get_next_page_id pid with
          | none => .panicked
          | some none => .ok none
          | some (some nid) => getWalk s key nid fuel

def DataTree.get (t : DataTree) (key : List Nat) (fuel : Nat) : GetRes :=
  match t.store.get_page_bytes t.root_page_id with
  | .error e => .err e
  | .ok rootBytes =>
    match rootBytes.get? 0 with
    | none => .panicked
    | some t0 =>
      if (PageType.from_u8 t0).getD .leafPage = .branchPage then
        match BranchPage.deserialize rootBytes with
        | none => .panicked
        | some bp =>
          match bp.find_page_id (keyToU64 key) with
          | none => .ok none
          | some leafId => getWalk t.store key leafId fuel
      else getWalk t.store key t.root_page_id fuel

/-- Chain walk of `put`: try each leaf, follow next links, extend the chain
with a freshly allocated leaf at the end. -/
def putWalk (key value : List Nat) :
    InMemoryPageStore → Finset Nat → Nat → Nat →
      PutRes × InMemoryPageStore × Finset Nat
  | s, dirty, _, 0 => (.fuelOut, s, dirty)
  | s, dirty, pid, fuel + 1 =>
    match s.get_page_bytes pid with
    | .error e => (.err e, s, dirty)
    | .ok bytes =>
      match LeafPage.deserialize bytes with
      | none => (.panicked, s, dirty)
      | some page =>
        let ins := page.insert key value
        if ins.1 then
          match s.put_page_bytes pid ins.2.serialize with
          | .error e => (.err e, s, dirty)
          | .ok s2 => (.ok, s2, insert pid dirty)
        else
          match s.get_next_page_id pid with
          | none => (.panicked, s, dirty)
          | some (some nid) => putWalk key value s dirty nid fuel
          | some none =>
            match s.allocate_page with
            | none => (.panicked, s, dirty)
            | some (newId, s1) =>
              match s1.put_page_bytes pid (page.set_next_page_id newId).serialize with
              | .error e => (.err e, s1, dirty)
              | .ok s2 =>
                let dirty2 := insert pid dirty
                let insNew := ((LeafPage.new s.page_size).set_prev_page_id pid).insert
                  key value
                if insNew.1 then
                  match s2.put_page_bytes newId insNew.2.serialize with
                  | .error e => (.err e, s2, dirty2)
                  | .ok s3 => (.ok, s3, insert newId dirty2)
                else (.errInsertNewFailed, s2, dirty2)

def DataTree.put (t : DataTree) (key value : List Nat) (fuel : Nat) :
    PutRes × DataTree :=
  if (LeafPage.new t.store.page_size).is_value_too_large value then
    (.errValueTooLarge, t)
  else
    match t.store.get_page_bytes t.root_page_id with
    | .error e => (.err e, t)
    | .ok rootBytes =>
      match rootBytes.get? 0 with
      | none => (.panicked, t)
      | some t0 =>
        if (PageType.from_u8 t0).getD .leafPage = .branchPage then
          match BranchPage.deserialize rootBytes with
          | none => (.panicked, t)
          | some bp =>
            match bp.find_page_id (keyToU64 key) with
            | none => (.errNoLeafFound, t)
            | some leafId =>
              let r := putWalk key value t.store t.dirty_pages leafId fuel
              (r.1, { t with store := r.2.1, dirty_pages := r.2.2 })
        else
          let r := putWalk key value t.store t.dirty_pages t.root_page_id fuel
          (r.1, { t with store := r.2.1, dirty_pages := r.2.2 })

/-- Chain walk of `delete`: delete from the first leaf containing the key,
then unlink and free the page when it emptied and is not the root page. -/
def deleteWalk (key : List Nat) (rootId : Nat) :
    InMemoryPageStore → Finset Nat → Nat → Nat →
      DelRes × InMemoryPageStore × Finset Nat
  | s, dirty, _, 0 => (.fuelOut, s, dirty)
  | s, dirty, pid, fuel + 1 =>
    match s.get_page_bytes pid with
    | .error e => (.err e, s, dirty)
    | .ok bytes =>
      match LeafPage.deserialize bytes with
      | none => (.panicked, s, dirty)
      | some page =>
        let del := page.delete key
        if del.1 then
          match s.put_page_bytes pid del.2.serialize with
          | .error e => (.err e, s, dirty)
          | .ok s2 =>
            let dirty2 := insert pid dirty
            if del.2.metadata.isEmpty = true ∧ pid ≠ rootId then
              let prev := del.2.prev_page_id
              let next := del.2.next_page_id
              let afterPrev : Option (Except StoreErr
                  (InMemoryPageStore × Finset Nat)) :=
                if prev ≠ 0 then
                  match s2.get_page_bytes prev with
                  | .error e => some (.error e)
                  | .ok pb =>
                    match LeafPage.deserialize pb with
                    | none => none
                    | some pp =>
                      match s2.put_page_bytes prev
                          (pp.set_next_page_id next).serialize with
                      | .error e => some (.error e)
                      | .ok s3 => some (.ok (s3, insert prev dirty2))
                else some (.ok (s2, dirty2))
              match afterPrev with
              | none => (.panicked, s2, dirty2)
              | some (.error e) => (.err e, s2, dirty2)
              | some (.ok (s3, dirty3)) =>
                let afterNext : Option (Except StoreErr
                    (InMemoryPageStore × Finset Nat)) :=
                  if next ≠ 0 then
                    match s3.get_page_bytes next with
                    | .error e => some (.error e)
                    | .ok nb =>
                      match LeafPage.deserialize nb with
                      | none => none
                      | some np =>
                        match s3.put_page_bytes next
                            (np.set_prev_page_id prev).serialize with
                        | .error e => some (.error e)
                        | .ok s4 => some (.ok (s4, insert next dirty3))
                  else some (.ok (s3, dirty3))
                match afterNext with
                | none => (.panicked, s3, dirty3)
                | some (.error e) => (.err e, s3, dirty3)
                | some (.ok (s4, dirty4)) =>
                  (.ok true, s4.free_page pid, dirty4.erase pid)
            else (.ok true, s2, dirty2)
        else
          match s.get_next_page_id pid with
          | none => (.panicked, s, dirty)
          | some none => (.ok false, s, dirty)
          | some (some nid) => deleteWalk key rootId s dirty nid fuel

def DataTree.delete (t : DataTree) (key : List Nat) (fuel : Nat) :
    DelRes × DataTree :=
  match t.store.get_page_bytes t.root_page_id with
  | .error e => (.err e, t)
  | .ok rootBytes =>
    match rootBytes.get? 0 with
    | none => (.panicked, t)
    | some t0 =>
      if (PageType.from_u8 t0).getD .leafPage = .branchPage then
        match BranchPage.deserialize rootBytes with
        | none => (.panicked, t)
        | some bp =>
          match bp.find_page_id (keyToU64 key) with
          | none => (.ok false, t)
          | some leafId =>
            let r := deleteWalk key t.root_page_id t.store t.dirty_pages leafId fuel
            (r.1, { t with store := r.2.1, dirty_pages := r.2.2 })
      else
        let r := deleteWalk key t.root_page_id t.store t.dirty_pages
          t.root_page_id fuel
        (r.1, { t with store := r.2.1, dirty_pages := r.2.2 })

def DataTree.flush (t : DataTree) : DataTree := { t with dirty_pages := ∅ }

/-! ### Concrete trace states for the counterexample evaluations.  Stores are
kept as explicit insertion chains so that the CRC terms inside them never
need to be evaluated. -/

/-- The key and values used by the divergence traces. -/
def c1k : List Nat := toLE 8 1

def c1v1 : List Nat := [7]

def c1v2 : List Nat := List.replicate 59 8

def c6v : List Nat := List.replicate 36 5

/-- The empty leaf page as the tree reloads it: the recorded page size
shrinks to the 41-byte stored length. -/
def anchorPg : LeafPage :=
  { page_type := .leafPage, page_size := 41, metadata := [], data := [],
    prev_page_id := 0, next_page_id := 0 }

/-- The anchor leaf after its next link is pointed at page 3. -/
def anchorPg3 : LeafPage := anchorPg.set_next_page_id 3

def trBp (ps : Nat) : BranchPage := ((BranchPage.new ps).insert 1 0).2

def trS1 (ps : Nat) : InMemoryPageStore :=
  storeInsert { InMemoryPageStore.with_page_size ps with next_page_id := 2 } 1
    (add_crc (LeafPage.new ps).serialize)

def trS2 (ps : Nat) : InMemoryPageStore :=
  storeInsert (trS1 ps) 1 (add_crc (LeafPage.new ps).serialize)

def trS3 (ps : Nat) : InMemoryPageStore :=
  storeInsert { trS2 ps with next_page_id := 3 } 2 (add_crc (LeafPage.new ps).serialize)

def trS4 (ps : Nat) : InMemoryPageStore :=
  storeInsert (trS3 ps) 2 (add_crc (trBp ps).serialize)

/-- The freshly constructed branch-rooted tree: leaf page 1, branch root 2. -/
def trT0 (ps : Nat) : DataTree :=
  { store := trS4 ps, root_page_id := 2, dirty_pages := ∅ }

/-- A fresh overflow page wired behind `pid` with one entry inserted. -/
def chainPg (ps pid : Nat) (k v : List Nat) : LeafPage :=
  (((LeafPage.new ps).set_prev_page_id pid).insert k v).2

def trS5 (ps : Nat) : InMemoryPageStore :=
  storeInsert { trS4 ps with next_page_id := 4 } 3 (add_crc (LeafPage.new ps).serialize)

def trS6 (ps : Nat) : InMemoryPageStore :=
  storeInsert (trS5 ps) 1 (add_crc anchorPg3.serialize)

def trS7 (ps : Nat) (k v : List Nat) : InMemoryPageStore :=
  storeInsert (trS6 ps) 3 (add_crc (chainPg ps 1 k v).serialize)

/-- Tree after the first put of the divergence trace. -/
def c1T1 : DataTree :=
  { store := trS7 4096 c1k c1v1, root_page_id := 2,
    dirty_pages := insert 3 (insert 1 ∅) }

/-- Page 3 as reloaded from the store after the first put. -/
def c1BR : LeafPage :=
  { page_type := .leafPage, page_size := 66,
    metadata := [{ key_offset := 0, key_length := 8, value_offset := 8,
                   value_length := 1 }],
    data := c1k ++ c1v1, prev_page_id := 1, next_page_id := 0 }

def c1B4 : LeafPage := c1BR.set_next_page_id 4

def trS8 : InMemoryPageStore :=
  storeInsert { trS7 4096 c1k c1v1 with next_page_id := 5 } 4
    (add_crc (LeafPage.new 4096).serialize)

def trS9 : InMemoryPageStore := storeInsert trS8 3 (add_crc c1B4.serialize)

def c1C : LeafPage := chainPg 4096 3 c1k c1v2

def trS10 : InMemoryPageStore := storeInsert trS9 4 (add_crc c1C.serialize)

/-- Tree after the second put of the divergence trace. -/
def c1T2 : DataTree :=
  { store := trS10, root_page_id := 2,
    dirty_pages := insert 4 (insert 3 (insert 3 (insert 1 ∅))) }

/-- Tree produced by DataTree.new: a single leaf page as the root. -/
def c3T : DataTree := { store := trS2 4096, root_page_id := 1, dirty_pages := ∅ }

/-- Anchor leaf holding one key, as written into the store for the delete
counterexample. -/
def c2Anchor : LeafPage := ((LeafPage.new 4096).insert c1k c1v1).2

/-- Branch-rooted store whose anchor leaf (page 1) holds one key. -/
def c2S : InMemoryPageStore := storeInsert (trS4 4096) 1 (add_crc c2Anchor.serialize)

def c2T : DataTree := { store := c2S, root_page_id := 2, dirty_pages := ∅ }

/-- The anchor as the walk reloads it: page_size collapses to the stored
byte length 66. -/
def c2AnchorR : LeafPage :=
  { page_type := .leafPage, page_size := 66,
    metadata := [{ key_offset := 0, key_length := 8, value_offset := 8,
                   value_length := 1 }],
    data := c1k ++ c1v1, prev_page_id := 0, next_page_id := 0 }

/-- The reloaded anchor after its only key is deleted. -/
def c2Empty : LeafPage :=
  { page_type := .leafPage, page_size := 66, metadata := [], data := [],
    prev_page_id := 0, next_page_id := 0 }

/-- Store state after the emptied anchor is written back. -/
def c2S2 : InMemoryPageStore := storeInsert c2S 1 (add_crc c2Empty.serialize)

/-- A 41-byte leaf buffer whose header declares one slot: exactly the header
size, so reading the slot table overruns the buffer. -/
def c5buf : List Nat := [1] ++ toLE 8 1 ++ toLE 8 41 ++ toLE 8 0 ++ toLE 8 0 ++ toLE 8 0

/-- A 25-byte branch buffer whose header declares one entry. -/
def c5bbuf : List Nat := [2] ++ toLE 8 1 ++ toLE 8 0 ++ toLE 8 0

/-- The fresh chain page produced when the overflow allocation path inserts
(key, value) into the newly wired empty leaf. -/
def c6NewPage (ps pid : Nat) (key value : List Nat) : LeafPage :=
  { page_type := .leafPage, page_size := ps,
    metadata := [{ key_offset := 0, key_length := key.length,
                   value_offset := key.length, value_length := value.length }],
    data := key ++ value, prev_page_id := pid, next_page_id := 0 }

/-- Chain page 3 after its only key is deleted (prev link 1 kept). -/
def c8Empty : LeafPage :=
  { page_type := .leafPage, page_size := 66, metadata := [], data := [],
    prev_page_id := 1, next_page_id := 0 }

/-- Store states of the delete-after-put trace: write back the emptied
page 3, then clear the anchor's next link. -/
def c8S2 : InMemoryPageStore :=
  storeInsert (trS7 4096 c1k c1v1) 3 (add_crc c8Empty.serialize)

def c8S3 : InMemoryPageStore :=
  storeInsert c8S2 1 (add_crc (anchorPg3.set_next_page_id 0).serialize)

/-- Tree after deleting the key: page 3 is freed and leaves the dirty set. -/
def c8T2 : DataTree :=
  { store := c8S3.free_page 3, root_page_id := 2,
    dirty_pages := (insert 1 (insert 3 (insert 3 (insert 1 (∅ : Finset Nat))))).erase 3 }

/-- The data-model invariant on leaf slot offsets (section 3): slots address
the data region contiguously in slot order, keys before values. -/
def metaContig : Nat → List KeyValueMeta → Bool
  | _, [] => true
  | cur, m :: ms =>
    m.key_offset == cur && m.value_offset == cur + m.key_length
      && metaContig (cur + m.key_length + m.value_length) ms

/-- The claimed RLE invariant: no two adjacent runs (end_key + 1 = start_key)
carry byte-equal values. -/
def rleNoAdjEqList (p : RleLeafPage) : List RleLeafPageEntry → Bool
  | [] => true
  | [_] => true
  | a :: b :: rest =>
    !(a.end_key + 1 == b.start_key && p.entryValue a == p.entryValue b)
      && rleNoAdjEqList p (b :: rest)

def rleNoAdjEq (p : RleLeafPage) : Bool := rleNoAdjEqList p p.metadata

/-- One-run pages exercising the put adjacency-merge paths. -/
def c9B : RleLeafPage :=
  { page_type := .rleLeafPage, page_size := 1024,
    metadata := [{ start_key := 0, end_key := 0, value_offset := 0,
                   value_length := 1 }],
    data := [65], prev_page_id := 0, next_page_id := 0 }

def c9A : RleLeafPage :=
  { page_type := .rleLeafPage, page_size := 1024,
    metadata := [{ start_key := 2, end_key := 2, value_offset := 0,
                   value_length := 1 }],
    data := [65], prev_page_id := 0, next_page_id := 0 }

def c9M : RleLeafPage :=
  { page_type := .rleLeafPage, page_size := 1024,
    metadata := [{ start_key := 0, end_key := 0, value_offset := 0,
                   value_length := 1 },
                 { start_key := 2, end_key := 2, value_offset := 0,
                   value_length := 1 }],
    data := [65], prev_page_id := 0, next_page_id := 0 }

/-- Structural store invariant behind the root-frame property: the root id
precedes the allocation counter, chain links of stored non-root leaf images
never point at the root, and the raw-image neighbor query never returns the
root. -/
def C10Inv (s : InMemoryPageStore) (root : Nat) : Prop :=
  root < s.next_page_id ∧
  (∀ id nid, id ≠ root → s.get_next_page_id id = some (some nid) → nid ≠ root) ∧
  (∀ id bytes pg, id ≠ root → s.get_page_bytes id = .ok bytes →
    LeafPage.deserialize bytes = some pg →
    pg.prev_page_id ≠ root ∧ pg.next_page_id ≠ root)

/-- Run entries used in the c9 witness statements. -/
def c9e01 : RleLeafPageEntry :=
  { start_key := 0, end_key := 1, value_offset := 0, value_length := 1 }

def c9e12 : RleLeafPageEntry :=
  { start_key := 1, end_key := 2, value_offset := 0, value_length := 1 }

def c9e02 : RleLeafPageEntry :=
  { start_key := 0, end_key := 2, value_offset := 0, value_length := 1 }

def c9e00 : RleLeafPageEntry :=
  { start_key := 0, end_key := 0, value_offset := 0, value_length := 1 }

def c9e22 : RleLeafPageEntry :=
  { start_key := 2, end_key := 2, value_offset := 0, value_length := 1 }

/-- A one-run RLE page used to witness the RLE round-trip. -/
def c4Rle : RleLeafPage :=
  { page_type := .rleLeafPage, page_size := 100,
    metadata := [{ start_key := 0, end_key := 0, value_offset := 0,
                   value_length := 1 }],
    data := [65], prev_page_id := 0, next_page_id := 0 }

/-- The content part of the RLE page image (the local `content` of
serialize), before padding to the page size. -/
def rleContent (p : RleLeafPage) : List Nat :=
  [p.page_type.to_u8]
    ++ toLE 8 p.metadata.length
    ++ toLE 8 (RLE_HEADER + RLE_ENTRY_SIZE * p.metadata.length)
    ++ toLE 8 p.data.length
    ++ toLE 8 p.prev_page_id
    ++ toLE 8 p.next_page_id
    ++ (p.metadata.map (fun m => toLE 8 m.start_key ++ toLE 8 m.end_key
          ++ toLE 8 m.value_offset ++ toLE 8 m.value_length)).flatten
    ++ p.data

/-- Stores built by new_with_branch_root over an arbitrary initial store. -/
def mkLeafStore1 (s : InMemoryPageStore) : InMemoryPageStore :=
  storeInsert { s with next_page_id := s.next_page_id + 1 } s.next_page_id
    (add_crc (LeafPage.new s.page_size).serialize)

def mkLeafStore2 (s : InMemoryPageStore) : InMemoryPageStore :=
  storeInsert (mkLeafStore1 s) s.next_page_id
    (add_crc (LeafPage.new s.page_size).serialize)

def mkBranchStore3 (s : InMemoryPageStore) : InMemoryPageStore :=
  storeInsert { mkLeafStore2 s with next_page_id := s.next_page_id + 2 }
    (s.next_page_id + 1) (add_crc (LeafPage.new s.page_size).serialize)

def mkBranchStore4 (s : InMemoryPageStore) : InMemoryPageStore :=
  storeInsert (mkBranchStore3 s) (s.next_page_id + 1)
    (add_crc (((BranchPage.new s.page_size).insert s.next_page_id 0).2).serialize)

/-- Tree produced by new_with_branch_root over an arbitrary initial store. -/
def mkBranchTree (s : InMemoryPageStore) : DataTree :=
  { store := mkBranchStore4 s, root_page_id := s.next_page_id + 1,
    dirty_pages := ∅ }

@[simp] theorem toLE_length (w n : Nat) : (toLE w n).length = w := by
  induction w generalizing n with
  | zero => rfl
  | succ w ih => simp [toLE, ih]

theorem fromLE_toLE (w n : Nat) (h : n < 256 ^ w) : fromLE (toLE w n) = n := by
  induction w generalizing n with
  | zero =>
    have : n = 0 := Nat.lt_one_iff.mp (by simpa using h)
    simp [this, toLE, fromLE]
  | succ w ih =>
    have hdiv : n / 256 < 256 ^ w := by
      have : n < 256 ^ w * 256 := by
        calc n < 256 ^ (w + 1) := h
        _ = 256 ^ w * 256 := by ring
      exact Nat.div_lt_of_lt_mul (by omega)
    simp [toLE, fromLE, ih _ hdiv, Nat.mod_add_div]

theorem mem_toLE_lt (w n : Nat) : ∀ b ∈ toLE w n, b < 256 := by
  induction w generalizing n with
  | zero => simp [toLE]
  | succ w ih =>
    intro b hb
    simp only [toLE, List.mem_cons] at hb
    rcases hb with h | h
    · omega
    · exact ih _ b h

theorem toLE_fromLE (bs : List Nat) (h : ∀ b ∈ bs, b < 256) :
    toLE bs.length (fromLE bs) = bs := by
  induction bs with
  | nil => rfl
  | cons b tl ih =>
    have hb : b < 256 := h b (List.mem_cons_self _ _)
    have htl : ∀ x ∈ tl, x < 256 := fun x hx => h x (List.mem_cons_of_mem _ hx)
    simp only [List.length_cons, toLE, fromLE]
    have h1 : (b + 256 * fromLE tl) % 256 = b := by omega
    have h2 : (b + 256 * fromLE tl) / 256 = fromLE tl := by
      rw [Nat.add_mul_div_left _ _ (by omega : 0 < 256)]
      omega
    rw [h1, h2, ih htl]

theorem fromLE_lt (bs : List Nat) (h : ∀ b ∈ bs, b < 256) :
    fromLE bs < 256 ^ bs.length := by
  induction bs with
  | nil => simp [fromLE]
  | cons b tl ih =>
    have hb : b < 256 := h b (List.mem_cons_self _ _)
    have htl := ih (fun x hx => h x (List.mem_cons_of_mem _ hx))
    simp only [fromLE, List.length_cons, pow_succ]
    calc b + 256 * fromLE tl < 256 + 256 * fromLE tl := by omega
    _ = 256 * (fromLE tl + 1) := by ring
    _ ≤ 256 * 256 ^ tl.length := by
      have : fromLE tl + 1 ≤ 256 ^ tl.length := htl
      exact Nat.mul_le_mul_left _ this
    _ = 256 ^ tl.length * 256 := by ring

theorem div_two_xor (x y : Nat) : (x ^^^ y) / 2 = (x / 2) ^^^ (y / 2) := by
  apply Nat.eq_of_testBit_eq
  intro i
  simp [Nat.testBit_div_two, Nat.testBit_xor]

theorem mod_two_xor (x y : Nat) : (x ^^^ y) % 2 = (x % 2) ^^^ (y % 2) := by
  have hx := Nat.mod_two_eq_zero_or_one x
  have hy := Nat.mod_two_eq_zero_or_one y
  have key : (x ^^^ y) % 2 = if (x % 2 = 1) ≠ (y % 2 = 1) then 1 else 0 := by
    have h0 : (x ^^^ y).testBit 0 = ((x.testBit 0) != (y.testBit 0)) := Nat.testBit_xor x y 0
    simp only [Nat.testBit_zero] at h0
    rcases Nat.mod_two_eq_zero_or_one (x ^^^ y) with h | h <;>
      rcases hx with hx | hx <;> rcases hy with hy | hy <;>
        simp [hx, hy, h] at h0 ⊢
  rcases hx with hx | hx <;> rcases hy with hy | hy <;> simp [hx, hy] at key ⊢ <;> try omega

theorem crcStep_xor (x y : Nat) : crcStep (x ^^^ y) = crcStep x ^^^ crcStep y := by
  unfold crcStep
  rw [div_two_xor]
  have hcond : (if (x ^^^ y) % 2 = 1 then CRC_POLY else 0)
      = (if x % 2 = 1 then CRC_POLY else 0) ^^^ (if y % 2 = 1 then CRC_POLY else 0) := by
    rw [mod_two_xor]
    rcases Nat.mod_two_eq_zero_or_one x with hx | hx <;>
      rcases Nat.mod_two_eq_zero_or_one y with hy | hy <;>
        simp [hx, hy]
  rw [hcond]
  apply Nat.eq_of_testBit_eq
  intro i
  simp only [Nat.testBit_xor]
  cases (x / 2).testBit i <;> cases (y / 2).testBit i <;>
    cases ((if x % 2 = 1 then CRC_POLY else 0)).testBit i <;>
      cases ((if y % 2 = 1 then CRC_POLY else 0)).testBit i <;> rfl

theorem crcSteps_xor (n x y : Nat) :
    crcStep^[n] (x ^^^ y) = crcStep^[n] x ^^^ crcStep^[n] y := by
  induction n generalizing x y with
  | zero => rfl
  | succ n ih => simp [Function.iterate_succ_apply, crcStep_xor, ih]

theorem xor_cancel_left (s x y : Nat) : (s ^^^ x) ^^^ (s ^^^ y) = x ^^^ y := by
  apply Nat.eq_of_testBit_eq
  intro i
  simp only [Nat.testBit_xor]
  cases s.testBit i <;> cases x.testBit i <;> cases y.testBit i <;> rfl

theorem xor_cancel_right (s x y : Nat) : (x ^^^ s) ^^^ (y ^^^ s) = x ^^^ y := by
  apply Nat.eq_of_testBit_eq
  intro i
  simp only [Nat.testBit_xor]
  cases s.testBit i <;> cases x.testBit i <;> cases y.testBit i <;> rfl

theorem crcStep_lt (s : Nat) (h : s < 2 ^ 32) : crcStep s < 2 ^ 32 := by
  unfold crcStep
  apply Nat.xor_lt_two_pow
  · omega
  · split <;> [exact (by norm_num [CRC_POLY]); positivity]

theorem crcStep_pos (s : Nat) (h0 : 0 < s) (h : s < 2 ^ 32) : 0 < crcStep s := by
  rcases Nat.mod_two_eq_zero_or_one s with he | ho
  · have : crcStep s = s / 2 := by simp [crcStep, he]
    rw [this]
    have : 2 ≤ s := by omega
    exact Nat.div_pos this (by omega)
  · have hlow : (s / 2).testBit 31 = false := by
      apply Nat.testBit_eq_false_of_lt
      omega
    have hpoly : CRC_POLY.testBit 31 = true := by decide
    have hstep : crcStep s = (s / 2) ^^^ CRC_POLY := by simp [crcStep, ho]
    have hbit : (crcStep s).testBit 31 = true := by
      rw [hstep]
      simp [Nat.testBit_xor, hlow, hpoly]
    rcases Nat.eq_zero_or_pos (crcStep s) with hz | hp
    · rw [hz] at hbit
      simp at hbit
    · exact hp

theorem crcSteps_pos (n s : Nat) (h0 : 0 < s) (h : s < 2 ^ 32) :
    0 < crcStep^[n] s ∧ crcStep^[n] s < 2 ^ 32 := by
  induction n generalizing s with
  | zero => exact ⟨h0, h⟩
  | succ n ih =>
    rw [Function.iterate_succ_apply]
    exact ih _ (crcStep_pos s h0 h) (crcStep_lt s h)

theorem crcRaw_append (s : Nat) (xs ys : List Nat) :
    crcRaw s (xs ++ ys) = crcRaw (crcRaw s xs) ys := by
  simp [crcRaw, List.foldl_append]

theorem crcByte_diff (t b b' : Nat) :
    crcByte t b ^^^ crcByte t b' = crcStep^[8] (b ^^^ b') := by
  unfold crcByte
  rw [← crcSteps_xor, xor_cancel_left]

theorem crcRaw_diff (bs : List Nat) (s₁ s₂ : Nat) :
    crcRaw s₁ bs ^^^ crcRaw s₂ bs = crcStep^[8 * bs.length] (s₁ ^^^ s₂) := by
  induction bs generalizing s₁ s₂ with
  | nil => rfl
  | cons b tl ih =>
    simp only [crcRaw, List.foldl_cons] at *
    rw [ih]
    have hb : crcByte s₁ b ^^^ crcByte s₂ b = crcStep^[8] (s₁ ^^^ s₂) := by
      unfold crcByte
      rw [← crcSteps_xor, xor_cancel_right]
    rw [hb, ← Function.iterate_add_apply]
    congr 1

theorem xor_ne_zero_of_ne {x y : Nat} (h : x ≠ y) : x ^^^ y ≠ 0 := by
  intro hz
  exact h (Nat.xor_eq_zero.mp hz)

/-- Changing a single byte anywhere in the input changes the raw CRC state,
so long as both byte values fit in 32 bits. -/
theorem crcRaw_single_byte_ne (s : Nat) (xs ys : List Nat) {b b' : Nat}
    (hb : b < 2 ^ 32) (hb' : b' < 2 ^ 32) (hne : b ≠ b') :
    crcRaw s (xs ++ b :: ys) ≠ crcRaw s (xs ++ b' :: ys) := by
  intro heq
  have hz : crcRaw s (xs ++ b :: ys) ^^^ crcRaw s (xs ++ b' :: ys) = 0 := by
    rw [heq, Nat.xor_self]
  rw [crcRaw_append, crcRaw_append] at hz
  set t := crcRaw s xs with ht
  have hcons : ∀ u : Nat, crcRaw t (u :: ys) = crcRaw (crcByte t u) ys := fun u => rfl
  rw [hcons b, hcons b'] at hz
  rw [crcRaw_diff, crcByte_diff, ← Function.iterate_add_apply] at hz
  have hδpos : 0 < b ^^^ b' := Nat.pos_of_ne_zero (xor_ne_zero_of_ne hne)
  have hδlt : b ^^^ b' < 2 ^ 32 := Nat.xor_lt_two_pow hb hb'
  have := (crcSteps_pos (8 * ys.length + 8) _ hδpos hδlt).1
  omega

/-- Changing a single byte anywhere in the input changes the CRC-32C. -/
theorem crc32c_single_byte_ne (xs ys : List Nat) {b b' : Nat}
    (hb : b < 2 ^ 32) (hb' : b' < 2 ^ 32) (hne : b ≠ b') :
    crc32c (xs ++ b :: ys) ≠ crc32c (xs ++ b' :: ys) := by
  intro heq
  apply crcRaw_single_byte_ne 0xFFFFFFFF xs ys hb hb' hne
  have := congrArg (fun z => z ^^^ 0xFFFFFFFF) heq
  simpa [crc32c, Nat.xor_assoc] using this

theorem crcSteps_lt (n s : Nat) (h : s < 2 ^ 32) : crcStep^[n] s < 2 ^ 32 := by
  induction n generalizing s with
  | zero => exact h
  | succ n ih =>
    rw [Function.iterate_succ_apply]
    exact ih _ (crcStep_lt s h)

theorem crcRaw_lt (bs : List Nat) (s : Nat) (hs : s < 2 ^ 32)
    (hb : ∀ b ∈ bs, b < 2 ^ 32) : crcRaw s bs < 2 ^ 32 := by
  induction bs generalizing s with
  | nil => exact hs
  | cons b tl ih =>
    simp only [crcRaw, List.foldl_cons]
    have hxor : s ^^^ b < 2 ^ 32 :=
      Nat.xor_lt_two_pow hs (hb b (List.mem_cons_self _ _))
    exact ih (crcByte s b) (crcSteps_lt 8 _ hxor)
      (fun x hx => hb x (List.mem_cons_of_mem _ hx))

theorem crc32c_lt (bs : List Nat) (hb : ∀ b ∈ bs, b < 2 ^ 32) :
    crc32c bs < 2 ^ 32 := by
  unfold crc32c
  exact Nat.xor_lt_two_pow (crcRaw_lt bs _ (by norm_num) hb) (by norm_num)

/-! ### List and store helper lemmas -/

theorem fromLE_toLE_mod (w n : Nat) : fromLE (toLE w n) = n % 256 ^ w := by
  induction w generalizing n with
  | zero => simp [toLE, fromLE, Nat.mod_one]
  | succ w ih =>
    simp only [toLE, fromLE, ih]
    have h1 : (256 : Nat) ^ (w + 1) = 256 * 256 ^ w := by ring
    rw [h1, Nat.mod_mul]

theorem sliceL_exact (pre mid post : List Nat) :
    sliceL (pre ++ (mid ++ post)) pre.length mid.length = mid := by
  unfold sliceL
  rw [List.drop_left, List.take_left]

theorem sliceL_pref (xs ys : List Nat) (off len : Nat)
    (h : off + len ≤ xs.length) :
    sliceL (xs ++ ys) off len = sliceL xs off len := by
  unfold sliceL
  rw [List.drop_append_of_le_length (by omega)]
  rw [List.take_append_of_le_length (by simp; omega)]

theorem readU64_exact (pre post : List Nat) (v : Nat) :
    readU64 (pre ++ (toLE 8 v ++ post)) pre.length = some (v % 2 ^ 64) := by
  unfold readU64
  rw [if_pos (by simp)]
  have hs : sliceL (pre ++ (toLE 8 v ++ post)) pre.length 8 = toLE 8 v := by
    have h := sliceL_exact pre (toLE 8 v) post
    rwa [toLE_length] at h
  rw [hs, fromLE_toLE_mod]
  norm_num

theorem readU64_exact_lt (pre post : List Nat) (v : Nat) (h : v < 2 ^ 64) :
    readU64 (pre ++ (toLE 8 v ++ post)) pre.length = some v := by
  rw [readU64_exact, Nat.mod_eq_of_lt h]

theorem lookup_filter_ne (l : List (Nat × List Nat)) (id id2 : Nat) (h : id2 ≠ id) :
    (l.filter (fun kv => kv.1 ≠ id)).lookup id2 = l.lookup id2 := by
  induction l with
  | nil => rfl
  | cons kv tl ih =>
    by_cases hk : kv.1 = id
    · have hfil : (kv :: tl).filter (fun kv => kv.1 ≠ id)
          = tl.filter (fun kv => kv.1 ≠ id) := by
        simp [List.filter, hk]
      have hne : (id2 == kv.1) = false := by
        simp [hk]
        exact h
      rw [hfil, ih, List.lookup, hne]
    · have hfil : (kv :: tl).filter (fun kv => kv.1 ≠ id)
          = kv :: tl.filter (fun kv => kv.1 ≠ id) := by
        simp [List.filter, hk]
      rw [hfil, List.lookup, List.lookup]
      cases hq : (id2 == kv.1) with
      | true => rfl
      | false => exact ih

theorem lookup_filter_self (l : List (Nat × List Nat)) (id : Nat) :
    (l.filter (fun kv => kv.1 ≠ id)).lookup id = none := by
  induction l with
  | nil => rfl
  | cons kv tl ih =>
    by_cases hk : kv.1 = id
    · have hfil : (kv :: tl).filter (fun kv => kv.1 ≠ id)
          = tl.filter (fun kv => kv.1 ≠ id) := by
        simp [List.filter, hk]
      rw [hfil, ih]
    · have hfil : (kv :: tl).filter (fun kv => kv.1 ≠ id)
          = kv :: tl.filter (fun kv => kv.1 ≠ id) := by
        simp [List.filter, hk]
      have hne : (id == kv.1) = false := by
        simp
        exact fun hc => hk hc.symm
      rw [hfil, List.lookup, hne, ih]

theorem storeLookup_insert_self (s : InMemoryPageStore) (id : Nat) (bs : List Nat) :
    storeLookup (storeInsert s id bs) id = some bs := by
  simp [storeLookup, storeInsert, List.lookup]

theorem storeLookup_insert_ne (s : InMemoryPageStore) (id id2 : Nat) (bs : List Nat)
    (h : id2 ≠ id) : storeLookup (storeInsert s id bs) id2 = storeLookup s id2 := by
  simp only [storeLookup, storeInsert]
  rw [List.lookup]
  have hne : (id2 == id) = false := by simpa using h
  rw [hne]
  exact lookup_filter_ne _ _ _ h

theorem storeLookup_free_self (s : InMemoryPageStore) (id : Nat) :
    storeLookup (s.free_page id) id = none := by
  simp only [storeLookup, InMemoryPageStore.free_page]
  exact lookup_filter_self _ _

theorem storeLookup_free_ne (s : InMemoryPageStore) (id id2 : Nat) (h : id2 ≠ id) :
    storeLookup (s.free_page id) id2 = storeLookup s id2 := by
  simp only [storeLookup, InMemoryPageStore.free_page]
  exact lookup_filter_ne _ _ _ h

theorem listSet_append_left (xs ys : List Nat) (i b : Nat) (h : i < xs.length) :
    (xs ++ ys).set i b = xs.set i b ++ ys := by
  induction xs generalizing i with
  | nil => simp at h
  | cons x tl ih =>
    cases i with
    | zero => simp [List.set]
    | succ j =>
      simp only [List.cons_append, List.set]
      show x :: (tl ++ ys).set j b = x :: (tl.set j b ++ ys)
      rw [ih j (by simpa using h)]

theorem listSet_append_right (xs ys : List Nat) (j b : Nat) :
    (xs ++ ys).set (xs.length + j) b = xs ++ ys.set j b := by
  induction xs with
  | nil => simp
  | cons x tl ih =>
    simp only [List.cons_append, List.length_cons]
    have harith : tl.length + 1 + j = (tl.length + j) + 1 := by omega
    rw [harith, List.set, ih]

theorem listGetD_append_right (xs ys : List Nat) (j : Nat) :
    (xs ++ ys).getD (xs.length + j) 0 = ys.getD j 0 := by
  induction xs with
  | nil => simp
  | cons x tl ih =>
    simp only [List.cons_append, List.length_cons]
    have harith : tl.length + 1 + j = (tl.length + j) + 1 := by omega
    rw [harith]
    simpa using ih

theorem listGetD_set_self (l : List Nat) (j b : Nat) (h : j < l.length) :
    (l.set j b).getD j 0 = b := by
  induction l generalizing j with
  | nil => simp at h
  | cons x tl ih =>
    cases j with
    | zero => rfl
    | succ i =>
      simp only [List.set]
      simpa using ih i (by simpa using h)

theorem listGetD_mem (l : List Nat) (i : Nat) (h : i < l.length) : l.getD i 0 ∈ l := by
  induction l generalizing i with
  | nil => simp at h
  | cons x tl ih =>
    cases i with
    | zero => simp
    | succ j =>
      have := ih j (by simpa using h)
      simp only [List.getD_cons_succ]
      exact List.mem_cons_of_mem _ this

theorem list_decomp (l : List Nat) (i : Nat) (h : i < l.length) :
    l = l.take i ++ l.getD i 0 :: l.drop (i + 1) := by
  induction l generalizing i with
  | nil => simp at h
  | cons x tl ih =>
    cases i with
    | zero => simp
    | succ j =>
      simp only [List.take, List.getD_cons_succ, List.drop, List.cons_append]
      rw [← ih j (by simpa using h)]

theorem listSet_decomp (l : List Nat) (i b : Nat) (h : i < l.length) :
    l.set i b = l.take i ++ b :: l.drop (i + 1) := by
  induction l generalizing i with
  | nil => simp at h
  | cons x tl ih =>
    cases i with
    | zero => simp [List.set]
    | succ j =>
      simp only [List.set, List.take, List.drop, List.cons_append]
      rw [ih j (by simpa using h)]

/-! ### Store round trip and CRC detection (claim about put_page_bytes and
get_page_bytes) -/

theorem mem_add_crc (payload : List Nat) (hb : ∀ b ∈ payload, b < 256) :
    ∀ b ∈ add_crc payload, b < 256 := by
  intro b hbmem
  rcases List.mem_append.mp hbmem with h | h
  · exact hb b h
  · exact mem_toLE_lt 4 _ b h

theorem extract_add_crc (payload : List Nat) (hb : ∀ b ∈ payload, b < 256) :
    extract_and_verify_crc (add_crc payload) = .ok payload := by
  unfold extract_and_verify_crc add_crc
  have hlen : (payload ++ toLE 4 (crc32c payload)).length = payload.length + 4 := by
    simp
  rw [if_neg (by omega)]
  have htake : (payload ++ toLE 4 (crc32c payload)).take
      ((payload ++ toLE 4 (crc32c payload)).length - 4) = payload := by
    rw [hlen]
    have : payload.length + 4 - 4 = payload.length := by omega
    rw [this, List.take_left]
  have hdrop : (payload ++ toLE 4 (crc32c payload)).drop
      ((payload ++ toLE 4 (crc32c payload)).length - 4) = toLE 4 (crc32c payload) := by
    rw [hlen]
    have : payload.length + 4 - 4 = payload.length := by omega
    rw [this, List.drop_left]
  rw [htake, hdrop]
  have hcrc : crc32c payload < 2 ^ 32 :=
    crc32c_lt payload (fun b hm => lt_trans (hb b hm) (by norm_num))
  have hfrom : fromLE (toLE 4 (crc32c payload)) = crc32c payload :=
    fromLE_toLE 4 _ (by norm_num at hcrc ⊢; omega)
  simp [hfrom]

theorem put_get_roundtrip (s s' : InMemoryPageStore) (id : Nat) (payload : List Nat)
    (hb : ∀ b ∈ payload, b < 256)
    (hput : s.put_page_bytes id payload = .ok s') :
    s'.get_page_bytes id = .ok payload := by
  unfold InMemoryPageStore.put_page_bytes at hput
  by_cases hsz : payload.length + 4 > s.page_size
  · rw [if_pos hsz] at hput
    cases hput
  · rw [if_neg hsz] at hput
    have hs' : s' = storeInsert s id (add_crc payload) := by
      cases hput
      rfl
    rw [hs']
    unfold InMemoryPageStore.get_page_bytes
    rw [storeLookup_insert_self]
    exact extract_add_crc payload hb

theorem listGetD_append_left (xs ys : List Nat) (i : Nat) (h : i < xs.length) :
    (xs ++ ys).getD i 0 = xs.getD i 0 := by
  induction xs generalizing i with
  | nil => simp at h
  | cons x tl ih =>
    cases i with
    | zero => rfl
    | succ j =>
      simp only [List.cons_append, List.getD_cons_succ]
      exact ih j (by simpa using h)

/-- C7: a page image stored through put_page_bytes reads back as its logical
payload with the trailing 4-byte CRC removed, and every single-byte
modification of the stored image (any position, any changed byte value) makes
the next get_page_bytes on that id fail with the page corruption error. -/
theorem c7_crc_detection (s s' : InMemoryPageStore) (id : Nat) (payload : List Nat)
    (hb : ∀ b ∈ payload, b < 256)
    (hput : s.put_page_bytes id payload = .ok s') :
    s'.get_page_bytes id = .ok payload ∧
    ∀ i b', i < (add_crc payload).length → b' < 256 →
      b' ≠ (add_crc payload).getD i 0 →
      (storeInsert s' id ((add_crc payload).set i b')).get_page_bytes id
        = .error .corruption := by
  constructor
  · exact put_get_roundtrip s s' id payload hb hput
  · intro i b' hi hb' hne
    unfold InMemoryPageStore.get_page_bytes
    rw [storeLookup_insert_self]
    show extract_and_verify_crc ((add_crc payload).set i b') = .error .corruption
    set c := crc32c payload with hc
    have himg : add_crc payload = payload ++ toLE 4 c := rfl
    have hlenimg : (add_crc payload).length = payload.length + 4 := by
      rw [himg]
      simp
    have hcrc32 : c < 2 ^ 32 :=
      crc32c_lt payload (fun b hm => lt_trans (hb b hm) (by norm_num))
    have hfrom : fromLE (toLE 4 c) = c :=
      fromLE_toLE 4 _ (by norm_num at hcrc32 ⊢; omega)
    by_cases hiL : i < payload.length
    · -- corruption inside the payload region
      have hset : (add_crc payload).set i b' = payload.set i b' ++ toLE 4 c := by
        rw [himg]
        exact listSet_append_left _ _ i b' hiL
      rw [hset]
      unfold extract_and_verify_crc
      have hlen2 : (payload.set i b' ++ toLE 4 c).length = payload.length + 4 := by
        simp
      rw [if_neg (by omega)]
      have htake : (payload.set i b' ++ toLE 4 c).take
          ((payload.set i b' ++ toLE 4 c).length - 4) = payload.set i b' := by
        rw [hlen2]
        have h1 : payload.length + 4 - 4 = (payload.set i b').length := by simp
        rw [h1, List.take_left]
      have hdrop : (payload.set i b' ++ toLE 4 c).drop
          ((payload.set i b' ++ toLE 4 c).length - 4) = toLE 4 c := by
        rw [hlen2]
        have h1 : payload.length + 4 - 4 = (payload.set i b').length := by simp
        rw [h1, List.drop_left]
      have hb0 : payload.getD i 0 < 256 := hb _ (listGetD_mem payload i hiL)
      have hne2 : b' ≠ payload.getD i 0 := by
        intro hcontra
        apply hne
        rw [himg, listGetD_append_left _ _ i hiL]
        exact hcontra
      have hdiff : crc32c (payload.set i b') ≠ c := by
        have hdec := list_decomp payload i hiL
        have hsetdec := listSet_decomp payload i b' hiL
        rw [hc, hsetdec]
        conv_rhs => rw [hdec]
        intro heq
        exact crc32c_single_byte_ne (payload.take i) (payload.drop (i + 1))
          (lt_trans hb' (by norm_num)) (lt_trans hb0 (by norm_num))
          (fun hcc => hne2 hcc) heq
      simp only [htake, hdrop, hfrom]
      rw [if_neg hdiff]
    · -- corruption inside the CRC region
      have hj : i - payload.length < 4 := by omega
      have hi2 : i = payload.length + (i - payload.length) := by omega
      set j := i - payload.length with hjdef
      have hset : (add_crc payload).set i b' = payload ++ (toLE 4 c).set j b' := by
        rw [himg, hi2]
        exact listSet_append_right _ _ j b'
      rw [hset]
      unfold extract_and_verify_crc
      have hlenset : ((toLE 4 c).set j b').length = 4 := by simp
      have hlen2 : (payload ++ (toLE 4 c).set j b').length = payload.length + 4 := by
        simp [hlenset]
      rw [if_neg (by omega)]
      have htake : (payload ++ (toLE 4 c).set j b').take
          ((payload ++ (toLE 4 c).set j b').length - 4) = payload := by
        rw [hlen2]
        have h1 : payload.length + 4 - 4 = payload.length := by omega
        rw [h1, List.take_left]
      have hdrop : (payload ++ (toLE 4 c).set j b').drop
          ((payload ++ (toLE 4 c).set j b').length - 4) = (toLE 4 c).set j b' := by
        rw [hlen2]
        have h1 : payload.length + 4 - 4 = payload.length := by omega
        rw [h1, List.drop_left]
      have hdiff : c ≠ fromLE ((toLE 4 c).set j b') := by
        intro heq
        have hblt : ∀ x ∈ (toLE 4 c).set j b', x < 256 := by
          intro x hx
          rcases List.mem_or_eq_of_mem_set hx with hmem | hx'
          · exact mem_toLE_lt 4 c x hmem
          · omega
        have hback : toLE 4 (fromLE ((toLE 4 c).set j b')) = (toLE 4 c).set j b' := by
          have := toLE_fromLE ((toLE 4 c).set j b') hblt
          rwa [hlenset] at this
        have hlists : (toLE 4 c).set j b' = toLE 4 c := by
          rw [← hback, ← heq]
        have hgd : ((toLE 4 c).set j b').getD j 0 = b' :=
          listGetD_set_self _ j b' (by simp; omega)
        rw [hlists] at hgd
        apply hne
        rw [himg, hi2, listGetD_append_right]
        exact hgd.symm
      simp only [htake, hdrop]
      rw [if_neg hdiff]

/-- Witness for the CRC-detection theorem at a concrete store, payload, position and
replacement byte. -/
theorem c7_crc_detection_witness :
    (storeInsert (InMemoryPageStore.with_page_size 4096) 5
        (add_crc [1, 2, 3])).get_page_bytes 5 = .ok [1, 2, 3] ∧
    (storeInsert (storeInsert (InMemoryPageStore.with_page_size 4096) 5
          (add_crc [1, 2, 3])) 5
        ((add_crc [1, 2, 3]).set 0 9)).get_page_bytes 5 = .error .corruption := by
  have h := c7_crc_detection (InMemoryPageStore.with_page_size 4096)
    (storeInsert (InMemoryPageStore.with_page_size 4096) 5 (add_crc [1, 2, 3]))
    5 [1, 2, 3] (by decide) (by decide)
  exact ⟨h.1, h.2 0 9 (by decide) (by decide) (by decide)⟩

/-! ### Symbolic execution toolkit: step the store operations without ever
evaluating a CRC term -/

@[simp] theorem storeInsert_page_size (s : InMemoryPageStore) (id : Nat)
    (b : List Nat) : (storeInsert s id b).page_size = s.page_size := rfl

@[simp] theorem storeInsert_next_page_id (s : InMemoryPageStore) (id : Nat)
    (b : List Nat) : (storeInsert s id b).next_page_id = s.next_page_id := rfl

@[simp] theorem free_page_page_size (s : InMemoryPageStore) (id : Nat) :
    (s.free_page id).page_size = s.page_size := rfl

@[simp] theorem free_page_next_page_id (s : InMemoryPageStore) (id : Nat) :
    (s.free_page id).next_page_id = s.next_page_id := rfl

theorem put_page_bytes_ok (s : InMemoryPageStore) (id : Nat) (bytes : List Nat)
    (h : bytes.length + 4 ≤ s.page_size) :
    s.put_page_bytes id bytes = .ok (storeInsert s id (add_crc bytes)) := by
  unfold InMemoryPageStore.put_page_bytes
  rw [if_neg (by omega)]

theorem get_page_bytes_insert_self (s : InMemoryPageStore) (id : Nat)
    (P : List Nat) (hb : ∀ b ∈ P, b < 256) :
    (storeInsert s id (add_crc P)).get_page_bytes id = .ok P := by
  unfold InMemoryPageStore.get_page_bytes
  rw [storeLookup_insert_self]
  exact extract_add_crc P hb

theorem get_page_bytes_insert_ne (s : InMemoryPageStore) (id id2 : Nat)
    (bs : List Nat) (h : id2 ≠ id) :
    (storeInsert s id bs).get_page_bytes id2 = s.get_page_bytes id2 := by
  unfold InMemoryPageStore.get_page_bytes
  rw [storeLookup_insert_ne _ _ _ _ h]

theorem get_page_bytes_free_ne (s : InMemoryPageStore) (id id2 : Nat)
    (h : id2 ≠ id) :
    (s.free_page id).get_page_bytes id2 = s.get_page_bytes id2 := by
  unfold InMemoryPageStore.get_page_bytes
  rw [storeLookup_free_ne _ _ _ h]

theorem leafNew_serialize_length (ps : Nat) :
    (LeafPage.new ps).serialize.length = 41 := rfl

theorem allocate_page_eq (s : InMemoryPageStore)
    (h1 : s.next_page_id + 1 < 2 ^ 64) (h2 : 45 ≤ s.page_size) :
    s.allocate_page = some (s.next_page_id,
      storeInsert { s with next_page_id := s.next_page_id + 1 } s.next_page_id
        (add_crc (LeafPage.new s.page_size).serialize)) := by
  unfold InMemoryPageStore.allocate_page
  rw [if_neg (by omega)]
  have hp := put_page_bytes_ok { s with next_page_id := s.next_page_id + 1 }
    s.next_page_id (LeafPage.new s.page_size).serialize
    (by rw [leafNew_serialize_length]; exact h2)
  simp only [hp]

theorem get?_append_left {α : Type} (xs ys : List α) (i : Nat) (h : i < xs.length) :
    (xs ++ ys).get? i = xs.get? i := by
  simp only [List.get?_eq_getElem?]
  exact List.getElem?_append_left h

theorem readU64_append (bs ex : List Nat) (off v : Nat)
    (h : readU64 bs off = some v) : readU64 (bs ++ ex) off = some v := by
  unfold readU64 at h ⊢
  by_cases hlen : off + 8 ≤ bs.length
  · rw [if_pos (by simp; omega)]
    rw [if_pos hlen] at h
    rw [sliceL_pref _ _ _ _ hlen]
    exact h
  · rw [if_neg hlen] at h
    cases h

theorem parseLeafMetas_append (bs ex : List Nat) (count off cur : Nat)
    (ms : List KeyValueMeta)
    (h : parseLeafMetas bs count off cur = some ms) :
    parseLeafMetas (bs ++ ex) count off cur = some ms := by
  induction count generalizing off cur ms with
  | zero => simpa [parseLeafMetas] using h
  | succ n ih =>
    unfold parseLeafMetas at h ⊢
    cases hkl : readU64 bs off with
    | none => simp [hkl] at h
    | some kl =>
      cases hvl : readU64 bs (off + 8) with
      | none => simp [hkl, hvl] at h
      | some vl =>
        cases hrest : parseLeafMetas bs n (off + 16) (cur + kl + vl) with
        | none => simp [hkl, hvl, hrest] at h
        | some rest =>
          simp only [hkl, hvl, hrest, Option.bind_eq_bind, Option.some_bind] at h
          simp only [readU64_append _ _ _ _ hkl, readU64_append _ _ _ _ hvl,
            ih _ _ _ hrest, Option.bind_eq_bind, Option.some_bind]
          exact h

/-- Appending extra bytes after a parseable leaf image re-parses to the same
page except that the recorded page size grows; the slot table, the data
region and the link fields are unchanged. -/
theorem leaf_deserialize_append (bs ex : List Nat) (pg : LeafPage)
    (h : LeafPage.deserialize bs = some pg) :
    LeafPage.deserialize (bs ++ ex) =
      some { pg with page_size := bs.length + ex.length } := by
  unfold LeafPage.deserialize at h ⊢
  cases ht0 : bs[0]? with
  | none => simp [ht0] at h
  | some t0 =>
    have hbs0 : 0 < bs.length := by
      cases bs with
      | nil => simp at ht0
      | cons x tl => simp
    have ht0b : (bs ++ ex)[0]? = some t0 := by
      rw [List.getElem?_append_left hbs0]
      exact ht0
    cases hcount : readU64 bs 1 with
    | none => simp [ht0, hcount] at h
    | some count =>
      cases hds : readU64 bs 9 with
      | none => simp [ht0, hcount, hds] at h
      | some dstart =>
        cases hus : readU64 bs 17 with
        | none => simp [ht0, hcount, hds, hus] at h
        | some used =>
          cases hpv : readU64 bs 25 with
          | none => simp [ht0, hcount, hds, hus, hpv] at h
          | some prev =>
            cases hnx : readU64 bs 33 with
            | none => simp [ht0, hcount, hds, hus, hpv, hnx] at h
            | some next =>
              cases hms : parseLeafMetas bs count LEAF_HEADER 0 with
              | none => simp [ht0, hcount, hds, hus, hpv, hnx, hms] at h
              | some metas =>
                simp only [List.get?_eq_getElem?, ht0, hcount, hds, hus, hpv, hnx, hms,
                  Option.bind_eq_bind, Option.some_bind] at h
                simp only [List.get?_eq_getElem?, ht0b, readU64_append _ _ _ _ hcount,
                  readU64_append _ _ _ _ hds, readU64_append _ _ _ _ hus,
                  readU64_append _ _ _ _ hpv, readU64_append _ _ _ _ hnx,
                  parseLeafMetas_append _ _ _ _ _ _ hms,
                  Option.bind_eq_bind, Option.some_bind]
                by_cases hguard : dstart + used ≤ bs.length
                · rw [if_pos hguard] at h
                  rw [if_pos (by simp; omega)]
                  have hdata : sliceL (bs ++ ex) dstart used = sliceL bs dstart used :=
                    sliceL_pref _ _ _ _ hguard
                  cases h
                  simp [hdata]
                · rw [if_neg hguard] at h
                  cases h

theorem get_next_page_id_of_lookup (s : InMemoryPageStore) (id : Nat)
    (P : List Nat) (pg : LeafPage)
    (hlook : storeLookup s id = some (add_crc P))
    (hparse : LeafPage.deserialize P = some pg) :
    s.get_next_page_id id =
      some (if pg.next_page_id = 0 then none else some pg.next_page_id) := by
  unfold InMemoryPageStore.get_next_page_id
  rw [hlook]
  have hd := leaf_deserialize_append P (toLE 4 (crc32c P)) pg hparse
  show (match LeafPage.deserialize (P ++ toLE 4 (crc32c P)) with
    | none => none
    | some p => some (if p.next_page_id = 0 then none else some p.next_page_id)) =
    some (if pg.next_page_id = 0 then none else some pg.next_page_id)
  rw [hd]

/-! ### One-step characterizations of the tree walks -/

theorem get_page_bytes_with_next (s : InMemoryPageStore) (n id : Nat) :
    ({ s with next_page_id := n } : InMemoryPageStore).get_page_bytes id
      = s.get_page_bytes id := rfl

theorem storeLookup_with_next (s : InMemoryPageStore) (n id : Nat) :
    storeLookup ({ s with next_page_id := n } : InMemoryPageStore) id
      = storeLookup s id := rfl

theorem putWalk_step_insert (key value : List Nat) (s s2 : InMemoryPageStore)
    (dirty : Finset Nat) (pid fuel : Nat) (bytes : List Nat) (page page2 : LeafPage)
    (hget : s.get_page_bytes pid = .ok bytes)
    (hparse : LeafPage.deserialize bytes = some page)
    (hok : page.insert key value = (true, page2))
    (hput : s.put_page_bytes pid page2.serialize = .ok s2) :
    putWalk key value s dirty pid (fuel + 1) = (.ok, s2, insert pid dirty) := by
  unfold putWalk
  simp only [hget, hparse, hok, hput, reduceIte]

theorem putWalk_step_next (key value : List Nat) (s : InMemoryPageStore)
    (dirty : Finset Nat) (pid nid fuel : Nat) (bytes : List Nat) (page : LeafPage)
    (hget : s.get_page_bytes pid = .ok bytes)
    (hparse : LeafPage.deserialize bytes = some page)
    (hfail : (page.insert key value).1 = false)
    (hnext : s.get_next_page_id pid = some (some nid)) :
    putWalk key value s dirty pid (fuel + 1) = putWalk key value s dirty nid fuel := by
  conv_lhs => unfold putWalk
  simp only [hget, hparse, hfail, hnext, Bool.false_eq_true, reduceIte]

theorem putWalk_step_extend (key value : List Nat)
    (s s1 s2 s3 : InMemoryPageStore) (dirty : Finset Nat)
    (pid newId fuel : Nat) (bytes : List Nat) (page np : LeafPage)
    (hget : s.get_page_bytes pid = .ok bytes)
    (hparse : LeafPage.deserialize bytes = some page)
    (hfail : (page.insert key value).1 = false)
    (hnonext : s.get_next_page_id pid = some none)
    (halloc : s.allocate_page = some (newId, s1))
    (hput1 : s1.put_page_bytes pid (page.set_next_page_id newId).serialize = .ok s2)
    (hinsNew : ((LeafPage.new s.page_size).set_prev_page_id pid).insert key value
      = (true, np))
    (hput2 : s2.put_page_bytes newId np.serialize = .ok s3) :
    putWalk key value s dirty pid (fuel + 1)
      = (.ok, s3, insert newId (insert pid dirty)) := by
  unfold putWalk
  simp only [hget, hparse, hfail, hnonext, halloc, hput1, hinsNew, hput2,
    Bool.false_eq_true, reduceIte]

theorem putWalk_step_extend_fail (key value : List Nat)
    (s s1 s2 : InMemoryPageStore) (dirty : Finset Nat)
    (pid newId fuel : Nat) (bytes : List Nat) (page : LeafPage)
    (hget : s.get_page_bytes pid = .ok bytes)
    (hparse : LeafPage.deserialize bytes = some page)
    (hfail : (page.insert key value).1 = false)
    (hnonext : s.get_next_page_id pid = some none)
    (halloc : s.allocate_page = some (newId, s1))
    (hput1 : s1.put_page_bytes pid (page.set_next_page_id newId).serialize = .ok s2)
    (hinsNew : (((LeafPage.new s.page_size).set_prev_page_id pid).insert key value).1
      = false) :
    putWalk key value s dirty pid (fuel + 1)
      = (.errInsertNewFailed, s2, insert pid dirty) := by
  unfold putWalk
  simp only [hget, hparse, hfail, hnonext, halloc, hput1, hinsNew,
    Bool.false_eq_true, reduceIte]

theorem getWalk_step_hit (s : InMemoryPageStore) (key : List Nat) (pid fuel : Nat)
    (bytes : List Nat) (page : LeafPage) (v : List Nat)
    (hget : s.get_page_bytes pid = .ok bytes)
    (hparse : LeafPage.deserialize bytes = some page)
    (hhit : page.get key = some v) :
    getWalk s key pid (fuel + 1) = .ok (some v) := by
  unfold getWalk
  simp only [hget, hparse, hhit]

theorem getWalk_step_next (s : InMemoryPageStore) (key : List Nat)
    (pid nid fuel : Nat) (bytes : List Nat) (page : LeafPage)
    (hget : s.get_page_bytes pid = .ok bytes)
    (hparse : LeafPage.deserialize bytes = some page)
    (hmiss : page.get key = none)
    (hnext : s.get_next_page_id pid = some (some nid)) :
    getWalk s key pid (fuel + 1) = getWalk s key nid fuel := by
  conv_lhs => unfold getWalk
  simp only [hget, hparse, hmiss, hnext]

theorem getWalk_step_end (s : InMemoryPageStore) (key : List Nat) (pid fuel : Nat)
    (bytes : List Nat) (page : LeafPage)
    (hget : s.get_page_bytes pid = .ok bytes)
    (hparse : LeafPage.deserialize bytes = some page)
    (hmiss : page.get key = none)
    (hnext : s.get_next_page_id pid = some none) :
    getWalk s key pid (fuel + 1) = .ok none := by
  unfold getWalk
  simp only [hget, hparse, hmiss, hnext]

theorem deleteWalk_step_next (key : List Nat) (rootId : Nat)
    (s : InMemoryPageStore) (dirty : Finset Nat) (pid nid fuel : Nat)
    (bytes : List Nat) (page : LeafPage)
    (hget : s.get_page_bytes pid = .ok bytes)
    (hparse : LeafPage.deserialize bytes = some page)
    (hfail : (page.delete key).1 = false)
    (hnext : s.get_next_page_id pid = some (some nid)) :
    deleteWalk key rootId s dirty pid (fuel + 1)
      = deleteWalk key rootId s dirty nid fuel := by
  conv_lhs => unfold deleteWalk
  simp only [hget, hparse, hfail, hnext, Bool.false_eq_true, reduceIte]

theorem deleteWalk_step_nonempty (key : List Nat) (rootId : Nat)
    (s s2 : InMemoryPageStore) (dirty : Finset Nat) (pid fuel : Nat)
    (bytes : List Nat) (page page2 : LeafPage)
    (hget : s.get_page_bytes pid = .ok bytes)
    (hparse : LeafPage.deserialize bytes = some page)
    (hdel : page.delete key = (true, page2))
    (hput : s.put_page_bytes pid page2.serialize = .ok s2)
    (hne : page2.metadata.isEmpty = false) :
    deleteWalk key rootId s dirty pid (fuel + 1) = (.ok true, s2, insert pid dirty) := by
  unfold deleteWalk
  simp only [hget, hparse, hdel, hput, hne, Bool.false_eq_true, false_and, reduceIte]

/-- Step lemma for a delete that empties a page whose prev and next links are
both the null sentinel: the page is written back, then unlinked (no neighbor
updates) and freed, whenever its id differs from the root page id. -/
theorem deleteWalk_step_free_isolated (key : List Nat) (rootId : Nat)
    (s s2 : InMemoryPageStore) (dirty : Finset Nat) (pid fuel : Nat)
    (bytes : List Nat) (page page2 : LeafPage)
    (hget : s.get_page_bytes pid = .ok bytes)
    (hparse : LeafPage.deserialize bytes = some page)
    (hdel : page.delete key = (true, page2))
    (hput : s.put_page_bytes pid page2.serialize = .ok s2)
    (hempty : page2.metadata = [])
    (hprev : page2.prev_page_id = 0)
    (hnext : page2.next_page_id = 0)
    (hroot : pid ≠ rootId) :
    deleteWalk key rootId s dirty pid (fuel + 1)
      = (.ok true, s2.free_page pid, (insert pid dirty).erase pid) := by
  unfold deleteWalk
  simp only [hget, hparse, hdel, hput, hempty, hprev, hnext, reduceIte,
    List.isEmpty_nil, true_and, reduceCtorEq]
  rw [if_pos hroot]
  simp

/-- Step lemma for a delete that empties a page with a live prev link and a
null next link: the prev neighbor gets its next pointer cleared, then the
emptied page is freed. -/
theorem deleteWalk_step_free_with_prev (key : List Nat) (rootId : Nat)
    (s s2 s3 : InMemoryPageStore) (dirty : Finset Nat) (pid fuel : Nat)
    (bytes pb : List Nat) (page page2 pp : LeafPage)
    (hget : s.get_page_bytes pid = .ok bytes)
    (hparse : LeafPage.deserialize bytes = some page)
    (hdel : page.delete key = (true, page2))
    (hput : s.put_page_bytes pid page2.serialize = .ok s2)
    (hempty : page2.metadata = [])
    (hprev0 : page2.prev_page_id ≠ 0)
    (hnext : page2.next_page_id = 0)
    (hroot : pid ≠ rootId)
    (hgetp : s2.get_page_bytes page2.prev_page_id = .ok pb)
    (hparsep : LeafPage.deserialize pb = some pp)
    (hputp : s2.put_page_bytes page2.prev_page_id
      (pp.set_next_page_id page2.next_page_id).serialize = .ok s3) :
    deleteWalk key rootId s dirty pid (fuel + 1)
      = (.ok true, s3.free_page pid,
         (insert page2.prev_page_id (insert pid dirty)).erase pid) := by
  rw [hnext] at hputp
  unfold deleteWalk
  simp only [hget, hparse, hdel, hput, hempty, hnext, reduceIte,
    List.isEmpty_nil, true_and]
  rw [if_pos hroot]
  rw [if_pos hprev0]
  simp only [hgetp, hparsep, hputp, hnext]
  simp

/-- Routing prelude shared by the operations on a branch-rooted tree. -/
theorem put_branch_route (t : DataTree) (key value : List Nat) (fuel : Nat)
    (rootBytes : List Nat) (bp : BranchPage) (leafId : Nat)
    (hsmall : (LeafPage.new t.store.page_size).is_value_too_large value = false)
    (hget : t.store.get_page_bytes t.root_page_id = .ok rootBytes)
    (htag : rootBytes.get? 0 = some 2)
    (hbp : BranchPage.deserialize rootBytes = some bp)
    (hfind : bp.find_page_id (keyToU64 key) = some leafId) :
    t.put key value fuel
      = ((putWalk key value t.store t.dirty_pages leafId fuel).1,
         { t with store := (putWalk key value t.store t.dirty_pages leafId fuel).2.1,
                  dirty_pages := (putWalk key value t.store t.dirty_pages leafId fuel).2.2 }) := by
  unfold DataTree.put
  simp only [hsmall, Bool.false_eq_true, reduceIte, hget]
  rw [htag]
  simp only [PageType.from_u8, Option.getD_some, reduceIte, hbp, hfind]

theorem get_branch_route (t : DataTree) (key : List Nat) (fuel : Nat)
    (rootBytes : List Nat) (bp : BranchPage) (leafId : Nat)
    (hget : t.store.get_page_bytes t.root_page_id = .ok rootBytes)
    (htag : rootBytes.get? 0 = some 2)
    (hbp : BranchPage.deserialize rootBytes = some bp)
    (hfind : bp.find_page_id (keyToU64 key) = some leafId) :
    t.get key fuel = getWalk t.store key leafId fuel := by
  unfold DataTree.get
  simp only [hget]
  rw [htag]
  simp only [PageType.from_u8, Option.getD_some, reduceIte, hbp, hfind]

theorem delete_branch_route (t : DataTree) (key : List Nat) (fuel : Nat)
    (rootBytes : List Nat) (bp : BranchPage) (leafId : Nat)
    (hget : t.store.get_page_bytes t.root_page_id = .ok rootBytes)
    (htag : rootBytes.get? 0 = some 2)
    (hbp : BranchPage.deserialize rootBytes = some bp)
    (hfind : bp.find_page_id (keyToU64 key) = some leafId) :
    t.delete key fuel
      = ((deleteWalk key t.root_page_id t.store t.dirty_pages leafId fuel).1,
         { t with store := (deleteWalk key t.root_page_id t.store t.dirty_pages leafId fuel).2.1,
                  dirty_pages := (deleteWalk key t.root_page_id t.store t.dirty_pages leafId fuel).2.2 }) := by
  unfold DataTree.delete
  simp only [hget]
  rw [htag]
  simp only [PageType.from_u8, Option.getD_some, reduceIte, hbp, hfind]

theorem pageType_to_u8_lt (pt : PageType) : pt.to_u8 < 256 := by
  cases pt <;> decide

theorem mem_leaf_serialize_lt (p : LeafPage) (hd : ∀ b ∈ p.data, b < 256) :
    ∀ b ∈ p.serialize, b < 256 := by
  intro b hb
  unfold LeafPage.serialize at hb
  simp only [List.mem_append, List.mem_singleton, List.mem_flatten,
    List.mem_map] at hb
  rcases hb with ((((((h | h) | h) | h) | h) | h) | ⟨l, ⟨m, hm, rfl⟩, h⟩) | h
  · subst h
    exact pageType_to_u8_lt _
  · exact mem_toLE_lt _ _ _ h
  · exact mem_toLE_lt _ _ _ h
  · exact mem_toLE_lt _ _ _ h
  · exact mem_toLE_lt _ _ _ h
  · exact mem_toLE_lt _ _ _ h
  · rcases List.mem_append.mp h with h2 | h2
    · exact mem_toLE_lt _ _ _ h2
    · exact mem_toLE_lt _ _ _ h2
  · exact hd b h

theorem mem_branch_serialize_lt (p : BranchPage) : ∀ b ∈ p.serialize, b < 256 := by
  intro b hb
  unfold BranchPage.serialize at hb
  simp only [List.mem_append, List.mem_singleton, List.mem_flatten,
    List.mem_map] at hb
  rcases hb with ((((h | h) | h) | h) | ⟨l, ⟨m, hm, rfl⟩, h⟩)
  · subst h
    exact pageType_to_u8_lt _
  · exact mem_toLE_lt _ _ _ h
  · exact mem_toLE_lt _ _ _ h
  · exact mem_toLE_lt _ _ _ h
  · unfold BranchEntry.serialize at h
    rcases List.mem_append.mp h with h2 | h2
    · exact mem_toLE_lt _ _ _ h2
    · exact mem_toLE_lt _ _ _ h2

@[simp] theorem with_page_size_next (ps : Nat) :
    (InMemoryPageStore.with_page_size ps).next_page_id = 1 := rfl

@[simp] theorem with_page_size_ps (ps : Nat) :
    (InMemoryPageStore.with_page_size ps).page_size = ps := rfl

@[simp] theorem with_page_size_pages (ps : Nat) :
    (InMemoryPageStore.with_page_size ps).pages = [] := rfl

@[simp] theorem except_toOption_ok {ε α : Type} (a : α) :
    (Except.ok a : Except ε α).toOption = some a := rfl

theorem tree_construction_eq (ps : Nat) (h : 45 ≤ ps) :
    DataTree.new_with_branch_root (InMemoryPageStore.with_page_size ps)
      = some (trT0 ps) := by
  unfold DataTree.new_with_branch_root
  rw [allocate_page_eq _ (by norm_num : (1 : Nat) + 1 < 2 ^ 64)
    (show (45 : Nat) ≤ ps from h)]
  simp only [Option.bind_eq_bind, Option.some_bind, with_page_size_next,
    with_page_size_ps, with_page_size_pages]
  rw [put_page_bytes_ok _ 1 _ (by
    rw [leafNew_serialize_length]
    simpa using h)]
  simp only [except_toOption_ok, Option.some_bind]
  rw [allocate_page_eq _ (by norm_num : (2 : Nat) + 1 < 2 ^ 64)
    (by simpa using h)]
  simp only [Option.bind_eq_bind, Option.some_bind, storeInsert_page_size,
    storeInsert_next_page_id]
  rw [put_page_bytes_ok _ 2 _ (by
    have hlen : (((BranchPage.new ps).insert 1 0).2.serialize).length = 41 := rfl
    simp only [storeInsert_page_size]
    rw [hlen]
    simpa using h)]
  simp only [except_toOption_ok, Option.some_bind]
  rfl

/-- Projections of the fresh tree state. -/
theorem trT0_store_eq (ps : Nat) : (trT0 ps).store = trS4 ps := rfl

theorem trT0_dirty_eq (ps : Nat) : (trT0 ps).dirty_pages = ∅ := rfl

/-- Parsed form of the fresh branch root image. -/
def trBpR : BranchPage :=
  { page_type := .branchPage, page_size := 41,
    entries := [{ page_id := 1, first_key := 0 }],
    prev_page_id := 0, next_page_id := 0 }

theorem trS4_get_root (ps : Nat) :
    (trS4 ps).get_page_bytes 2 = .ok (trBp ps).serialize := by
  rw [trS4]
  exact get_page_bytes_insert_self _ _ _ (mem_branch_serialize_lt _)

theorem mem_leafNew_serialize_lt (ps : Nat) :
    ∀ b ∈ (LeafPage.new ps).serialize, b < 256 :=
  mem_leaf_serialize_lt _ (fun b hb => absurd hb (List.not_mem_nil b))

theorem trS4_get_anchor (ps : Nat) :
    (trS4 ps).get_page_bytes 1 = .ok (LeafPage.new ps).serialize := by
  rw [trS4, get_page_bytes_insert_ne _ 2 1 _ (by decide), trS3,
    get_page_bytes_insert_ne _ 2 1 _ (by decide), get_page_bytes_with_next, trS2]
  exact get_page_bytes_insert_self _ _ _ (mem_leafNew_serialize_lt ps)

theorem trS4_lookup_anchor (ps : Nat) :
    storeLookup (trS4 ps) 1 = some (add_crc (LeafPage.new ps).serialize) := by
  rw [trS4, storeLookup_insert_ne _ 2 1 _ (by decide), trS3,
    storeLookup_insert_ne _ 2 1 _ (by decide), storeLookup_with_next, trS2]
  exact storeLookup_insert_self _ _ _

theorem trS4_next_anchor (ps : Nat)
    (hp : LeafPage.deserialize (LeafPage.new ps).serialize = some anchorPg) :
    (trS4 ps).get_next_page_id 1 = some none := by
  rw [get_next_page_id_of_lookup (trS4 ps) 1 _ anchorPg (trS4_lookup_anchor ps) hp]
  rfl

theorem trS4_alloc (ps : Nat) (h : 45 ≤ ps) :
    (trS4 ps).allocate_page = some (3, trS5 ps) := by
  rw [allocate_page_eq _ (by norm_num : (3 : Nat) + 1 < 2 ^ 64) (by
    simpa using h)]
  rfl

/-- Result of the first put on a fresh branch-rooted tree of page size 4096:
the anchor rejects the pair and a chain page 3 is allocated to receive it. -/
theorem trace_put1_eq : (trT0 4096).put c1k c1v1 10 = (.ok, c1T1) := by
  show (trT0 4096).put c1k c1v1 (9 + 1) = (.ok, c1T1)
  rw [put_branch_route (trT0 4096) c1k c1v1 (9 + 1) (trBp 4096).serialize
    trBpR 1 (by decide) (trS4_get_root 4096) (by decide) (by decide) (by decide)]
  simp only [trT0_store_eq, trT0_dirty_eq]
  rw [putWalk_step_extend c1k c1v1 (trS4 4096) (trS5 4096) (trS6 4096)
    (trS7 4096 c1k c1v1) ∅ 1 3 9 (LeafPage.new 4096).serialize anchorPg
    (chainPg 4096 1 c1k c1v1)
    (trS4_get_anchor 4096) (by decide) (by decide)
    (trS4_next_anchor 4096 (by decide))
    (trS4_alloc 4096 (by norm_num))
    (by
      rw [put_page_bytes_ok _ _ _ (by decide)]
      rfl)
    (by decide)
    (by
      rw [put_page_bytes_ok _ _ _ (by decide)]
      rfl)]
  rfl

theorem trS7_get_root :
    (trS7 4096 c1k c1v1).get_page_bytes 2 = .ok (trBp 4096).serialize := by
  rw [trS7, get_page_bytes_insert_ne _ 3 2 _ (by decide), trS6,
    get_page_bytes_insert_ne _ 1 2 _ (by decide), trS5,
    get_page_bytes_insert_ne _ 3 2 _ (by decide), get_page_bytes_with_next]
  exact trS4_get_root 4096

theorem trS7_get_1 :
    (trS7 4096 c1k c1v1).get_page_bytes 1 = .ok anchorPg3.serialize := by
  rw [trS7, get_page_bytes_insert_ne _ 3 1 _ (by decide), trS6]
  exact get_page_bytes_insert_self _ _ _ (by decide)

theorem trS7_lookup_1 :
    storeLookup (trS7 4096 c1k c1v1) 1 = some (add_crc anchorPg3.serialize) := by
  rw [trS7, storeLookup_insert_ne _ 3 1 _ (by decide), trS6]
  exact storeLookup_insert_self _ _ _

theorem trS7_next_1 :
    (trS7 4096 c1k c1v1).get_next_page_id 1 = some (some 3) := by
  rw [get_next_page_id_of_lookup (trS7 4096 c1k c1v1) 1 _ anchorPg3 trS7_lookup_1
    (by decide)]
  rfl

theorem trS7_get_3 :
    (trS7 4096 c1k c1v1).get_page_bytes 3 = .ok (chainPg 4096 1 c1k c1v1).serialize := by
  rw [trS7]
  exact get_page_bytes_insert_self _ _ _ (by decide)

theorem trS7_lookup_3 :
    storeLookup (trS7 4096 c1k c1v1) 3
      = some (add_crc (chainPg 4096 1 c1k c1v1).serialize) := by
  rw [trS7]
  exact storeLookup_insert_self _ _ _

theorem trS7_next_3 :
    (trS7 4096 c1k c1v1).get_next_page_id 3 = some none := by
  rw [get_next_page_id_of_lookup (trS7 4096 c1k c1v1) 3 _ c1BR trS7_lookup_3
    (by decide)]
  rfl

theorem trS7_alloc : (trS7 4096 c1k c1v1).allocate_page = some (4, trS8) := by
  rw [allocate_page_eq _ (by norm_num : (4 : Nat) + 1 < 2 ^ 64) (by decide)]
  rfl

theorem c1T1_store_eq : c1T1.store = trS7 4096 c1k c1v1 := rfl

theorem c1T1_dirty_eq : c1T1.dirty_pages = insert 3 (insert 1 ∅) := rfl

/-- Second put of the divergence trace: the stale copy on page 3 cannot be
updated in place, so the key is inserted again into a fresh page 4. -/
theorem trace_put2_eq : c1T1.put c1k c1v2 10 = (.ok, c1T2) := by
  show c1T1.put c1k c1v2 ((8 + 1) + 1) = (.ok, c1T2)
  rw [put_branch_route c1T1 c1k c1v2 ((8 + 1) + 1) (trBp 4096).serialize
    trBpR 1 (by decide) trS7_get_root (by decide) (by decide) (by decide)]
  simp only [c1T1_store_eq, c1T1_dirty_eq]
  rw [putWalk_step_next c1k c1v2 (trS7 4096 c1k c1v1) (insert 3 (insert 1 ∅))
    1 3 (8 + 1) anchorPg3.serialize anchorPg3
    trS7_get_1 (by decide) (by decide) trS7_next_1]
  rw [putWalk_step_extend c1k c1v2 (trS7 4096 c1k c1v1) trS8 trS9 trS10
    (insert 3 (insert 1 ∅)) 3 4 8 (chainPg 4096 1 c1k c1v1).serialize c1BR c1C
    trS7_get_3 (by decide) (by decide) trS7_next_3 trS7_alloc
    (by
      rw [put_page_bytes_ok _ _ _ (by decide)]
      rfl)
    (by decide)
    (by
      rw [put_page_bytes_ok _ _ _ (by decide)]
      rfl)]
  rfl

theorem trS10_get_root : trS10.get_page_bytes 2 = .ok (trBp 4096).serialize := by
  rw [trS10, get_page_bytes_insert_ne _ 4 2 _ (by decide), trS9,
    get_page_bytes_insert_ne _ 3 2 _ (by decide), trS8,
    get_page_bytes_insert_ne _ 4 2 _ (by decide), get_page_bytes_with_next]
  exact trS7_get_root

theorem trS10_get_1 : trS10.get_page_bytes 1 = .ok anchorPg3.serialize := by
  rw [trS10, get_page_bytes_insert_ne _ 4 1 _ (by decide), trS9,
    get_page_bytes_insert_ne _ 3 1 _ (by decide), trS8,
    get_page_bytes_insert_ne _ 4 1 _ (by decide), get_page_bytes_with_next]
  exact trS7_get_1

theorem trS10_lookup_1 : storeLookup trS10 1 = some (add_crc anchorPg3.serialize) := by
  rw [trS10, storeLookup_insert_ne _ 4 1 _ (by decide), trS9,
    storeLookup_insert_ne _ 3 1 _ (by decide), trS8,
    storeLookup_insert_ne _ 4 1 _ (by decide), storeLookup_with_next]
  exact trS7_lookup_1

theorem trS10_next_1 : trS10.get_next_page_id 1 = some (some 3) := by
  rw [get_next_page_id_of_lookup trS10 1 _ anchorPg3 trS10_lookup_1 (by decide)]
  rfl

theorem trS10_get_3 : trS10.get_page_bytes 3 = .ok c1B4.serialize := by
  rw [trS10, get_page_bytes_insert_ne _ 4 3 _ (by decide), trS9]
  exact get_page_bytes_insert_self _ _ _ (by decide)

theorem c1T2_store_eq : c1T2.store = trS10 := rfl

/-- Read back after the two puts: get finds the stale 1-byte value on page 3,
never reaching the fresh value on page 4. -/
theorem trace_get_eq : c1T2.get c1k 10 = .ok (some c1v1) := by
  show c1T2.get c1k ((8 + 1) + 1) = .ok (some c1v1)
  rw [get_branch_route c1T2 c1k ((8 + 1) + 1) (trBp 4096).serialize
    trBpR 1 trS10_get_root (by decide) (by decide) (by decide)]
  rw [c1T2_store_eq]
  rw [getWalk_step_next trS10 c1k 1 3 (8 + 1) anchorPg3.serialize anchorPg3
    trS10_get_1 (by decide) (by decide) trS10_next_1]
  rw [getWalk_step_hit trS10 c1k 3 8 c1B4.serialize c1B4 c1v1
    trS10_get_3 (by decide) (by decide)]

/-- C1: code_bug evaluation at the failing input.  From a fresh branch-rooted
tree with page size 4096, putting key c1k with the one-byte value c1v1 and
then with the 59-byte value c1v2 both succeed, yet get returns the stale
first value: the idealized map from keys to byte strings would return c1v2.
Pages reload with page_size equal to their stored byte length, so the larger
update cannot happen in place and the key is duplicated into a fresh chain
page while get stops at the stale copy. -/
theorem c1_tree_model_divergence :
    DataTree.new_with_branch_root (InMemoryPageStore.with_page_size 4096)
      = some (trT0 4096) ∧
    (trT0 4096).put c1k c1v1 10 = (.ok, c1T1) ∧
    c1T1.put c1k c1v2 10 = (.ok, c1T2) ∧
    c1T2.get c1k 10 = .ok (some c1v1) ∧
    c1v1 ≠ c1v2 :=
  ⟨tree_construction_eq 4096 (by norm_num), trace_put1_eq, trace_put2_eq,
    trace_get_eq, by decide⟩

theorem c3_construction :
    DataTree.new (InMemoryPageStore.with_page_size 4096) = some c3T := by
  unfold DataTree.new
  rw [allocate_page_eq _ (by norm_num : (1 : Nat) + 1 < 2 ^ 64)
    (by norm_num : (45 : Nat) ≤ 4096)]
  simp only [Option.bind_eq_bind, Option.some_bind, with_page_size_next,
    with_page_size_ps, with_page_size_pages]
  rw [put_page_bytes_ok _ 1 _ (by decide)]
  simp only [except_toOption_ok, Option.some_bind]
  rfl

/-- C3: counterexample.  DataTree::new stores a LEAF page as the root: the
first byte of the root image is the leaf tag 1, not the branch tag 2, and
the root holds no branch entries at all. -/
theorem c3_counterexample :
    DataTree.new (InMemoryPageStore.with_page_size 4096) = some c3T ∧
    c3T.store.get_page_bytes c3T.root_page_id = .ok (LeafPage.new 4096).serialize ∧
    ((LeafPage.new 4096).serialize).get? 0 = some PageType.leafPage.to_u8 ∧
    PageType.leafPage.to_u8 ≠ PageType.branchPage.to_u8 := by
  refine ⟨c3_construction, ?_, by decide, by decide⟩
  show (trS2 4096).get_page_bytes 1 = _
  rw [trS2]
  exact get_page_bytes_insert_self _ _ _ (mem_leafNew_serialize_lt 4096)

/-- C3 amended: it is new_with_branch_root, not new, that builds the branch
root: over any page store with page size at least 45 and two ids to spare,
it allocates a fresh empty leaf, then a branch page holding exactly the one
entry (leaf_id, first_key 0) whose stored image begins with the branch
tag 2. -/
theorem c3_amended (s : InMemoryPageStore)
    (hps : 45 ≤ s.page_size) (hid : s.next_page_id + 2 < 2 ^ 64) :
    DataTree.new_with_branch_root s = some (mkBranchTree s) ∧
    (mkBranchTree s).root_page_id = s.next_page_id + 1 ∧
    ((BranchPage.new s.page_size).insert s.next_page_id 0).2.entries
      = [{ page_id := s.next_page_id, first_key := 0 }] ∧
    (mkBranchTree s).store.get_page_bytes (mkBranchTree s).root_page_id
      = .ok (((BranchPage.new s.page_size).insert s.next_page_id 0).2.serialize) ∧
    ((((BranchPage.new s.page_size).insert s.next_page_id 0).2.serialize).get? 0
      = some PageType.branchPage.to_u8) ∧
    (mkBranchTree s).store.get_page_bytes s.next_page_id
      = .ok (LeafPage.new s.page_size).serialize ∧
    (LeafPage.new s.page_size).metadata = [] ∧
    (LeafPage.new s.page_size).page_type = PageType.leafPage := by
  refine ⟨?_, rfl, rfl, ?_, ?_, ?_, rfl, rfl⟩
  · unfold DataTree.new_with_branch_root
    rw [allocate_page_eq _ (by omega) hps]
    simp only [Option.bind_eq_bind, Option.some_bind]
    rw [put_page_bytes_ok _ _ _ (by
      rw [leafNew_serialize_length]
      simpa using hps)]
    simp only [except_toOption_ok, Option.some_bind]
    rw [allocate_page_eq _ (by simp; omega) (by simpa using hps)]
    simp only [Option.bind_eq_bind, Option.some_bind, storeInsert_page_size,
      storeInsert_next_page_id]
    rw [put_page_bytes_ok _ _ _ (by
      have hlen : ((((BranchPage.new s.page_size).insert s.next_page_id 0).2).serialize).length
          = 41 := by
        simp [BranchPage.serialize, BranchPage.insert, BranchPage.new, branchInsertAt,
          BranchEntry.serialize]
      simp only [storeInsert_page_size]
      rw [hlen]
      simpa using hps)]
    simp only [except_toOption_ok, Option.some_bind]
    rfl
  · show (mkBranchStore4 s).get_page_bytes (s.next_page_id + 1) = _
    rw [mkBranchStore4]
    exact get_page_bytes_insert_self _ _ _ (mem_branch_serialize_lt _)
  · rfl
  · show (mkBranchStore4 s).get_page_bytes s.next_page_id = _
    rw [mkBranchStore4, get_page_bytes_insert_ne _ (s.next_page_id + 1)
      s.next_page_id _ (by omega), mkBranchStore3,
      get_page_bytes_insert_ne _ (s.next_page_id + 1) s.next_page_id _ (by omega),
      get_page_bytes_with_next, mkLeafStore2]
    exact get_page_bytes_insert_self _ _ _ (mem_leafNew_serialize_lt _)

/-- Witness for the construction theorem at a fresh store with the default page size. -/
theorem c3_amended_witness :
    DataTree.new_with_branch_root (InMemoryPageStore.with_page_size 4096)
      = some (mkBranchTree (InMemoryPageStore.with_page_size 4096)) ∧
    (mkBranchTree (InMemoryPageStore.with_page_size 4096)).store.get_page_bytes
        (mkBranchTree (InMemoryPageStore.with_page_size 4096)).root_page_id
      = .ok (((BranchPage.new 4096).insert 1 0).2.serialize) := by
  have h := c3_amended (InMemoryPageStore.with_page_size 4096) (by norm_num)
    (by norm_num)
  exact ⟨h.1, h.2.2.2.1⟩

theorem c2S_get_root : c2S.get_page_bytes 2 = .ok ((trBp 4096).serialize) := by
  rw [c2S, get_page_bytes_insert_ne _ 1 2 _ (by decide)]
  exact trS4_get_root 4096

theorem c2S_get_1 : c2S.get_page_bytes 1 = .ok c2Anchor.serialize := by
  rw [c2S]
  exact get_page_bytes_insert_self _ _ _ (mem_leaf_serialize_lt _ (by decide))

theorem c2S_put_1 : c2S.put_page_bytes 1 c2Empty.serialize = .ok c2S2 := by
  rw [c2S2, c2S]
  exact put_page_bytes_ok _ _ _ (by decide)

theorem c2T_store_eq : c2T.store = c2S := rfl

theorem c2T_root_eq : c2T.root_page_id = 2 := rfl

theorem c2T_dirty_eq : c2T.dirty_pages = (∅ : Finset Nat) := rfl

/-- C2: counterexample.  On a branch-rooted tree whose anchor leaf (page 1,
the page the single branch entry points at) holds exactly one key, deleting
that key empties the anchor and the code FREES it: the guard in delete
compares against the root page id, not the anchor id, so afterwards the
branch root still names page 1 while page 1 is gone from the store. -/
theorem c2_counterexample :
    (c2T.delete c1k 10).1 = .ok true ∧
    (c2T.delete c1k 10).2.root_page_id = 2 ∧
    (c2T.delete c1k 10).2.store.get_page_bytes 2 = .ok ((trBp 4096).serialize) ∧
    BranchPage.deserialize ((trBp 4096).serialize) = some trBpR ∧
    trBpR.entries = [{ page_id := 1, first_key := 0 }] ∧
    storeLookup (c2T.delete c1k 10).2.store 1 = none := by
  have hwalk : deleteWalk c1k 2 c2S ∅ 1 10
      = (.ok true, c2S2.free_page 1, (insert 1 (∅ : Finset Nat)).erase 1) := by
    show deleteWalk c1k 2 c2S ∅ 1 (9 + 1) = _
    rw [deleteWalk_step_free_isolated c1k 2 c2S c2S2 ∅ 1 9
      c2Anchor.serialize c2AnchorR c2Empty c2S_get_1 (by decide) (by decide)
      c2S_put_1 (by decide) (by decide) (by decide) (by decide)]
  rw [delete_branch_route c2T c1k 10 ((trBp 4096).serialize) trBpR 1
    c2S_get_root (by decide) (by decide) (by decide)]
  simp only [c2T_store_eq, c2T_root_eq, c2T_dirty_eq, hwalk]
  refine ⟨trivial, trivial, ?_, by decide, by rfl, storeLookup_free_self _ _⟩
  rw [get_page_bytes_free_ne _ 1 2 (by decide), c2S2,
    get_page_bytes_insert_ne _ 1 2 _ (by decide)]
  exact c2S_get_root

/-- C2 amended: delete's retain-guard compares the current page id against
the tree's ROOT page id, not against the anchor: on a branch-rooted tree,
when the delete routed through the branch empties the addressed leaf (the
anchor included) and that leaf has no neighbors, the leaf is freed — its id
is removed from the store — even though the branch entry still points at it.
Only the root page itself is ever retained. -/
theorem c2_anchor_freed (t : DataTree) (key : List Nat) (fuel : Nat)
    (rootBytes : List Nat) (bp : BranchPage) (pid : Nat)
    (bytes : List Nat) (page page2 : LeafPage) (s2 : InMemoryPageStore)
    (hget : t.store.get_page_bytes t.root_page_id = .ok rootBytes)
    (htag : rootBytes.get? 0 = some 2)
    (hbp : BranchPage.deserialize rootBytes = some bp)
    (hfind : bp.find_page_id (keyToU64 key) = some pid)
    (hgetp : t.store.get_page_bytes pid = .ok bytes)
    (hparse : LeafPage.deserialize bytes = some page)
    (hdel : page.delete key = (true, page2))
    (hput : t.store.put_page_bytes pid page2.serialize = .ok s2)
    (hempty : page2.metadata = [])
    (hprev : page2.prev_page_id = 0)
    (hnext : page2.next_page_id = 0)
    (hroot : pid ≠ t.root_page_id) :
    (t.delete key (fuel + 1)).1 = .ok true ∧
    storeLookup (t.delete key (fuel + 1)).2.store pid = none := by
  rw [delete_branch_route t key (fuel + 1) rootBytes bp pid hget htag hbp hfind,
    deleteWalk_step_free_isolated key t.root_page_id t.store s2 t.dirty_pages
      pid fuel bytes page page2 hgetp hparse hdel hput hempty hprev hnext hroot]
  exact ⟨rfl, storeLookup_free_self _ _⟩

/-- Witness at the concrete one-key anchor trace. -/
theorem c2_anchor_freed_witness :
    (c2T.delete c1k (9 + 1)).1 = .ok true ∧
    storeLookup (c2T.delete c1k (9 + 1)).2.store 1 = none :=
  c2_anchor_freed c2T c1k 9 ((trBp 4096).serialize) trBpR 1
    c2Anchor.serialize c2AnchorR c2Empty c2S2
    c2S_get_root (by decide) (by decide) (by decide)
    c2S_get_1 (by decide) (by decide) c2S_put_1
    (by decide) (by decide) (by decide) (by decide)

theorem leaf_deserialize_short (bs : List Nat) (h : bs.length < 41) :
    LeafPage.deserialize bs = none := by
  simp only [LeafPage.deserialize, readU64, Option.bind_eq_bind]
  cases h0 : bs.get? 0 with
  | none => rfl
  | some t0 =>
    simp only [Option.some_bind]
    split_ifs <;> simp_all <;> omega

theorem branch_deserialize_short (bs : List Nat) (h : bs.length < 25) :
    BranchPage.deserialize bs = none := by
  simp only [BranchPage.deserialize, readU64, Option.bind_eq_bind]
  cases h0 : bs.get? 0 with
  | none => rfl
  | some t0 =>
    simp only [Option.some_bind]
    split_ifs <;> simp_all <;> omega

theorem rle_deserialize_total (bs : List Nat) : (RleLeafPage.deserialize bs).isSome = true := by
  rw [RleLeafPage.deserialize]
  by_cases h : bs.length < RLE_HEADER
  · rw [if_pos h]
    rfl
  · rw [if_neg h]
    have h41 : 41 ≤ bs.length := le_of_not_lt h
    obtain ⟨b0, hb0⟩ : ∃ b, bs.get? 0 = some b := by
      cases hc : bs.get? 0 with
      | none =>
        rw [List.get?_eq_none] at hc
        omega
      | some b => exact ⟨b, rfl⟩
    have r1 : readU64 bs 1 = some (fromLE (sliceL bs 1 8)) := by
      rw [readU64, if_pos (by omega)]
    have r9 : readU64 bs 9 = some (fromLE (sliceL bs 9 8)) := by
      rw [readU64, if_pos (by omega)]
    have r17 : readU64 bs 17 = some (fromLE (sliceL bs 17 8)) := by
      rw [readU64, if_pos (by omega)]
    have r25 : readU64 bs 25 = some (fromLE (sliceL bs 25 8)) := by
      rw [readU64, if_pos (by omega)]
    have r33 : readU64 bs 33 = some (fromLE (sliceL bs 33 8)) := by
      rw [readU64, if_pos (by omega)]
    simp only [hb0, r1, r9, r17, r25, r33, Option.bind_eq_bind, Option.some_bind,
      Option.isSome_some]

theorem rle_deserialize_short (bs : List Nat) (h : bs.length < RLE_HEADER) :
    RleLeafPage.deserialize bs = some (RleLeafPage.new_empty bs.length) := by
  rw [RleLeafPage.deserialize, if_pos h]

/-- C5: counterexample.  Leaf and branch deserialization are not total even
on buffers at least as long as their headers: a 41-byte leaf buffer whose
header declares one slot makes the slot-table read overrun (a Rust slice
panic, modelled as none), and the empty buffer yields the modelled panic for
both leaf and branch rather than an empty page. -/
theorem c5_counterexample :
    c5buf.length = LEAF_HEADER ∧
    LeafPage.deserialize c5buf = none ∧
    c5bbuf.length = BRANCH_HEADER ∧
    BranchPage.deserialize c5bbuf = none ∧
    LeafPage.deserialize [] = none ∧
    BranchPage.deserialize [] = none := by decide

/-- C5 amended: only the RLE-leaf codec is total: it parses every buffer,
and buffers shorter than its header yield the empty RLE page recording the
buffer length as page size.  The leaf and branch codecs instead panic
(modelled as none) on every buffer shorter than their headers. -/
theorem c5_amended :
    (∀ bs : List Nat, (RleLeafPage.deserialize bs).isSome = true) ∧
    (∀ bs : List Nat, bs.length < RLE_HEADER →
      RleLeafPage.deserialize bs = some (RleLeafPage.new_empty bs.length)) ∧
    (∀ bs : List Nat, bs.length < LEAF_HEADER → LeafPage.deserialize bs = none) ∧
    (∀ bs : List Nat, bs.length < BRANCH_HEADER → BranchPage.deserialize bs = none) :=
  ⟨rle_deserialize_total, rle_deserialize_short,
   fun bs h => leaf_deserialize_short bs h,
   fun bs h => branch_deserialize_short bs h⟩

/-- Witness for the codec-totality theorem at the empty buffer. -/
theorem c5_amended_witness :
    (RleLeafPage.deserialize []).isSome = true ∧
    RleLeafPage.deserialize [] = some (RleLeafPage.new_empty ([] : List Nat).length) ∧
    LeafPage.deserialize [] = none ∧
    BranchPage.deserialize [] = none :=
  ⟨c5_amended.1 [], c5_amended.2.1 [] (by decide), c5_amended.2.2.1 [] (by decide),
   c5_amended.2.2.2 [] (by decide)⟩

theorem leaf_serialize_length (p : LeafPage) :
    p.serialize.length = 41 + 16 * p.metadata.length + p.data.length := by
  have hms : ∀ ms : List KeyValueMeta,
      ((ms.map (fun m => toLE 8 m.key_length ++ toLE 8 m.value_length)).flatten).length
        = 16 * ms.length := by
    intro ms
    induction ms with
    | nil => simp
    | cons m ms ih =>
      simp only [List.map_cons, List.flatten_cons, List.length_append, ih,
        toLE_length, List.length_cons]
      ring
  simp only [LeafPage.serialize, List.length_append, List.length_singleton,
    toLE_length, hms, LEAF_HEADER]

theorem insert_empty_ok (ps pid : Nat) (key value : List Nat)
    (h : key.length + value.length + 57 ≤ ps) :
    ((LeafPage.new ps).set_prev_page_id pid).insert key value
      = (true, c6NewPage ps pid key value) := by
  show LeafPage.insert
      { page_type := .leafPage, page_size := ps, metadata := [], data := [],
        prev_page_id := pid, next_page_id := 0 } key value = _
  unfold LeafPage.insert
  simp only [List.findIdx?_nil]
  rw [if_neg (by simp only [List.length_nil, LEAF_HEADER]; omega)]
  simp [c6NewPage]

/-- C6: counterexample.  With page size 100, a 36-byte value passes the
up-front size check (max_value_size = 100 - 64 = 36), the empty anchor
rejects the pair (its reloaded page size is its 41 stored bytes), a fresh
page is allocated and wired, and the insert into the fresh empty page STILL
fails (8 + 36 + 57 = 101 > 100), so the put returns the
failed-to-insert-into-new-page error instead of succeeding. -/
theorem c6_counterexample :
    (LeafPage.new 100).is_value_too_large c6v = false ∧
    DataTree.new_with_branch_root (InMemoryPageStore.with_page_size 100)
      = some (trT0 100) ∧
    ((trT0 100).put c1k c6v 10).1 = .errInsertNewFailed := by
  refine ⟨by decide, tree_construction_eq 100 (by norm_num), ?_⟩
  have hwalk : putWalk c1k c6v (trS4 100) ∅ 1 10
      = (.errInsertNewFailed, trS6 100, insert 1 (∅ : Finset Nat)) := by
    show putWalk c1k c6v (trS4 100) ∅ 1 (9 + 1) = _
    rw [putWalk_step_extend_fail c1k c6v (trS4 100) (trS5 100) (trS6 100) ∅ 1 3 9
      (LeafPage.new 100).serialize anchorPg
      (trS4_get_anchor 100) (by decide) (by decide)
      (trS4_next_anchor 100 (by decide)) (trS4_alloc 100 (by norm_num))
      (by
        rw [trS6]
        exact put_page_bytes_ok _ _ _ (by decide))
      (by decide)]
  rw [show (10 : Nat) = 9 + 1 from rfl,
    put_branch_route (trT0 100) c1k c6v (9 + 1) ((trBp 100).serialize)
      trBpR 1 (by decide) (trS4_get_root 100) (by decide) (by decide) (by decide)]
  simp only [trT0_store_eq, trT0_dirty_eq, hwalk]

/-- C6 amended: the up-front value-size gate (value longer than
page_size - 64) does not by itself make the overflow-allocation path
succeed: the insert into the freshly wired empty page succeeds exactly when
key.length + value.length + 57 fits the store's page size (41 header + one
16-byte slot + the bytes), and writing it back needs 4 more bytes for the
CRC.  Under that fit bound the whole put returns success. -/
theorem c6_amended (t : DataTree) (key value : List Nat) (fuel : Nat)
    (rootBytes : List Nat) (bp : BranchPage) (pid newId : Nat)
    (bytes : List Nat) (page : LeafPage) (s1 s2 : InMemoryPageStore)
    (hsmall : (LeafPage.new t.store.page_size).is_value_too_large value = false)
    (hget : t.store.get_page_bytes t.root_page_id = .ok rootBytes)
    (htag : rootBytes.get? 0 = some 2)
    (hbp : BranchPage.deserialize rootBytes = some bp)
    (hfind : bp.find_page_id (keyToU64 key) = some pid)
    (hgetp : t.store.get_page_bytes pid = .ok bytes)
    (hparse : LeafPage.deserialize bytes = some page)
    (hfail : (page.insert key value).1 = false)
    (hnonext : t.store.get_next_page_id pid = some none)
    (halloc : t.store.allocate_page = some (newId, s1))
    (hput1 : s1.put_page_bytes pid (page.set_next_page_id newId).serialize = .ok s2)
    (hs2ps : s2.page_size = t.store.page_size)
    (hfit : key.length + value.length + 61 ≤ t.store.page_size) :
    ((LeafPage.new t.store.page_size).set_prev_page_id pid).insert key value
      = (true, c6NewPage t.store.page_size pid key value) ∧
    (t.put key value (fuel + 1)).1 = .ok := by
  have hins := insert_empty_ok t.store.page_size pid key value (by omega)
  have hlen : (c6NewPage t.store.page_size pid key value).serialize.length
      = 57 + (key.length + value.length) := by
    rw [leaf_serialize_length]
    simp only [c6NewPage, List.length_cons, List.length_nil, List.length_append]
  have hput2 := put_page_bytes_ok s2 newId
    (c6NewPage t.store.page_size pid key value).serialize (by rw [hlen, hs2ps]; omega)
  refine ⟨hins, ?_⟩
  rw [put_branch_route t key value (fuel + 1) rootBytes bp pid hsmall hget htag
      hbp hfind,
    putWalk_step_extend key value t.store s1 s2 _ t.dirty_pages pid newId fuel
      bytes page (c6NewPage t.store.page_size pid key value)
      hgetp hparse hfail hnonext halloc hput1 hins hput2]

/-- Witness: the first put of the 4096-page trace goes
through the overflow allocation and succeeds. -/
theorem c6_amended_witness :
    ((LeafPage.new (trT0 4096).store.page_size).set_prev_page_id 1).insert c1k c1v1
      = (true, c6NewPage (trT0 4096).store.page_size 1 c1k c1v1) ∧
    ((trT0 4096).put c1k c1v1 (9 + 1)).1 = .ok :=
  c6_amended (trT0 4096) c1k c1v1 9 ((trBp 4096).serialize) trBpR 1 3
    (LeafPage.new 4096).serialize anchorPg (trS5 4096) (trS6 4096)
    (by decide) (trS4_get_root 4096) (by decide) (by decide) (by decide)
    (trS4_get_anchor 4096) (by decide) (by decide)
    (trS4_next_anchor 4096 (by decide)) (trS4_alloc 4096 (by norm_num))
    (by
      rw [trS6]
      exact put_page_bytes_ok _ _ _ (by decide))
    (by decide) (by decide)

theorem putWalk_dirty_mono (key value : List Nat) :
    ∀ (fuel : Nat) (s : InMemoryPageStore) (dirty : Finset Nat) (pid : Nat),
      dirty ⊆ (putWalk key value s dirty pid fuel).2.2 := by
  intro fuel
  induction fuel with
  | zero => intro s dirty pid; exact Finset.Subset.refl _
  | succ n ih =>
    intro s dirty pid
    unfold putWalk
    rcases hget : s.get_page_bytes pid with e | bytes
    · simp only [hget]
      exact Finset.Subset.refl _
    simp only [hget]
    rcases hparse : LeafPage.deserialize bytes with _ | page
    · simp only [hparse]
      exact Finset.Subset.refl _
    simp only [hparse]
    by_cases hdel : (page.insert key value).1 = true
    · simp only [hdel, reduceIte]
      rcases hput : s.put_page_bytes pid (page.insert key value).2.serialize with e | s2
      · simp only [hput]
        exact Finset.Subset.refl _
      · simp only [hput]
        exact Finset.subset_insert _ _
    · simp only [hdel, reduceIte]
      rcases hnext : s.get_next_page_id pid with _ | onid
      · simp only [hnext]
        exact Finset.Subset.refl _
      rcases onid with _ | nid
      · simp only [hnext]
        rcases halloc : s.allocate_page with _ | p
        · simp only [halloc]
          exact Finset.Subset.refl _
        rcases p with ⟨newId, s1⟩
        simp only [halloc]
        rcases hput1 : s1.put_page_bytes pid (page.set_next_page_id newId).serialize
          with e | s2
        · simp only [hput1]
          exact Finset.Subset.refl _
        simp only [hput1]
        by_cases hins : (((LeafPage.new s.page_size).set_prev_page_id pid).insert
            key value).1 = true
        · simp only [hins, reduceIte]
          rcases hput2 : s2.put_page_bytes newId
              (((LeafPage.new s.page_size).set_prev_page_id pid).insert key value).2.serialize
            with e | s3
          · simp only [hput2]
            exact Finset.subset_insert _ _
          · simp only [hput2]
            exact (Finset.subset_insert _ _).trans (Finset.subset_insert _ _)
        · simp only [hins, reduceIte]
          exact Finset.subset_insert _ _
      · simp only [hnext]
        exact ih s dirty nid

theorem put_dirty_mono (t : DataTree) (key value : List Nat) (fuel : Nat) :
    t.dirty_pages ⊆ ((t.put key value fuel).2).dirty_pages := by
  unfold DataTree.put
  by_cases hlarge : (LeafPage.new t.store.page_size).is_value_too_large value = true
  · simp only [hlarge, reduceIte]
    exact Finset.Subset.refl _
  simp only [hlarge, reduceIte]
  rcases hget : t.store.get_page_bytes t.root_page_id with e | rootBytes
  · simp only [hget]
    exact Finset.Subset.refl _
  simp only [hget]
  rcases h0 : rootBytes.get? 0 with _ | t0
  · simp only [h0]
    exact Finset.Subset.refl _
  simp only [h0]
  by_cases htag : (PageType.from_u8 t0).getD .leafPage = .branchPage
  · simp only [htag, reduceIte]
    rcases hbp : BranchPage.deserialize rootBytes with _ | bp
    · simp only [hbp]
      exact Finset.Subset.refl _
    simp only [hbp]
    rcases hfind : bp.find_page_id (keyToU64 key) with _ | leafId
    · simp only [hfind]
      exact Finset.Subset.refl _
    · simp only [hfind]
      exact putWalk_dirty_mono key value fuel t.store t.dirty_pages leafId
  · simp only [htag, reduceIte]
    exact putWalk_dirty_mono key value fuel t.store t.dirty_pages t.root_page_id

theorem deleteWalk_dirty (key : List Nat) (rootId : Nat) :
    ∀ (fuel : Nat) (s : InMemoryPageStore) (dirty : Finset Nat) (pid x : Nat),
      x ∈ dirty →
      x ∈ (deleteWalk key rootId s dirty pid fuel).2.2 ∨
        storeLookup (deleteWalk key rootId s dirty pid fuel).2.1 x = none := by
  intro fuel
  induction fuel with
  | zero => intro s dirty pid x hx; exact Or.inl hx
  | succ n ih =>
    intro s dirty pid x hx
    unfold deleteWalk
    rcases hget : s.get_page_bytes pid with e | bytes
    · simp only [hget]
      exact Or.inl hx
    simp only [hget]
    rcases hparse : LeafPage.deserialize bytes with _ | page
    · simp only [hparse]
      exact Or.inl hx
    simp only [hparse]
    by_cases hdel : (page.delete key).1 = true
    · simp only [hdel, reduceIte]
      rcases hput : s.put_page_bytes pid (page.delete key).2.serialize with e | s2
      · simp only [hput]
        exact Or.inl hx
      simp only [hput]
      by_cases hguard : ((page.delete key).2.metadata.isEmpty = true ∧ pid ≠ rootId)
      · rw [if_pos hguard]
        by_cases hprev : (page.delete key).2.prev_page_id ≠ 0
        · rw [if_pos hprev]
          rcases hgp : s2.get_page_bytes (page.delete key).2.prev_page_id with e | pb
          · simp only [hgp]
            exact Or.inl (Finset.mem_insert_of_mem hx)
          simp only [hgp]
          rcases hpp : LeafPage.deserialize pb with _ | pp
          · simp only [hpp]
            exact Or.inl (Finset.mem_insert_of_mem hx)
          simp only [hpp]
          rcases hputp : s2.put_page_bytes (page.delete key).2.prev_page_id
              (pp.set_next_page_id (page.delete key).2.next_page_id).serialize
            with e | s3
          · simp only [hputp]
            exact Or.inl (Finset.mem_insert_of_mem hx)
          simp only [hputp]
          by_cases hnext : (page.delete key).2.next_page_id ≠ 0
          · rw [if_pos hnext]
            rcases hgn : s3.get_page_bytes (page.delete key).2.next_page_id with e | nb
            · simp only [hgn]
              exact Or.inl (Finset.mem_insert_of_mem (Finset.mem_insert_of_mem hx))
            simp only [hgn]
            rcases hnp : LeafPage.deserialize nb with _ | np
            · simp only [hnp]
              exact Or.inl (Finset.mem_insert_of_mem (Finset.mem_insert_of_mem hx))
            simp only [hnp]
            rcases hputn : s3.put_page_bytes (page.delete key).2.next_page_id
                (np.set_prev_page_id (page.delete key).2.prev_page_id).serialize
              with e | s4
            · simp only [hputn]
              exact Or.inl (Finset.mem_insert_of_mem (Finset.mem_insert_of_mem hx))
            simp only [hputn]
            by_cases hxp : x = pid
            · subst hxp
              exact Or.inr (storeLookup_free_self _ _)
            · exact Or.inl (Finset.mem_erase.mpr ⟨hxp, Finset.mem_insert_of_mem
                (Finset.mem_insert_of_mem (Finset.mem_insert_of_mem hx))⟩)
          · rw [if_neg hnext]
            dsimp only
            by_cases hxp : x = pid
            · subst hxp
              exact Or.inr (storeLookup_free_self _ _)
            · exact Or.inl (Finset.mem_erase.mpr ⟨hxp, Finset.mem_insert_of_mem
                (Finset.mem_insert_of_mem hx)⟩)
        · rw [if_neg hprev]
          dsimp only
          by_cases hnext : (page.delete key).2.next_page_id ≠ 0
          · rw [if_pos hnext]
            rcases hgn : s2.get_page_bytes (page.delete key).2.next_page_id with e | nb
            · simp only [hgn]
              exact Or.inl (Finset.mem_insert_of_mem hx)
            simp only [hgn]
            rcases hnp : LeafPage.deserialize nb with _ | np
            · simp only [hnp]
              exact Or.inl (Finset.mem_insert_of_mem hx)
            simp only [hnp]
            rcases hputn : s2.put_page_bytes (page.delete key).2.next_page_id
                (np.set_prev_page_id (page.delete key).2.prev_page_id).serialize
              with e | s4
            · simp only [hputn]
              exact Or.inl (Finset.mem_insert_of_mem hx)
            simp only [hputn]
            by_cases hxp : x = pid
            · subst hxp
              exact Or.inr (storeLookup_free_self _ _)
            · exact Or.inl (Finset.mem_erase.mpr ⟨hxp, Finset.mem_insert_of_mem
                (Finset.mem_insert_of_mem hx)⟩)
          · rw [if_neg hnext]
            dsimp only
            by_cases hxp : x = pid
            · subst hxp
              exact Or.inr (storeLookup_free_self _ _)
            · exact Or.inl (Finset.mem_erase.mpr ⟨hxp, Finset.mem_insert_of_mem hx⟩)
      · rw [if_neg hguard]
        exact Or.inl (Finset.mem_insert_of_mem hx)
    · simp only [hdel, Bool.false_eq_true, reduceIte]
      rcases hnext : s.get_next_page_id pid with _ | onid
      · simp only [hnext]
        exact Or.inl hx
      rcases onid with _ | nid
      · simp only [hnext]
        exact Or.inl hx
      · simp only [hnext]
        exact ih s dirty nid x hx

theorem delete_dirty (t : DataTree) (key : List Nat) (fuel : Nat) (x : Nat)
    (hx : x ∈ t.dirty_pages) :
    x ∈ ((t.delete key fuel).2).dirty_pages ∨
      storeLookup ((t.delete key fuel).2).store x = none := by
  unfold DataTree.delete
  rcases hget : t.store.get_page_bytes t.root_page_id with e | rootBytes
  · simp only [hget]
    exact Or.inl hx
  simp only [hget]
  rcases h0 : rootBytes.get? 0 with _ | t0
  · simp only [h0]
    exact Or.inl hx
  simp only [h0]
  by_cases htag : (PageType.from_u8 t0).getD .leafPage = .branchPage
  · simp only [htag, reduceIte]
    rcases hbp : BranchPage.deserialize rootBytes with _ | bp
    · simp only [hbp]
      exact Or.inl hx
    simp only [hbp]
    rcases hfind : bp.find_page_id (keyToU64 key) with _ | leafId
    · simp only [hfind]
      exact Or.inl hx
    · simp only [hfind]
      exact deleteWalk_dirty key t.root_page_id fuel t.store t.dirty_pages leafId x hx
  · simp only [htag, reduceIte]
    exact deleteWalk_dirty key t.root_page_id fuel t.store t.dirty_pages
      t.root_page_id x hx

theorem c1T1_root_eq : c1T1.root_page_id = 2 := rfl

theorem c8S2_put : (trS7 4096 c1k c1v1).put_page_bytes 3 c8Empty.serialize = .ok c8S2 := by
  rw [c8S2]
  exact put_page_bytes_ok _ _ _ (by decide)

theorem c8S2_get_1 : c8S2.get_page_bytes 1 = .ok anchorPg3.serialize := by
  rw [c8S2, get_page_bytes_insert_ne _ 3 1 _ (by decide)]
  exact trS7_get_1

theorem c8S3_put : c8S2.put_page_bytes 1 (anchorPg3.set_next_page_id 0).serialize
    = .ok c8S3 := by
  rw [c8S3]
  exact put_page_bytes_ok _ _ _ (by decide)

theorem c8_walk_eq :
    deleteWalk c1k 2 (trS7 4096 c1k c1v1) (insert 3 (insert 1 ∅)) 1 (9 + 1)
      = (.ok true, c8S3.free_page 3,
         (insert 1 (insert 3 (insert 3 (insert 1 (∅ : Finset Nat))))).erase 3) := by
  rw [deleteWalk_step_next c1k 2 (trS7 4096 c1k c1v1) (insert 3 (insert 1 ∅)) 1 3 9
    anchorPg3.serialize anchorPg3 trS7_get_1 (by decide) (by decide) trS7_next_1]
  show deleteWalk c1k 2 (trS7 4096 c1k c1v1) (insert 3 (insert 1 ∅)) 3 (8 + 1) = _
  rw [deleteWalk_step_free_with_prev c1k 2 (trS7 4096 c1k c1v1) c8S2 c8S3
    (insert 3 (insert 1 ∅)) 3 8 (chainPg 4096 1 c1k c1v1).serialize
    anchorPg3.serialize c1BR c8Empty anchorPg3
    trS7_get_3 (by decide) (by decide) c8S2_put rfl (by decide) rfl (by decide)
    c8S2_get_1 (by decide) c8S3_put]
  rfl

/-- C8: counterexample.  A successful delete can SHRINK the dirty set: after
the first put of the trace the dirty set is {3, 1}; deleting the key empties
chain page 3, which is unlinked, freed and erased from the dirty set, so the
post-delete dirty set {1} is not a superset of the pre-state {3, 1}. -/
theorem c8_counterexample :
    (c1T1.delete c1k 10).1 = .ok true ∧
    ¬ c1T1.dirty_pages ⊆ ((c1T1.delete c1k 10).2).dirty_pages := by
  have hdel : c1T1.delete c1k 10 = (.ok true, c8T2) := by
    rw [show (10 : Nat) = 9 + 1 from rfl,
      delete_branch_route c1T1 c1k (9 + 1) ((trBp 4096).serialize) trBpR 1
        trS7_get_root (by decide) (by decide) (by decide)]
    simp only [c1T1_store_eq, c1T1_root_eq, c1T1_dirty_eq, c8_walk_eq]
    rfl
  rw [hdel]
  exact ⟨rfl, by decide⟩

/-- C8 amended: put never removes a page from the dirty set, and flush
empties it; delete also only adds pages, EXCEPT that when it frees an
emptied leaf it erases that page from the dirty set — so a pre-state dirty
page either survives into the post-state dirty set or is gone from the
store itself. -/
theorem c8_amended :
    (∀ (t : DataTree) (key value : List Nat) (fuel : Nat),
      t.dirty_pages ⊆ ((t.put key value fuel).2).dirty_pages) ∧
    (∀ (t : DataTree) (key : List Nat) (fuel : Nat) (x : Nat), x ∈ t.dirty_pages →
      x ∈ ((t.delete key fuel).2).dirty_pages ∨
        storeLookup ((t.delete key fuel).2).store x = none) ∧
    (∀ t : DataTree, t.flush.dirty_pages = ∅) :=
  ⟨put_dirty_mono, delete_dirty, fun _ => rfl⟩

/-- Witness for the dirty-set theorem on the traced tree. -/
theorem c8_amended_witness :
    c1T1.dirty_pages ⊆ ((c1T1.put c1k c1v2 10).2).dirty_pages ∧
    (1 ∈ ((c1T1.delete c1k 10).2).dirty_pages ∨
      storeLookup ((c1T1.delete c1k 10).2).store 1 = none) ∧
    c1T1.flush.dirty_pages = ∅ :=
  ⟨c8_amended.1 c1T1 c1k c1v2 10, c8_amended.2.1 c1T1 c1k 10 1 (by decide),
   c8_amended.2.2 c1T1⟩

theorem from_u8_to_u8 (pt : PageType) : PageType.from_u8 pt.to_u8 = some pt := by
  cases pt <;> rfl

theorem parseBranchEntries_exact :
    ∀ (es : List BranchEntry) (pre post : List Nat),
      (∀ e ∈ es, e.page_id < 2 ^ 64 ∧ e.first_key < 2 ^ 64) →
      parseBranchEntries (pre ++ ((es.map BranchEntry.serialize).flatten ++ post))
        es.length pre.length = some es := by
  intro es
  induction es with
  | nil => intro pre post h; rfl
  | cons e es ih =>
    intro pre post h
    have he := h e (List.mem_cons_self _ _)
    have h256 : (256 : Nat) ^ 8 = 2 ^ 64 := by norm_num
    have hbs : pre ++ (((e :: es).map BranchEntry.serialize).flatten ++ post)
        = pre ++ (toLE 8 e.page_id ++ (toLE 8 e.first_key
            ++ ((es.map BranchEntry.serialize).flatten ++ post))) := by
      simp [BranchEntry.serialize, List.append_assoc]
    rw [hbs]
    show parseBranchEntries _ (es.length + 1) pre.length = _
    unfold parseBranchEntries
    rw [if_pos (by simp [toLE_length]; omega)]
    have hrec := ih (pre ++ (toLE 8 e.page_id ++ toLE 8 e.first_key)) post
      (fun x hx => h x (List.mem_cons_of_mem _ hx))
    rw [show (pre ++ (toLE 8 e.page_id ++ toLE 8 e.first_key))
          ++ ((es.map BranchEntry.serialize).flatten ++ post)
        = pre ++ (toLE 8 e.page_id ++ (toLE 8 e.first_key
            ++ ((es.map BranchEntry.serialize).flatten ++ post))) from by
          simp [List.append_assoc],
      show (pre ++ (toLE 8 e.page_id ++ toLE 8 e.first_key)).length
        = pre.length + 16 from by simp [toLE_length]] at hrec
    simp only [hrec, Option.bind_eq_bind, Option.some_bind]
    have h1 : sliceL (pre ++ (toLE 8 e.page_id ++ (toLE 8 e.first_key
        ++ ((es.map BranchEntry.serialize).flatten ++ post)))) pre.length 8
        = toLE 8 e.page_id := by
      have hx := sliceL_exact pre (toLE 8 e.page_id)
        (toLE 8 e.first_key ++ ((es.map BranchEntry.serialize).flatten ++ post))
      simpa [toLE_length] using hx
    have h2 : sliceL (pre ++ (toLE 8 e.page_id ++ (toLE 8 e.first_key
        ++ ((es.map BranchEntry.serialize).flatten ++ post)))) (pre.length + 8) 8
        = toLE 8 e.first_key := by
      have hx := sliceL_exact (pre ++ toLE 8 e.page_id) (toLE 8 e.first_key)
        ((es.map BranchEntry.serialize).flatten ++ post)
      simpa [toLE_length, List.append_assoc] using hx
    rw [h1, h2, fromLE_toLE 8 e.page_id (by omega), fromLE_toLE 8 e.first_key (by omega)]

theorem branch_roundtrip (p : BranchPage)
    (hc : p.entries.length < 2 ^ 64)
    (hprev : p.prev_page_id < 2 ^ 64) (hnext : p.next_page_id < 2 ^ 64)
    (he : ∀ e ∈ p.entries, e.page_id < 2 ^ 64 ∧ e.first_key < 2 ^ 64) :
    BranchPage.deserialize p.serialize
      = some { p with page_size := p.serialize.length } := by
  have h1 : p.serialize = [p.page_type.to_u8] ++ (toLE 8 p.entries.length
      ++ (toLE 8 p.prev_page_id ++ (toLE 8 p.next_page_id
        ++ (p.entries.map BranchEntry.serialize).flatten))) := by
    simp [BranchPage.serialize, List.append_assoc]
  have hb0 : p.serialize.get? 0 = some p.page_type.to_u8 := by rw [h1]; rfl
  have r1 : readU64 p.serialize 1 = some p.entries.length := by
    rw [h1]
    exact readU64_exact_lt [p.page_type.to_u8] _ _ hc
  have r9 : readU64 p.serialize 9 = some p.prev_page_id := by
    rw [h1]
    have hx := readU64_exact_lt ([p.page_type.to_u8] ++ toLE 8 p.entries.length)
      (toLE 8 p.next_page_id ++ (p.entries.map BranchEntry.serialize).flatten)
      p.prev_page_id hprev
    simpa [toLE_length, List.append_assoc] using hx
  have r17 : readU64 p.serialize 17 = some p.next_page_id := by
    rw [h1]
    have hx := readU64_exact_lt
      ([p.page_type.to_u8] ++ toLE 8 p.entries.length ++ toLE 8 p.prev_page_id)
      ((p.entries.map BranchEntry.serialize).flatten) p.next_page_id hnext
    simpa [toLE_length, List.append_assoc] using hx
  have hent : parseBranchEntries p.serialize p.entries.length BRANCH_HEADER
      = some p.entries := by
    show parseBranchEntries p.serialize p.entries.length 25 = some p.entries
    rw [h1]
    have hx := parseBranchEntries_exact p.entries
      ([p.page_type.to_u8] ++ toLE 8 p.entries.length ++ toLE 8 p.prev_page_id
        ++ toLE 8 p.next_page_id) [] he
    simpa [toLE_length, List.append_assoc] using hx
  unfold BranchPage.deserialize
  simp only [hb0, r1, r9, r17, hent, Option.bind_eq_bind, Option.some_bind,
    from_u8_to_u8, Option.getD_some]

theorem parseLeafMetas_exact :
    ∀ (ms : List KeyValueMeta) (pre post : List Nat) (cur : Nat),
      (∀ m ∈ ms, m.key_length < 2 ^ 64 ∧ m.value_length < 2 ^ 64) →
      metaContig cur ms = true →
      parseLeafMetas
        (pre ++ ((ms.map (fun m => toLE 8 m.key_length ++ toLE 8 m.value_length)).flatten
          ++ post)) ms.length pre.length cur = some ms := by
  intro ms
  induction ms with
  | nil => intro pre post cur h hco; rfl
  | cons m ms ih =>
    intro pre post cur h hco
    have hm := h m (List.mem_cons_self _ _)
    unfold metaContig at hco
    rw [Bool.and_eq_true, Bool.and_eq_true] at hco
    rcases hco with ⟨⟨hko, hvo⟩, hco3⟩
    have hko : m.key_offset = cur := by exact_mod_cast beq_iff_eq.mp hko
    have hvo : m.value_offset = cur + m.key_length := by exact_mod_cast beq_iff_eq.mp hvo
    have hbs : pre ++ (((m :: ms).map
          (fun m => toLE 8 m.key_length ++ toLE 8 m.value_length)).flatten ++ post)
        = pre ++ (toLE 8 m.key_length ++ (toLE 8 m.value_length
            ++ ((ms.map (fun m => toLE 8 m.key_length ++ toLE 8 m.value_length)).flatten
              ++ post))) := by
      simp [List.append_assoc]
    rw [hbs]
    show parseLeafMetas _ (ms.length + 1) pre.length cur = _
    unfold parseLeafMetas
    have r1 : readU64 (pre ++ (toLE 8 m.key_length ++ (toLE 8 m.value_length
        ++ ((ms.map (fun m => toLE 8 m.key_length ++ toLE 8 m.value_length)).flatten
          ++ post)))) pre.length = some m.key_length :=
      readU64_exact_lt pre _ _ hm.1
    have r2 : readU64 (pre ++ (toLE 8 m.key_length ++ (toLE 8 m.value_length
        ++ ((ms.map (fun m => toLE 8 m.key_length ++ toLE 8 m.value_length)).flatten
          ++ post)))) (pre.length + 8) = some m.value_length := by
      have hx := readU64_exact_lt (pre ++ toLE 8 m.key_length)
        ((ms.map (fun m => toLE 8 m.key_length ++ toLE 8 m.value_length)).flatten
          ++ post) m.value_length hm.2
      simpa [toLE_length, List.append_assoc] using hx
    have hrec := ih (pre ++ (toLE 8 m.key_length ++ toLE 8 m.value_length)) post
      (cur + m.key_length + m.value_length)
      (fun x hx => h x (List.mem_cons_of_mem _ hx)) hco3
    rw [show (pre ++ (toLE 8 m.key_length ++ toLE 8 m.value_length))
          ++ ((ms.map (fun m => toLE 8 m.key_length ++ toLE 8 m.value_length)).flatten
            ++ post)
        = pre ++ (toLE 8 m.key_length ++ (toLE 8 m.value_length
            ++ ((ms.map (fun m => toLE 8 m.key_length ++ toLE 8 m.value_length)).flatten
              ++ post))) from by simp [List.append_assoc],
      show (pre ++ (toLE 8 m.key_length ++ toLE 8 m.value_length)).length
        = pre.length + 16 from by simp [toLE_length]] at hrec
    simp only [r1, r2, hrec, Option.bind_eq_bind, Option.some_bind]
    rw [← hvo, ← hko]

theorem leaf_roundtrip (p : LeafPage)
    (hkv : ∀ m ∈ p.metadata, m.key_length < 2 ^ 64 ∧ m.value_length < 2 ^ 64)
    (hcontig : metaContig 0 p.metadata = true)
    (hd : p.data.length < 2 ^ 64)
    (hds : 41 + 16 * p.metadata.length < 2 ^ 64)
    (hprev : p.prev_page_id < 2 ^ 64) (hnext : p.next_page_id < 2 ^ 64) :
    LeafPage.deserialize p.serialize
      = some { p with page_size := p.serialize.length } := by
  have hc : p.metadata.length < 2 ^ 64 := by omega
  have h1 : p.serialize = [p.page_type.to_u8] ++ (toLE 8 p.metadata.length
      ++ (toLE 8 (LEAF_HEADER + 16 * p.metadata.length)
        ++ (toLE 8 p.data.length ++ (toLE 8 p.prev_page_id
          ++ (toLE 8 p.next_page_id
            ++ ((p.metadata.map
                  (fun m => toLE 8 m.key_length ++ toLE 8 m.value_length)).flatten
              ++ p.data)))))) := by
    simp [LeafPage.serialize, List.append_assoc]
  have hb0 : p.serialize.get? 0 = some p.page_type.to_u8 := by rw [h1]; rfl
  have r1 : readU64 p.serialize 1 = some p.metadata.length := by
    rw [h1]
    exact readU64_exact_lt [p.page_type.to_u8] _ _ hc
  have r9 : readU64 p.serialize 9 = some (41 + 16 * p.metadata.length) := by
    rw [h1]
    have hx := readU64_exact_lt ([p.page_type.to_u8] ++ toLE 8 p.metadata.length)
      (toLE 8 p.data.length ++ (toLE 8 p.prev_page_id ++ (toLE 8 p.next_page_id
        ++ ((p.metadata.map
              (fun m => toLE 8 m.key_length ++ toLE 8 m.value_length)).flatten
          ++ p.data)))) (LEAF_HEADER + 16 * p.metadata.length) (by
        show 41 + 16 * p.metadata.length < 2 ^ 64
        omega)
    simpa [toLE_length, List.append_assoc] using hx
  have r17 : readU64 p.serialize 17 = some p.data.length := by
    rw [h1]
    have hx := readU64_exact_lt ([p.page_type.to_u8] ++ toLE 8 p.metadata.length
        ++ toLE 8 (LEAF_HEADER + 16 * p.metadata.length))
      (toLE 8 p.prev_page_id ++ (toLE 8 p.next_page_id
        ++ ((p.metadata.map
              (fun m => toLE 8 m.key_length ++ toLE 8 m.value_length)).flatten
          ++ p.data))) p.data.length hd
    simpa [toLE_length, List.append_assoc] using hx
  have r25 : readU64 p.serialize 25 = some p.prev_page_id := by
    rw [h1]
    have hx := readU64_exact_lt ([p.page_type.to_u8] ++ toLE 8 p.metadata.length
        ++ toLE 8 (LEAF_HEADER + 16 * p.metadata.length) ++ toLE 8 p.data.length)
      (toLE 8 p.next_page_id
        ++ ((p.metadata.map
              (fun m => toLE 8 m.key_length ++ toLE 8 m.value_length)).flatten
          ++ p.data)) p.prev_page_id hprev
    simpa [toLE_length, List.append_assoc] using hx
  have r33 : readU64 p.serialize 33 = some p.next_page_id := by
    rw [h1]
    have hx := readU64_exact_lt ([p.page_type.to_u8] ++ toLE 8 p.metadata.length
        ++ toLE 8 (LEAF_HEADER + 16 * p.metadata.length) ++ toLE 8 p.data.length
        ++ toLE 8 p.prev_page_id)
      ((p.metadata.map (fun m => toLE 8 m.key_length ++ toLE 8 m.value_length)).flatten
        ++ p.data) p.next_page_id hnext
    simpa [toLE_length, List.append_assoc] using hx
  have hmet : parseLeafMetas p.serialize p.metadata.length LEAF_HEADER 0
      = some p.metadata := by
    show parseLeafMetas p.serialize p.metadata.length 41 0 = some p.metadata
    rw [h1]
    have hx := parseLeafMetas_exact p.metadata
      ([p.page_type.to_u8] ++ toLE 8 p.metadata.length
        ++ toLE 8 (LEAF_HEADER + 16 * p.metadata.length) ++ toLE 8 p.data.length
        ++ toLE 8 p.prev_page_id ++ toLE 8 p.next_page_id) p.data 0 hkv hcontig
    simpa [toLE_length, List.append_assoc] using hx
  have hslice : sliceL p.serialize (41 + 16 * p.metadata.length) p.data.length
      = p.data := by
    rw [h1]
    have hx := sliceL_exact ([p.page_type.to_u8] ++ toLE 8 p.metadata.length
        ++ toLE 8 (LEAF_HEADER + 16 * p.metadata.length) ++ toLE 8 p.data.length
        ++ toLE 8 p.prev_page_id ++ toLE 8 p.next_page_id
        ++ (p.metadata.map
              (fun m => toLE 8 m.key_length ++ toLE 8 m.value_length)).flatten)
      p.data []
    have hms : ∀ ms : List KeyValueMeta,
        ((ms.map (fun m => toLE 8 m.key_length ++ toLE 8 m.value_length)).flatten).length
          = 16 * ms.length := by
      intro ms
      induction ms with
      | nil => simp
      | cons x xs ihx =>
        simp only [List.map_cons, List.flatten_cons, List.length_append, ihx,
          toLE_length, List.length_cons]
        ring
    simp only [List.append_nil, List.length_append, List.length_singleton,
      toLE_length, hms] at hx
    rw [show ((1 : Nat) + 8 + 8 + 8 + 8 + 8 + 16 * p.metadata.length)
        = 41 + 16 * p.metadata.length from by ring] at hx
    simpa [List.append_assoc] using hx
  have hlen : p.serialize.length = 41 + 16 * p.metadata.length + p.data.length :=
    leaf_serialize_length p
  unfold LeafPage.deserialize
  simp only [hb0, r1, r9, r17, r25, r33, hmet, Option.bind_eq_bind, Option.some_bind,
    from_u8_to_u8, Option.getD_some]
  rw [if_pos (by omega), hslice]

theorem rleContent_length (p : RleLeafPage) :
    (rleContent p).length = 41 + 32 * p.metadata.length + p.data.length := by
  have hms : ∀ ms : List RleLeafPageEntry,
      ((ms.map (fun m => toLE 8 m.start_key ++ toLE 8 m.end_key
        ++ toLE 8 m.value_offset ++ toLE 8 m.value_length)).flatten).length
        = 32 * ms.length := by
    intro ms
    induction ms with
    | nil => simp
    | cons x xs ihx =>
      simp only [List.map_cons, List.flatten_cons, List.length_append, ihx,
        toLE_length, List.length_cons]
      ring
  simp only [rleContent, List.length_append, List.length_singleton, toLE_length,
    hms, RLE_HEADER, RLE_ENTRY_SIZE]

theorem rle_serialize_content (p : RleLeafPage) :
    p.serialize = rleContent p
      ++ List.replicate (p.page_size - (rleContent p).length) 0 := rfl

theorem rle_serialize_length (p : RleLeafPage)
    (hfit : 41 + 32 * p.metadata.length + p.data.length ≤ p.page_size) :
    p.serialize.length = p.page_size := by
  have h1 : p.serialize.length
      = (rleContent p).length + (p.page_size - (rleContent p).length) := by
    rw [rle_serialize_content]
    simp
  have h2 := rleContent_length p
  omega

theorem parseRleMetas_exact :
    ∀ (ms : List RleLeafPageEntry) (pre post : List Nat),
      (∀ m ∈ ms, m.start_key < 2 ^ 64 ∧ m.end_key < 2 ^ 64 ∧
        m.value_offset < 2 ^ 64 ∧ m.value_length < 2 ^ 64) →
      parseRleMetas (pre ++ ((ms.map (fun m => toLE 8 m.start_key ++ toLE 8 m.end_key
          ++ toLE 8 m.value_offset ++ toLE 8 m.value_length)).flatten ++ post))
        ms.length pre.length = ms := by
  intro ms
  induction ms with
  | nil => intro pre post h; rfl
  | cons m ms ih =>
    intro pre post h
    have hm := h m (List.mem_cons_self _ _)
    have hbs : pre ++ (((m :: ms).map (fun m => toLE 8 m.start_key ++ toLE 8 m.end_key
          ++ toLE 8 m.value_offset ++ toLE 8 m.value_length)).flatten ++ post)
        = pre ++ (toLE 8 m.start_key ++ (toLE 8 m.end_key ++ (toLE 8 m.value_offset
            ++ (toLE 8 m.value_length
              ++ ((ms.map (fun m => toLE 8 m.start_key ++ toLE 8 m.end_key
                    ++ toLE 8 m.value_offset ++ toLE 8 m.value_length)).flatten
                ++ post))))) := by
      simp [List.append_assoc]
    rw [hbs]
    show parseRleMetas _ (ms.length + 1) pre.length = _
    unfold parseRleMetas
    rw [if_pos (by
      show pre.length + RLE_ENTRY_SIZE ≤ _
      simp [toLE_length, RLE_ENTRY_SIZE]
      omega)]
    have h1 : sliceL (pre ++ (toLE 8 m.start_key ++ (toLE 8 m.end_key
        ++ (toLE 8 m.value_offset ++ (toLE 8 m.value_length
          ++ ((ms.map (fun m => toLE 8 m.start_key ++ toLE 8 m.end_key
                ++ toLE 8 m.value_offset ++ toLE 8 m.value_length)).flatten
            ++ post)))))) pre.length 8 = toLE 8 m.start_key := by
      have hx := sliceL_exact pre (toLE 8 m.start_key) (toLE 8 m.end_key
        ++ (toLE 8 m.value_offset ++ (toLE 8 m.value_length
          ++ ((ms.map (fun m => toLE 8 m.start_key ++ toLE 8 m.end_key
                ++ toLE 8 m.value_offset ++ toLE 8 m.value_length)).flatten
            ++ post))))
      simpa [toLE_length] using hx
    have h2 : sliceL (pre ++ (toLE 8 m.start_key ++ (toLE 8 m.end_key
        ++ (toLE 8 m.value_offset ++ (toLE 8 m.value_length
          ++ ((ms.map (fun m => toLE 8 m.start_key ++ toLE 8 m.end_key
                ++ toLE 8 m.value_offset ++ toLE 8 m.value_length)).flatten
            ++ post)))))) (pre.length + 8) 8 = toLE 8 m.end_key := by
      have hx := sliceL_exact (pre ++ toLE 8 m.start_key) (toLE 8 m.end_key)
        (toLE 8 m.value_offset ++ (toLE 8 m.value_length
          ++ ((ms.map (fun m => toLE 8 m.start_key ++ toLE 8 m.end_key
                ++ toLE 8 m.value_offset ++ toLE 8 m.value_length)).flatten
            ++ post)))
      simpa [toLE_length, List.append_assoc] using hx
    have h3 : sliceL (pre ++ (toLE 8 m.start_key ++ (toLE 8 m.end_key
        ++ (toLE 8 m.value_offset ++ (toLE 8 m.value_length
          ++ ((ms.map (fun m => toLE 8 m.start_key ++ toLE 8 m.end_key
                ++ toLE 8 m.value_offset ++ toLE 8 m.value_length)).flatten
            ++ post)))))) (pre.length + 16) 8 = toLE 8 m.value_offset := by
      have hx := sliceL_exact (pre ++ toLE 8 m.start_key ++ toLE 8 m.end_key)
        (toLE 8 m.value_offset) (toLE 8 m.value_length
          ++ ((ms.map (fun m => toLE 8 m.start_key ++ toLE 8 m.end_key
                ++ toLE 8 m.value_offset ++ toLE 8 m.value_length)).flatten
            ++ post))
      simpa [toLE_length, List.append_assoc] using hx
    have h4 : sliceL (pre ++ (toLE 8 m.start_key ++ (toLE 8 m.end_key
        ++ (toLE 8 m.value_offset ++ (toLE 8 m.value_length
          ++ ((ms.map (fun m => toLE 8 m.start_key ++ toLE 8 m.end_key
                ++ toLE 8 m.value_offset ++ toLE 8 m.value_length)).flatten
            ++ post)))))) (pre.length + 24) 8 = toLE 8 m.value_length := by
      have hx := sliceL_exact
        (pre ++ toLE 8 m.start_key ++ toLE 8 m.end_key ++ toLE 8 m.value_offset)
        (toLE 8 m.value_length)
        ((ms.map (fun m => toLE 8 m.start_key ++ toLE 8 m.end_key
              ++ toLE 8 m.value_offset ++ toLE 8 m.value_length)).flatten ++ post)
      simpa [toLE_length, List.append_assoc] using hx
    have hrec := ih (pre ++ (toLE 8 m.start_key ++ toLE 8 m.end_key
        ++ toLE 8 m.value_offset ++ toLE 8 m.value_length)) post
      (fun x hx => h x (List.mem_cons_of_mem _ hx))
    rw [show (pre ++ (toLE 8 m.start_key ++ toLE 8 m.end_key ++ toLE 8 m.value_offset
          ++ toLE 8 m.value_length))
          ++ ((ms.map (fun m => toLE 8 m.start_key ++ toLE 8 m.end_key
                ++ toLE 8 m.value_offset ++ toLE 8 m.value_length)).flatten ++ post)
        = pre ++ (toLE 8 m.start_key ++ (toLE 8 m.end_key ++ (toLE 8 m.value_offset
            ++ (toLE 8 m.value_length
              ++ ((ms.map (fun m => toLE 8 m.start_key ++ toLE 8 m.end_key
                    ++ toLE 8 m.value_offset ++ toLE 8 m.value_length)).flatten
                ++ post))))) from by simp [List.append_assoc],
      show (pre ++ (toLE 8 m.start_key ++ toLE 8 m.end_key ++ toLE 8 m.value_offset
          ++ toLE 8 m.value_length)).length = pre.length + RLE_ENTRY_SIZE from by
        simp [toLE_length, RLE_ENTRY_SIZE]] at hrec
    rw [h1, h2, h3, h4, fromLE_toLE 8 m.start_key (by
        have h256 : (256 : Nat) ^ 8 = 2 ^ 64 := by norm_num
        omega),
      fromLE_toLE 8 m.end_key (by
        have h256 : (256 : Nat) ^ 8 = 2 ^ 64 := by norm_num
        omega),
      fromLE_toLE 8 m.value_offset (by
        have h256 : (256 : Nat) ^ 8 = 2 ^ 64 := by norm_num
        omega),
      fromLE_toLE 8 m.value_length (by
        have h256 : (256 : Nat) ^ 8 = 2 ^ 64 := by norm_num
        omega), hrec]

theorem rle_slots_length (ms : List RleLeafPageEntry) :
    ((ms.map (fun m => toLE 8 m.start_key ++ toLE 8 m.end_key
      ++ toLE 8 m.value_offset ++ toLE 8 m.value_length)).flatten).length
      = 32 * ms.length := by
  induction ms with
  | nil => simp
  | cons x xs ihx =>
    simp only [List.map_cons, List.flatten_cons, List.length_append, ihx,
      toLE_length, List.length_cons]
    ring

theorem rle_roundtrip (p : RleLeafPage)
    (hm : ∀ m ∈ p.metadata, m.start_key < 2 ^ 64 ∧ m.end_key < 2 ^ 64 ∧
      m.value_offset < 2 ^ 64 ∧ m.value_length < 2 ^ 64)
    (hd : p.data.length < 2 ^ 64)
    (hds : 41 + 32 * p.metadata.length < 2 ^ 64)
    (hprev : p.prev_page_id < 2 ^ 64) (hnext : p.next_page_id < 2 ^ 64)
    (hfit : 41 + 32 * p.metadata.length + p.data.length ≤ p.page_size) :
    RleLeafPage.deserialize p.serialize = some p := by
  have hc : p.metadata.length < 2 ^ 64 := by omega
  have hlen := rle_serialize_length p hfit
  have h1 : p.serialize = [p.page_type.to_u8] ++ (toLE 8 p.metadata.length
      ++ (toLE 8 (RLE_HEADER + RLE_ENTRY_SIZE * p.metadata.length)
        ++ (toLE 8 p.data.length ++ (toLE 8 p.prev_page_id
          ++ (toLE 8 p.next_page_id
            ++ ((p.metadata.map (fun m => toLE 8 m.start_key ++ toLE 8 m.end_key
                  ++ toLE 8 m.value_offset ++ toLE 8 m.value_length)).flatten
              ++ (p.data
                ++ List.replicate (p.page_size - (rleContent p).length) 0))))))) := by
    rw [rle_serialize_content]
    simp [rleContent, List.append_assoc]
  have hb0 : p.serialize.get? 0 = some p.page_type.to_u8 := by rw [h1]; rfl
  have r1 : readU64 p.serialize 1 = some p.metadata.length := by
    rw [h1]
    exact readU64_exact_lt [p.page_type.to_u8] _ _ hc
  have r9 : readU64 p.serialize 9
      = some (RLE_HEADER + RLE_ENTRY_SIZE * p.metadata.length) := by
    rw [h1]
    have hx := readU64_exact_lt ([p.page_type.to_u8] ++ toLE 8 p.metadata.length)
      (toLE 8 p.data.length ++ (toLE 8 p.prev_page_id ++ (toLE 8 p.next_page_id
        ++ ((p.metadata.map (fun m => toLE 8 m.start_key ++ toLE 8 m.end_key
              ++ toLE 8 m.value_offset ++ toLE 8 m.value_length)).flatten
          ++ (p.data ++ List.replicate (p.page_size - (rleContent p).length) 0)))))
      (RLE_HEADER + RLE_ENTRY_SIZE * p.metadata.length) (by
        show 41 + 32 * p.metadata.length < 2 ^ 64
        omega)
    simpa [toLE_length, List.append_assoc] using hx
  have r17 : readU64 p.serialize 17 = some p.data.length := by
    rw [h1]
    have hx := readU64_exact_lt ([p.page_type.to_u8] ++ toLE 8 p.metadata.length
        ++ toLE 8 (RLE_HEADER + RLE_ENTRY_SIZE * p.metadata.length))
      (toLE 8 p.prev_page_id ++ (toLE 8 p.next_page_id
        ++ ((p.metadata.map (fun m => toLE 8 m.start_key ++ toLE 8 m.end_key
              ++ toLE 8 m.value_offset ++ toLE 8 m.value_length)).flatten
          ++ (p.data ++ List.replicate (p.page_size - (rleContent p).length) 0))))
      p.data.length hd
    simpa [toLE_length, List.append_assoc] using hx
  have r25 : readU64 p.serialize 25 = some p.prev_page_id := by
    rw [h1]
    have hx := readU64_exact_lt ([p.page_type.to_u8] ++ toLE 8 p.metadata.length
        ++ toLE 8 (RLE_HEADER + RLE_ENTRY_SIZE * p.metadata.length)
        ++ toLE 8 p.data.length)
      (toLE 8 p.next_page_id
        ++ ((p.metadata.map (fun m => toLE 8 m.start_key ++ toLE 8 m.end_key
              ++ toLE 8 m.value_offset ++ toLE 8 m.value_length)).flatten
          ++ (p.data ++ List.replicate (p.page_size - (rleContent p).length) 0)))
      p.prev_page_id hprev
    simpa [toLE_length, List.append_assoc] using hx
  have r33 : readU64 p.serialize 33 = some p.next_page_id := by
    rw [h1]
    have hx := readU64_exact_lt ([p.page_type.to_u8] ++ toLE 8 p.metadata.length
        ++ toLE 8 (RLE_HEADER + RLE_ENTRY_SIZE * p.metadata.length)
        ++ toLE 8 p.data.length ++ toLE 8 p.prev_page_id)
      ((p.metadata.map (fun m => toLE 8 m.start_key ++ toLE 8 m.end_key
            ++ toLE 8 m.value_offset ++ toLE 8 m.value_length)).flatten
        ++ (p.data ++ List.replicate (p.page_size - (rleContent p).length) 0))
      p.next_page_id hnext
    simpa [toLE_length, List.append_assoc] using hx
  have hmet : parseRleMetas p.serialize p.metadata.length RLE_HEADER
      = p.metadata := by
    rw [h1]
    have hx := parseRleMetas_exact p.metadata
      ([p.page_type.to_u8] ++ toLE 8 p.metadata.length
        ++ toLE 8 (RLE_HEADER + RLE_ENTRY_SIZE * p.metadata.length)
        ++ toLE 8 p.data.length ++ toLE 8 p.prev_page_id ++ toLE 8 p.next_page_id)
      (p.data ++ List.replicate (p.page_size - (rleContent p).length) 0) hm
    simpa [toLE_length, List.append_assoc, RLE_HEADER] using hx
  have hslice : sliceL p.serialize (RLE_HEADER + RLE_ENTRY_SIZE * p.metadata.length)
      p.data.length = p.data := by
    rw [h1]
    have hx := sliceL_exact ([p.page_type.to_u8] ++ toLE 8 p.metadata.length
        ++ toLE 8 (RLE_HEADER + RLE_ENTRY_SIZE * p.metadata.length)
        ++ toLE 8 p.data.length ++ toLE 8 p.prev_page_id ++ toLE 8 p.next_page_id
        ++ (p.metadata.map (fun m => toLE 8 m.start_key ++ toLE 8 m.end_key
              ++ toLE 8 m.value_offset ++ toLE 8 m.value_length)).flatten)
      p.data (List.replicate (p.page_size - (rleContent p).length) 0)
    simp only [List.length_append, List.length_singleton, toLE_length,
      rle_slots_length] at hx
    rw [show ((1 : Nat) + 8 + 8 + 8 + 8 + 8 + 32 * p.metadata.length)
        = RLE_HEADER + RLE_ENTRY_SIZE * p.metadata.length from by
          simp only [RLE_HEADER, RLE_ENTRY_SIZE]] at hx
    simpa [List.append_assoc] using hx
  unfold RleLeafPage.deserialize
  rw [if_neg (by
    show ¬ (p.serialize.length < 41)
    omega)]
  simp only [hb0, r1, r9, r17, r25, r33, hmet, Option.bind_eq_bind, Option.some_bind,
    from_u8_to_u8, Option.getD_some, hlen]
  by_cases hdl : RLE_HEADER + RLE_ENTRY_SIZE * p.metadata.length < p.page_size
  · rw [if_pos hdl, Nat.min_eq_left (by
      show RLE_HEADER + RLE_ENTRY_SIZE * p.metadata.length + p.data.length ≤ _
      simp only [RLE_HEADER, RLE_ENTRY_SIZE]
      omega),
      show RLE_HEADER + RLE_ENTRY_SIZE * p.metadata.length + p.data.length
          - (RLE_HEADER + RLE_ENTRY_SIZE * p.metadata.length) = p.data.length from by
        simp only [RLE_HEADER, RLE_ENTRY_SIZE]
        omega,
      hslice]
  · rw [if_neg hdl]
    simp only [RLE_HEADER, RLE_ENTRY_SIZE] at hdl
    have hd0 : p.data = [] := List.length_eq_zero.mp (by omega)
    rw [show ([] : List Nat) = p.data from hd0.symm]

/-- C4: counterexample.  page_size does not survive the leaf round trip:
serializing the fresh 4096-byte leaf writes 41 bytes and deserializing sets
page_size to the buffer length, so the reloaded page records 41, not 4096;
the pages differ even though the fresh leaf satisfies the data-model
invariants. -/
theorem c4_counterexample :
    LeafPage.deserialize ((LeafPage.new 4096).serialize) = some anchorPg ∧
    anchorPg.page_size = 41 ∧
    (LeafPage.new 4096).page_size = 4096 ∧
    anchorPg ≠ LeafPage.new 4096 := by decide

/-- C4 amended: for leaf and branch pages satisfying the data-model
invariants (contiguous slot offsets in slot order for leaves, all u64
fields in range), deserialize∘serialize restores every field EXCEPT
page_size, which becomes the serialized byte length (the unpadded content
size).  Only the RLE codec, which pads its image to page_size, round-trips
all fields exactly, provided its content fits the page. -/
theorem c4_amended :
    (∀ p : LeafPage,
      (∀ m ∈ p.metadata, m.key_length < 2 ^ 64 ∧ m.value_length < 2 ^ 64) →
      metaContig 0 p.metadata = true →
      p.data.length < 2 ^ 64 → 41 + 16 * p.metadata.length < 2 ^ 64 →
      p.prev_page_id < 2 ^ 64 → p.next_page_id < 2 ^ 64 →
      LeafPage.deserialize p.serialize
        = some { p with page_size := p.serialize.length }) ∧
    (∀ p : BranchPage,
      p.entries.length < 2 ^ 64 →
      p.prev_page_id < 2 ^ 64 → p.next_page_id < 2 ^ 64 →
      (∀ e ∈ p.entries, e.page_id < 2 ^ 64 ∧ e.first_key < 2 ^ 64) →
      BranchPage.deserialize p.serialize
        = some { p with page_size := p.serialize.length }) ∧
    (∀ p : RleLeafPage,
      (∀ m ∈ p.metadata, m.start_key < 2 ^ 64 ∧ m.end_key < 2 ^ 64 ∧
        m.value_offset < 2 ^ 64 ∧ m.value_length < 2 ^ 64) →
      p.data.length < 2 ^ 64 → 41 + 32 * p.metadata.length < 2 ^ 64 →
      p.prev_page_id < 2 ^ 64 → p.next_page_id < 2 ^ 64 →
      41 + 32 * p.metadata.length + p.data.length ≤ p.page_size →
      RleLeafPage.deserialize p.serialize = some p) :=
  ⟨fun p a b c d e f => leaf_roundtrip p a b c d e f,
   fun p a b c d => branch_roundtrip p a b c d,
   fun p a b c d e f => rle_roundtrip p a b c d e f⟩

/-- Witness for the round-trip theorem on concrete pages of each kind. -/
theorem c4_amended_witness :
    LeafPage.deserialize c1BR.serialize
      = some { c1BR with page_size := c1BR.serialize.length } ∧
    BranchPage.deserialize trBpR.serialize
      = some { trBpR with page_size := trBpR.serialize.length } ∧
    RleLeafPage.deserialize c4Rle.serialize = some c4Rle :=
  ⟨c4_amended.1 c1BR (by decide) (by decide) (by decide) (by decide) (by decide)
      (by decide),
   c4_amended.2.1 trBpR (by decide) (by decide) (by decide) (by decide),
   c4_amended.2.2 c4Rle (by decide) (by decide) (by decide) (by decide) (by decide)
      (by decide)⟩

/-- C9: counterexample.  Three puts from the empty RLE page (0 maps to "A",
1 maps to "B", then 1 maps to "A") all succeed, and the overwrite goes
through split_run_and_insert, which never merges with neighbors: the final
page holds the adjacent runs (0,0) and (1,1) both carrying the byte-equal
value "A". -/
theorem c9_counterexample :
    ((RleLeafPage.new_empty 1024).put 0 [65]).1 = true ∧
    (((RleLeafPage.new_empty 1024).put 0 [65]).2.put 1 [66]).1 = true ∧
    ((((RleLeafPage.new_empty 1024).put 0 [65]).2.put 1 [66]).2.put 1 [65]).1 = true ∧
    ((((RleLeafPage.new_empty 1024).put 0 [65]).2.put 1 [66]).2.put 1 [65]).2.metadata
      = [{ start_key := 0, end_key := 0, value_offset := 0, value_length := 1 },
         { start_key := 1, end_key := 1, value_offset := 0, value_length := 1 }] ∧
    rleNoAdjEq ((((RleLeafPage.new_empty 1024).put 0 [65]).2.put 1 [66]).2.put
        1 [65]).2 = false := by decide

/-- C9 amended: adjacent byte-equal runs are merged only by put's adjacency
scan, not universally: when the scan finds no containing run, a run ending
at key - 1 with byte-equal value is extended in place, a run starting at
key + 1 with byte-equal value is extended in place, and when both exist the
two runs are bridged into one; but the overwrite path
(split_run_and_insert) performs no merging, so the no-adjacent-equal-values
invariant can be violated by put sequences that overwrite inside a run (see
the counterexample). -/
theorem c9_amended :
    (∀ (p : RleLeafPage) (key : Nat) (value : List Nat) (bi : Nat)
        (bm : RleLeafPageEntry),
      rleScan key p.metadata 0 none none = (none, none, some bi) →
      p.metadata.getD bi default = bm →
      (p.entryValue bm == value) = true →
      p.put key value
        = (true, { p with metadata := p.metadata.set bi { bm with end_key := key } })) ∧
    (∀ (p : RleLeafPage) (key : Nat) (value : List Nat) (ai : Nat)
        (am : RleLeafPageEntry),
      rleScan key p.metadata 0 none none = (none, some ai, none) →
      p.metadata.getD ai default = am →
      (p.entryValue am == value) = true →
      p.put key value
        = (true, { p with metadata := p.metadata.set ai { am with start_key := key } })) ∧
    (∀ (p : RleLeafPage) (key : Nat) (value : List Nat) (ai bi : Nat)
        (am bm : RleLeafPageEntry),
      rleScan key p.metadata 0 none none = (none, some ai, some bi) →
      p.metadata.getD ai default = am →
      p.metadata.getD bi default = bm →
      (p.entryValue am == value) = true →
      (p.entryValue bm == value) = true →
      p.put key value
        = (true, { p with metadata :=
            (p.metadata.set bi { bm with end_key := am.end_key }).eraseIdx ai })) := by
  refine ⟨?_, ?_, ?_⟩
  · intro p key value bi bm hscan hbm heq
    unfold RleLeafPage.put
    simp only [hscan, hbm, heq, reduceIte]
  · intro p key value ai am hscan ham heq
    unfold RleLeafPage.put
    simp only [hscan, ham, heq, reduceIte]
  · intro p key value ai bi am bm hscan ham hbm heqa heqb
    unfold RleLeafPage.put
    simp only [hscan, ham, hbm, heqa, heqb, reduceIte]

/-- Witness for the merge-path theorem on the three one- and two-run pages. -/
theorem c9_amended_witness :
    c9B.put 1 [65] = (true, { c9B with metadata := c9B.metadata.set 0 c9e01 }) ∧
    c9A.put 1 [65] = (true, { c9A with metadata := c9A.metadata.set 0 c9e12 }) ∧
    c9M.put 1 [65]
      = (true, { c9M with metadata := (c9M.metadata.set 0 c9e02).eraseIdx 1 }) := by
  refine ⟨?_, ?_, ?_⟩
  · have h := c9_amended.1 c9B 1 [65] 0 c9e00 (by decide) (by decide) (by decide)
    rw [h]
    decide
  · have h := c9_amended.2.1 c9A 1 [65] 0 c9e22 (by decide) (by decide) (by decide)
    rw [h]
    decide
  · have h := c9_amended.2.2 c9M 1 [65] 1 0 c9e22 c9e00 (by decide) (by decide)
      (by decide) (by decide) (by decide)
    rw [h]
    decide

theorem put_page_bytes_inv (s : InMemoryPageStore) (id : Nat) (bytes : List Nat)
    (s2 : InMemoryPageStore) (h : s.put_page_bytes id bytes = .ok s2) :
    s2 = storeInsert s id (add_crc bytes) := by
  unfold InMemoryPageStore.put_page_bytes at h
  by_cases hc : bytes.length + 4 > s.page_size
  · rw [if_pos hc] at h
    cases h
  · rw [if_neg hc] at h
    injection h with h
    exact h.symm

theorem allocate_page_inv (s : InMemoryPageStore) (newId : Nat)
    (s1 : InMemoryPageStore) (h : s.allocate_page = some (newId, s1)) :
    newId = s.next_page_id ∧ s1.next_page_id = s.next_page_id + 1 ∧
      (∀ id2, id2 ≠ s.next_page_id → storeLookup s1 id2 = storeLookup s id2) := by
  unfold InMemoryPageStore.allocate_page at h
  by_cases hc : s.next_page_id + 1 ≥ 2 ^ 64
  · rw [if_pos hc] at h
    cases h
  · rw [if_neg hc] at h
    rcases hput : ({ s with next_page_id := s.next_page_id + 1 }
        : InMemoryPageStore).put_page_bytes s.next_page_id
        (LeafPage.new s.page_size).serialize with e | s2
    · simp only [hput] at h
      exact Option.noConfusion h
    · simp only [hput, Option.some.injEq, Prod.mk.injEq] at h
      obtain ⟨hid, hs2⟩ := h
      have hinv := put_page_bytes_inv _ _ _ _ hput
      refine ⟨hid.symm, ?_, ?_⟩
      · rw [← hs2, hinv]
        simp
      · intro id2 hne
        rw [← hs2, hinv, storeLookup_insert_ne _ _ _ _ hne, storeLookup_with_next]

theorem delete_links (p : LeafPage) (key : List Nat) :
    (p.delete key).2.prev_page_id = p.prev_page_id ∧
    (p.delete key).2.next_page_id = p.next_page_id := by
  unfold LeafPage.delete
  rcases hf : p.metadata.findIdx? (fun m => p.metaKey m == key) with _ | pos
  · simp only [hf]
    refine ⟨?_, ?_⟩ <;> first | rfl | trivial
  · simp only [hf]
    unfold LeafPage.compact_data
    by_cases he : ({ p with metadata := p.metadata.eraseIdx pos }
        : LeafPage).metadata.isEmpty = true
    · rw [if_pos he]
      exact ⟨rfl, rfl⟩
    · rw [if_neg he]
      exact ⟨rfl, rfl⟩

theorem get_next_page_id_missing (s : InMemoryPageStore) (id : Nat)
    (h : storeLookup s id = none) : s.get_next_page_id id = some none := by
  unfold InMemoryPageStore.get_next_page_id
  rw [h]

theorem get_page_bytes_missing (s : InMemoryPageStore) (id : Nat)
    (h : storeLookup s id = none) : s.get_page_bytes id = .error .notFound := by
  unfold InMemoryPageStore.get_page_bytes
  rw [h]

theorem branchFindFrom_mem (key : Nat) :
    ∀ (es : List BranchEntry) (id : Nat), branchFindFrom key es = some id →
      ∃ e ∈ es, e.page_id = id := by
  intro es
  induction es with
  | nil => intro id h; cases h
  | cons e es ih =>
    intro id h
    cases es with
    | nil =>
      simp only [branchFindFrom, Option.some.injEq] at h
      exact ⟨e, List.mem_cons_self _ _, h⟩
    | cons e2 rest =>
      unfold branchFindFrom at h
      by_cases hc : e.first_key ≤ key ∧ key < e2.first_key
      · rw [if_pos hc] at h
        injection h with h
        exact ⟨e, List.mem_cons_self _ _, h⟩
      · rw [if_neg hc] at h
        obtain ⟨x, hx, hxid⟩ := ih id h
        exact ⟨x, List.mem_cons_of_mem _ hx, hxid⟩

theorem find_page_id_mem (p : BranchPage) (key id : Nat)
    (h : p.find_page_id key = some id) : ∃ e ∈ p.entries, e.page_id = id := by
  unfold BranchPage.find_page_id at h
  rcases hes : p.entries with _ | ⟨e0, rest⟩
  · rw [hes] at h
    cases h
  · rw [hes] at h
    dsimp only at h
    by_cases hc : key < e0.first_key
    · rw [if_pos hc] at h
      injection h with h
      exact ⟨e0, List.mem_cons_self _ _, h⟩
    · rw [if_neg hc] at h
      obtain ⟨x, hx, hxid⟩ := branchFindFrom_mem key (e0 :: rest) id h
      exact ⟨x, hx, hxid⟩

theorem putWalk_root_frame (key value : List Nat) (rootId : Nat) :
    ∀ (fuel : Nat) (s : InMemoryPageStore) (dirty : Finset Nat) (pid : Nat),
      pid ≠ rootId → rootId < s.next_page_id →
      (∀ id nid, id ≠ rootId → s.get_next_page_id id = some (some nid) →
        nid ≠ rootId) →
      storeLookup (putWalk key value s dirty pid fuel).2.1 rootId
        = storeLookup s rootId := by
  intro fuel
  induction fuel with
  | zero => intro s dirty pid _ _ _; rfl
  | succ n ih =>
    intro s dirty pid hpid hroot hnx
    unfold putWalk
    rcases hget : s.get_page_bytes pid with e | bytes
    · simp only [hget]
    simp only [hget]
    rcases hparse : LeafPage.deserialize bytes with _ | page
    · simp only [hparse]
    simp only [hparse]
    by_cases hdel : (page.insert key value).1 = true
    · simp only [hdel, reduceIte]
      rcases hput : s.put_page_bytes pid (page.insert key value).2.serialize
        with e | s2
      · simp only [hput]
      · simp only [hput]
        rw [put_page_bytes_inv _ _ _ _ hput]
        exact storeLookup_insert_ne _ _ _ _ (Ne.symm hpid)
    · simp only [hdel, Bool.false_eq_true, reduceIte]
      rcases hnext : s.get_next_page_id pid with _ | onid
      · simp only [hnext]
      rcases onid with _ | nid
      · simp only [hnext]
        rcases halloc : s.allocate_page with _ | pr
        · simp only [halloc]
        rcases pr with ⟨newId, s1⟩
        simp only [halloc]
        obtain ⟨hnew, hs1next, hs1look⟩ := allocate_page_inv _ _ _ halloc
        rcases hput1 : s1.put_page_bytes pid (page.set_next_page_id newId).serialize
          with e | s2
        · simp only [hput1]
          exact hs1look rootId (by omega)
        simp only [hput1]
        have hs2 := put_page_bytes_inv _ _ _ _ hput1
        by_cases hins : (((LeafPage.new s.page_size).set_prev_page_id pid).insert
            key value).1 = true
        · simp only [hins, reduceIte]
          rcases hput2 : s2.put_page_bytes newId
              (((LeafPage.new s.page_size).set_prev_page_id pid).insert
                key value).2.serialize with e | s3
          · simp only [hput2]
            rw [hs2, storeLookup_insert_ne _ _ _ _ (Ne.symm hpid)]
            exact hs1look rootId (by omega)
          · simp only [hput2]
            rw [put_page_bytes_inv _ _ _ _ hput2,
              storeLookup_insert_ne _ _ _ _ (by omega : rootId ≠ newId), hs2,
              storeLookup_insert_ne _ _ _ _ (Ne.symm hpid)]
            exact hs1look rootId (by omega)
        · simp only [hins, Bool.false_eq_true, reduceIte]
          rw [hs2, storeLookup_insert_ne _ _ _ _ (Ne.symm hpid)]
          exact hs1look rootId (by omega)
      · simp only [hnext]
        exact ih s dirty nid (hnx pid nid hpid hnext) hroot hnx

theorem deleteWalk_root_frame (key : List Nat) (rootId : Nat) :
    ∀ (fuel : Nat) (s : InMemoryPageStore) (dirty : Finset Nat) (pid : Nat),
      pid ≠ rootId →
      (∀ id nid, id ≠ rootId → s.get_next_page_id id = some (some nid) →
        nid ≠ rootId) →
      (∀ id bytes pg, id ≠ rootId → s.get_page_bytes id = .ok bytes →
        LeafPage.deserialize bytes = some pg →
        pg.prev_page_id ≠ rootId ∧ pg.next_page_id ≠ rootId) →
      storeLookup (deleteWalk key rootId s dirty pid fuel).2.1 rootId
        = storeLookup s rootId := by
  intro fuel
  induction fuel with
  | zero => intro s dirty pid _ _ _; rfl
  | succ n ih =>
    intro s dirty pid hpid hnx hlk
    unfold deleteWalk
    rcases hget : s.get_page_bytes pid with e | bytes
    · simp only [hget]
    simp only [hget]
    rcases hparse : LeafPage.deserialize bytes with _ | page
    · simp only [hparse]
    simp only [hparse]
    have hpage := hlk pid bytes page hpid hget hparse
    have hl2 := delete_links page key
    by_cases hdel : (page.delete key).1 = true
    · simp only [hdel, reduceIte]
      rcases hput : s.put_page_bytes pid (page.delete key).2.serialize with e | s2
      · simp only [hput]
      simp only [hput]
      have hs2 := put_page_bytes_inv _ _ _ _ hput
      have hs2look : storeLookup s2 rootId = storeLookup s rootId := by
        rw [hs2]
        exact storeLookup_insert_ne _ _ _ _ (Ne.symm hpid)
      by_cases hguard : ((page.delete key).2.metadata.isEmpty = true ∧ pid ≠ rootId)
      · rw [if_pos hguard]
        by_cases hprev : (page.delete key).2.prev_page_id ≠ 0
        · rw [if_pos hprev]
          rcases hgp : s2.get_page_bytes (page.delete key).2.prev_page_id
            with e | pb
          · simp only [hgp]
            exact hs2look
          simp only [hgp]
          rcases hpp : LeafPage.deserialize pb with _ | pp
          · simp only [hpp]
            exact hs2look
          simp only [hpp]
          rcases hputp : s2.put_page_bytes (page.delete key).2.prev_page_id
              (pp.set_next_page_id (page.delete key).2.next_page_id).serialize
            with e | s3
          · simp only [hputp]
            exact hs2look
          simp only [hputp]
          have hprevne : (page.delete key).2.prev_page_id ≠ rootId := by
            rw [hl2.1]
            exact hpage.1
          have hs3look : storeLookup s3 rootId = storeLookup s rootId := by
            rw [put_page_bytes_inv _ _ _ _ hputp,
              storeLookup_insert_ne _ _ _ _ (Ne.symm hprevne)]
            exact hs2look
          by_cases hnext : (page.delete key).2.next_page_id ≠ 0
          · rw [if_pos hnext]
            rcases hgn : s3.get_page_bytes (page.delete key).2.next_page_id
              with e | nb
            · simp only [hgn]
              exact hs3look
            simp only [hgn]
            rcases hnp : LeafPage.deserialize nb with _ | np
            · simp only [hnp]
              exact hs3look
            simp only [hnp]
            rcases hputn : s3.put_page_bytes (page.delete key).2.next_page_id
                (np.set_prev_page_id (page.delete key).2.prev_page_id).serialize
              with e | s4
            · simp only [hputn]
              exact hs3look
            simp only [hputn]
            have hnextne : (page.delete key).2.next_page_id ≠ rootId := by
              rw [hl2.2]
              exact hpage.2
            rw [storeLookup_free_ne _ _ _ (Ne.symm hpid),
              put_page_bytes_inv _ _ _ _ hputn,
              storeLookup_insert_ne _ _ _ _ (Ne.symm hnextne)]
            exact hs3look
          · rw [if_neg hnext]
            dsimp only
            rw [storeLookup_free_ne _ _ _ (Ne.symm hpid)]
            exact hs3look
        · rw [if_neg hprev]
          dsimp only
          by_cases hnext : (page.delete key).2.next_page_id ≠ 0
          · rw [if_pos hnext]
            rcases hgn : s2.get_page_bytes (page.delete key).2.next_page_id
              with e | nb
            · simp only [hgn]
              exact hs2look
            simp only [hgn]
            rcases hnp : LeafPage.deserialize nb with _ | np
            · simp only [hnp]
              exact hs2look
            simp only [hnp]
            rcases hputn : s2.put_page_bytes (page.delete key).2.next_page_id
                (np.set_prev_page_id (page.delete key).2.prev_page_id).serialize
              with e | s4
            · simp only [hputn]
              exact hs2look
            simp only [hputn]
            have hnextne : (page.delete key).2.next_page_id ≠ rootId := by
              rw [hl2.2]
              exact hpage.2
            rw [storeLookup_free_ne _ _ _ (Ne.symm hpid),
              put_page_bytes_inv _ _ _ _ hputn,
              storeLookup_insert_ne _ _ _ _ (Ne.symm hnextne)]
            exact hs2look
          · rw [if_neg hnext]
            dsimp only
            rw [storeLookup_free_ne _ _ _ (Ne.symm hpid)]
            exact hs2look
      · rw [if_neg hguard]
        exact hs2look
    · simp only [hdel, Bool.false_eq_true, reduceIte]
      rcases hnext : s.get_next_page_id pid with _ | onid
      · simp only [hnext]
      rcases onid with _ | nid
      · simp only [hnext]
      · simp only [hnext]
        exact ih s dirty nid (hnx pid nid hpid hnext) hnx hlk

theorem put_root_frame (t : DataTree) (key value : List Nat) (fuel : Nat)
    (rootBytes : List Nat) (bp : BranchPage)
    (hget : t.store.get_page_bytes t.root_page_id = .ok rootBytes)
    (htag : rootBytes.get? 0 = some 2)
    (hbp : BranchPage.deserialize rootBytes = some bp)
    (hent : ∀ e ∈ bp.entries, e.page_id ≠ t.root_page_id)
    (hinv : C10Inv t.store t.root_page_id) :
    storeLookup ((t.put key value fuel).2).store t.root_page_id
      = storeLookup t.store t.root_page_id ∧
    ((t.put key value fuel).2).root_page_id = t.root_page_id := by
  obtain ⟨h1, h2, h3⟩ := hinv
  unfold DataTree.put
  by_cases hlarge : (LeafPage.new t.store.page_size).is_value_too_large value
      = true
  · simp only [hlarge, reduceIte]
    exact ⟨by first | rfl | trivial, by first | rfl | trivial⟩
  simp only [hlarge, Bool.false_eq_true, reduceIte, hget]
  rw [htag]
  simp only [PageType.from_u8, Option.getD_some, reduceIte, hbp]
  rcases hfind : bp.find_page_id (keyToU64 key) with _ | leafId
  · simp only [hfind]
    exact ⟨by first | rfl | trivial, by first | rfl | trivial⟩
  · simp only [hfind]
    refine ⟨?_, by first | rfl | trivial⟩
    have hleaf : leafId ≠ t.root_page_id := by
      obtain ⟨e, he, heid⟩ := find_page_id_mem bp (keyToU64 key) leafId hfind
      rw [← heid]
      exact hent e he
    exact putWalk_root_frame key value t.root_page_id fuel t.store t.dirty_pages
      leafId hleaf h1 h2

theorem delete_root_frame (t : DataTree) (key : List Nat) (fuel : Nat)
    (rootBytes : List Nat) (bp : BranchPage)
    (hget : t.store.get_page_bytes t.root_page_id = .ok rootBytes)
    (htag : rootBytes.get? 0 = some 2)
    (hbp : BranchPage.deserialize rootBytes = some bp)
    (hent : ∀ e ∈ bp.entries, e.page_id ≠ t.root_page_id)
    (hinv : C10Inv t.store t.root_page_id) :
    storeLookup ((t.delete key fuel).2).store t.root_page_id
      = storeLookup t.store t.root_page_id ∧
    ((t.delete key fuel).2).root_page_id = t.root_page_id := by
  obtain ⟨h1, h2, h3⟩ := hinv
  unfold DataTree.delete
  simp only [hget]
  rw [htag]
  simp only [PageType.from_u8, Option.getD_some, reduceIte, hbp]
  rcases hfind : bp.find_page_id (keyToU64 key) with _ | leafId
  · simp only [hfind]
    exact ⟨by first | rfl | trivial, by first | rfl | trivial⟩
  · simp only [hfind]
    refine ⟨?_, by first | rfl | trivial⟩
    have hleaf : leafId ≠ t.root_page_id := by
      obtain ⟨e, he, heid⟩ := find_page_id_mem bp (keyToU64 key) leafId hfind
      rw [← heid]
      exact hent e he
    exact deleteWalk_root_frame key t.root_page_id fuel t.store t.dirty_pages
      leafId hleaf h2 h3

theorem trS4_lookup_none (id : Nat) (h2 : id ≠ 2) (h1 : id ≠ 1) :
    storeLookup (trS4 4096) id = none := by
  rw [trS4, storeLookup_insert_ne _ _ _ _ h2, trS3,
    storeLookup_insert_ne _ _ _ _ h2, storeLookup_with_next, trS2,
    storeLookup_insert_ne _ _ _ _ h1, trS1,
    storeLookup_insert_ne _ _ _ _ h1, storeLookup_with_next]
  rfl

theorem trS4_c10inv : C10Inv (trS4 4096) 2 := by
  refine ⟨by decide, ?_, ?_⟩
  · intro id nid hne hq
    by_cases h1 : id = 1
    · subst h1
      rw [trS4_next_anchor 4096 (by decide)] at hq
      simp at hq
    · rw [get_next_page_id_missing _ _ (trS4_lookup_none id hne h1)] at hq
      simp at hq
  · intro id bytes pg hne hgetb hparse
    by_cases h1 : id = 1
    · subst h1
      rw [trS4_get_anchor 4096] at hgetb
      injection hgetb with hb
      rw [← hb] at hparse
      rw [show LeafPage.deserialize ((LeafPage.new 4096).serialize)
          = some anchorPg from by decide] at hparse
      injection hparse with hp
      rw [← hp]
      exact ⟨by decide, by decide⟩
    · rw [get_page_bytes_missing _ _ (trS4_lookup_none id hne h1)] at hgetb
      cases hgetb

/-- C10: on a branch-rooted tree satisfying the structural store invariant
(the root id precedes the allocation counter, branch entries and stored
chain links never name the root id — all true of trees built through the
API), put and delete leave the root page's stored bytes unchanged: its
store binding, the readable image, and hence the branch entry list are all
exactly as before, and the root page id is untouched.  get takes the tree
immutably and returns only a result, so it cannot modify any page. -/
theorem c10_root_frame (t : DataTree) (key value dkey : List Nat)
    (fuel dfuel : Nat) (rootBytes : List Nat) (bp : BranchPage)
    (hget : t.store.get_page_bytes t.root_page_id = .ok rootBytes)
    (htag : rootBytes.get? 0 = some 2)
    (hbp : BranchPage.deserialize rootBytes = some bp)
    (hent : ∀ e ∈ bp.entries, e.page_id ≠ t.root_page_id)
    (hinv : C10Inv t.store t.root_page_id) :
    storeLookup ((t.put key value fuel).2).store t.root_page_id
      = storeLookup t.store t.root_page_id ∧
    ((t.put key value fuel).2).root_page_id = t.root_page_id ∧
    ((t.put key value fuel).2).store.get_page_bytes t.root_page_id
      = .ok rootBytes ∧
    storeLookup ((t.delete dkey dfuel).2).store t.root_page_id
      = storeLookup t.store t.root_page_id ∧
    ((t.delete dkey dfuel).2).root_page_id = t.root_page_id ∧
    ((t.delete dkey dfuel).2).store.get_page_bytes t.root_page_id
      = .ok rootBytes := by
  have hro : ∀ s' : InMemoryPageStore,
      storeLookup s' t.root_page_id = storeLookup t.store t.root_page_id →
      s'.get_page_bytes t.root_page_id = .ok rootBytes := by
    intro s' hs
    unfold InMemoryPageStore.get_page_bytes at hget ⊢
    rw [hs]
    exact hget
  obtain ⟨hp1, hp2⟩ := put_root_frame t key value fuel rootBytes bp hget htag
    hbp hent hinv
  obtain ⟨hd1, hd2⟩ := delete_root_frame t dkey dfuel rootBytes bp hget htag
    hbp hent hinv
  exact ⟨hp1, hp2, hro _ hp1, hd1, hd2, hro _ hd1⟩

/-- Witness for the root-frame theorem on the fresh branch-rooted 4096-byte tree. -/
theorem c10_root_frame_witness :
    storeLookup (((trT0 4096).put c1k c1v1 10).2).store (trT0 4096).root_page_id
      = storeLookup (trT0 4096).store (trT0 4096).root_page_id ∧
    (((trT0 4096).put c1k c1v1 10).2).root_page_id = (trT0 4096).root_page_id ∧
    (((trT0 4096).put c1k c1v1 10).2).store.get_page_bytes
        (trT0 4096).root_page_id = .ok ((trBp 4096).serialize) ∧
    storeLookup (((trT0 4096).delete c1k 10).2).store (trT0 4096).root_page_id
      = storeLookup (trT0 4096).store (trT0 4096).root_page_id ∧
    (((trT0 4096).delete c1k 10).2).root_page_id = (trT0 4096).root_page_id ∧
    (((trT0 4096).delete c1k 10).2).store.get_page_bytes
        (trT0 4096).root_page_id = .ok ((trBp 4096).serialize) :=
  c10_root_frame (trT0 4096) c1k c1v1 c1k 10 10 ((trBp 4096).serialize) trBpR
    (trS4_get_root 4096) (by decide) (by decide) (by decide) trS4_c10inv

end DataTreeSpec

